import Mathlib

set_option maxHeartbeats 1000000

/-!
Verification of the EncryptedSurvey contract
(src/backend/contracts/EncryptedSurvey.sol).

The FHEVM ciphertext algebra is modelled as a plaintext-shadowing state:
every homomorphic operation allocates a fresh handle (a natural number)
whose plaintext value (reduced mod 2^32, matching euint32) is recorded in
a `plain` map, and the ACL is the list of (handle, grantee) pairs issued
by `FHE.allow` / `FHE.allowThis` so far.  Solidity storage mappings are
total functions with the all-zero default, matching EVM storage.
External encrypted inputs with their proofs (`externalEuint32` +
`bytes proof`) are modelled by the plaintext values they prove;
`FHE.fromExternal` imports such a value into a fresh handle.  The two
length requires of `submitResponse` (answers and proofs) coincide under
this modelling and appear as a single length check.
-/

namespace EncryptedSurvey

/-- 2^32, the modulus of euint32 arithmetic. -/
def M32 : Nat := 4294967296

/-- A party that can appear in a ciphertext ACL grant: the executing
contract itself (`FHE.allowThis`) or an external account (`FHE.allow`). -/
inductive Grantee where
  | contract : Grantee
  | user : Nat → Grantee
deriving DecidableEq, Repr

/-- State of the external FHE co-processor: the next fresh handle id,
the plaintext shadow of every handle, and the ACL grants issued so far. -/
structure FheState where
  nextHandle : Nat
  plain : Nat → Nat
  acl : List (Nat × Grantee)

/-- Initial FHE state: handle 0 is the uninitialized-handle default of a
Solidity `euint32` storage slot (plaintext 0); real handles start at 1. -/
def initFhe : FheState :=
  { nextHandle := 1, plain := fun _ => 0, acl := [] }

/-- Allocate a fresh handle carrying plaintext `v % 2^32`. -/
def fresh (fs : FheState) (v : Nat) : Nat × FheState :=
  (fs.nextHandle,
   { nextHandle := fs.nextHandle + 1
     plain := fun h => if h = fs.nextHandle then v % M32 else fs.plain h
     acl := fs.acl })

/-- FHE.asEuint32: trivial encryption of a 32-bit constant. -/
def asEuint32 (fs : FheState) (v : Nat) : Nat × FheState := fresh fs v

/-- FHE.fromExternal: import an externally encrypted, proof-checked value. -/
def fromExternal (fs : FheState) (v : Nat) : Nat × FheState := fresh fs v

/-- FHE.eq producing an encrypted 0/1 indicator. -/
def fheEq (fs : FheState) (h1 h2 : Nat) : Nat × FheState :=
  fresh fs (if fs.plain h1 = fs.plain h2 then 1 else 0)

/-- FHE.gt producing an encrypted 0/1 indicator of `h1 > h2`. -/
def fheGt (fs : FheState) (h1 h2 : Nat) : Nat × FheState :=
  fresh fs (if fs.plain h2 < fs.plain h1 then 1 else 0)

/-- FHE.and: bitwise conjunction. -/
def fheAnd (fs : FheState) (h1 h2 : Nat) : Nat × FheState :=
  fresh fs (Nat.land (fs.plain h1) (fs.plain h2))

/-- FHE.select c a b: a if the ciphertext condition is non-zero, else b. -/
def fheSelect (fs : FheState) (c h1 h2 : Nat) : Nat × FheState :=
  fresh fs (if fs.plain c ≠ 0 then fs.plain h1 else fs.plain h2)

/-- FHE.add: 32-bit wrapping addition. -/
def fheAdd (fs : FheState) (h1 h2 : Nat) : Nat × FheState :=
  fresh fs (fs.plain h1 + fs.plain h2)

/-- FHE.allow: extend the ACL of handle `h` to grantee `g`. -/
def allow (fs : FheState) (h : Nat) (g : Grantee) : FheState :=
  { fs with acl := (h, g) :: fs.acl }

/-- FHE.allowThis: extend the ACL of `h` to the executing contract. -/
def allowThis (fs : FheState) (h : Nat) : FheState :=
  allow fs h Grantee.contract

/-- The QuestionType enum of the contract. -/
inductive QuestionType where
  | SingleChoice : QuestionType
  | MultipleChoice : QuestionType
  | Rating : QuestionType
deriving DecidableEq, Repr

/-- The Question struct. -/
structure Question where
  text : String
  qType : QuestionType
  optionCount : Nat
  options : List String
deriving DecidableEq, Repr

/-- Default (all-zero) Question, as read from untouched EVM storage. -/
def defaultQuestion : Question :=
  { text := "", qType := QuestionType.SingleChoice, optionCount := 0, options := [] }

/-- The Survey struct.  `existsF` is the `exists` flag of the source
(`exists` is reserved in Lean).  Handles are stored for
`aggregatedCounts` and `totalResponses`; the deprecated, never-read
`optionVotes` mapping is omitted. -/
structure Survey where
  creator : Nat
  title : String
  category : String
  tags : List String
  createdAt : Nat
  startTime : Nat
  endTime : Nat
  existsF : Bool
  isActive : Bool
  questionCount : Nat
  questions : Nat → Question
  aggregatedCounts : Nat → Nat → Nat
  totalResponses : Nat

/-- Default Survey in untouched storage. -/
def defaultSurvey : Survey :=
  { creator := 0, title := "", category := "", tags := [], createdAt := 0
    startTime := 0, endTime := 0, existsF := false, isActive := false
    questionCount := 0, questions := fun _ => defaultQuestion
    aggregatedCounts := fun _ _ => 0, totalResponses := 0 }

/-- The Response struct. -/
structure Response where
  encryptedAnswers : Nat → Nat
  existsF : Bool
  submittedAt : Nat

/-- Default Response in untouched storage. -/
def defaultResponse : Response :=
  { encryptedAnswers := fun _ => 0, existsF := false, submittedAt := 0 }

/-- The Permission struct. -/
structure Permission where
  canView : Bool
  canExport : Bool
  canManage : Bool
  existsF : Bool
deriving DecidableEq, Repr

/-- Default Permission in untouched storage. -/
def defaultPermission : Permission :=
  { canView := false, canExport := false, canManage := false, existsF := false }

/-- Full contract storage plus the FHE co-processor state. -/
structure ContractState where
  surveys : Nat → Survey
  responses : Nat → Nat → Response
  permissions : Nat → Nat → Permission
  surveyCounter : Nat
  fhe : FheState

/-- Freshly deployed contract. -/
def initState : ContractState :=
  { surveys := fun _ => defaultSurvey
    responses := fun _ _ => defaultResponse
    permissions := fun _ _ => defaultPermission
    surveyCounter := 0
    fhe := initFhe }

/-- Point update of a one-key storage mapping. -/
def upd {α : Type} (f : Nat → α) (k : Nat) (v : α) : Nat → α :=
  fun x => if x = k then v else f x

/-- Point update of a two-key storage mapping. -/
def upd2 {α : Type} (f : Nat → Nat → α) (k1 k2 : Nat) (v : α) : Nat → Nat → α :=
  upd f k1 (upd (f k1) k2 v)

/-- Build the questions mapping written by the createSurvey loop. -/
def buildQuestions (questionTexts : List String) (questionTypes : List QuestionType)
    (questionOptions : List (List String)) : Nat → Question :=
  fun i =>
    if i < questionTexts.length then
      { text := questionTexts.getD i ""
        qType := questionTypes.getD i QuestionType.SingleChoice
        optionCount := (questionOptions.getD i []).length
        options := questionOptions.getD i [] }
    else defaultQuestion

/-- The requires of createSurvey (source lines 121-125 and the
per-question checks of lines 142-143). -/
def createOk (title : String) (startTime endTime : Nat)
    (questionTexts : List String) (questionTypes : List QuestionType)
    (questionOptions : List (List String)) : Prop :=
  title ≠ "" ∧ startTime < endTime ∧
  0 < questionTexts.length ∧ questionTexts.length ≤ 20 ∧
  questionTexts.length = questionTypes.length ∧
  questionTexts.length = questionOptions.length ∧
  (∀ t ∈ questionTexts, t ≠ "") ∧ (∀ l ∈ questionOptions, l ≠ [])

instance (title : String) (startTime endTime : Nat)
    (questionTexts : List String) (questionTypes : List QuestionType)
    (questionOptions : List (List String)) :
    Decidable (createOk title startTime endTime questionTexts questionTypes
      questionOptions) := by
  unfold createOk
  infer_instance

/-- The survey record written by a successful createSurvey. -/
def createSv (s : ContractState) (sender now : Nat) (title category : String)
    (tags : List String) (startTime endTime : Nat) (questionTexts : List String)
    (questionTypes : List QuestionType) (questionOptions : List (List String)) :
    Survey :=
  { creator := sender, title := title, category := category, tags := tags
    createdAt := now, startTime := startTime, endTime := endTime
    existsF := true, isActive := true
    questionCount := questionTexts.length
    questions := buildQuestions questionTexts questionTypes questionOptions
    aggregatedCounts := fun _ _ => 0
    totalResponses := s.fhe.nextHandle }

/-- The state produced by a successful createSurvey. -/
def createState (s : ContractState) (sender now : Nat) (title category : String)
    (tags : List String) (startTime endTime : Nat) (questionTexts : List String)
    (questionTypes : List QuestionType) (questionOptions : List (List String)) :
    ContractState :=
  let p1 := asEuint32 s.fhe 0
  let fs1 := allowThis p1.2 p1.1
  let fs2 := allow fs1 p1.1 (Grantee.user sender)
  { surveys := upd s.surveys s.surveyCounter
      (createSv s sender now title category tags startTime endTime questionTexts
        questionTypes questionOptions)
    responses := s.responses
    permissions := upd2 s.permissions s.surveyCounter sender
      { canView := true, canExport := true, canManage := true, existsF := true }
    surveyCounter := s.surveyCounter + 1
    fhe := fs2 }

/-- createSurvey (source lines 111-172).  `sender` is msg.sender and
`now` is block.timestamp.  Returns the new surveyId and the new state,
or `none` on revert. -/
def createSurvey (s : ContractState) (sender now : Nat) (title category : String)
    (tags : List String) (startTime endTime : Nat) (questionTexts : List String)
    (questionTypes : List QuestionType) (questionOptions : List (List String)) :
    Option (Nat × ContractState) :=
  if createOk title startTime endTime questionTexts questionTypes questionOptions
  then
    some (s.surveyCounter,
      createState s sender now title category tags startTime endTime
        questionTexts questionTypes questionOptions)
  else none

/-- One iteration of the SingleChoice option loop (source lines 208-220):
inc = select(eq(answer, o), 1, 0); aggregatedCounts[q][o] += inc;
allowThis; allow creator. -/
def scStep (creator ansH q o : Nat) (sv : Survey) (fs : FheState) :
    Survey × FheState :=
  let pOc := asEuint32 fs o
  let pEq := fheEq pOc.2 ansH pOc.1
  let pOne := asEuint32 pEq.2 1
  let pZero := asEuint32 pOne.2 0
  let pInc := fheSelect pZero.2 pEq.1 pOne.1 pZero.1
  let pCnt := fheAdd pInc.2 (sv.aggregatedCounts q o) pInc.1
  let fs6 := allowThis pCnt.2 pCnt.1
  let fs7 := allow fs6 pCnt.1 (Grantee.user creator)
  ({ sv with aggregatedCounts := upd2 sv.aggregatedCounts q o pCnt.1 }, fs7)

/-- The SingleChoice option loop: options o, o+1, ..., o+n-1. -/
def scOptions (creator ansH q o n : Nat) (sv : Survey) (fs : FheState) :
    Survey × FheState :=
  match n with
  | 0 => (sv, fs)
  | Nat.succ m =>
    let p := scStep creator ansH q o sv fs
    scOptions creator ansH q (o + 1) m p.1 p.2

/-- One iteration of the MultipleChoice option loop (source lines
223-236): masked = answer AND (1 << o) over uint32;
inc = select(gt(masked, 0), 1, 0); aggregatedCounts[q][o] += inc. -/
def mcStep (creator ansH q o : Nat) (sv : Survey) (fs : FheState) :
    Survey × FheState :=
  let pMaskC := asEuint32 fs (1 <<< (o % M32))
  let pMask := fheAnd pMaskC.2 ansH pMaskC.1
  let pZc := asEuint32 pMask.2 0
  let pGt := fheGt pZc.2 pMask.1 pZc.1
  let pOne := asEuint32 pGt.2 1
  let pZero := asEuint32 pOne.2 0
  let pInc := fheSelect pZero.2 pGt.1 pOne.1 pZero.1
  let pCnt := fheAdd pInc.2 (sv.aggregatedCounts q o) pInc.1
  let fs8 := allowThis pCnt.2 pCnt.1
  let fs9 := allow fs8 pCnt.1 (Grantee.user creator)
  ({ sv with aggregatedCounts := upd2 sv.aggregatedCounts q o pCnt.1 }, fs9)

/-- The MultipleChoice option loop: options o, o+1, ..., o+n-1. -/
def mcOptions (creator ansH q o n : Nat) (sv : Survey) (fs : FheState) :
    Survey × FheState :=
  match n with
  | 0 => (sv, fs)
  | Nat.succ m =>
    let p := mcStep creator ansH q o sv fs
    mcOptions creator ansH q (o + 1) m p.1 p.2

/-- One iteration of the Rating loop (source lines 239-249):
inc = select(eq(answer, r), 1, 0); aggregatedCounts[q][r-1] += inc. -/
def ratingStep (creator ansH q r : Nat) (sv : Survey) (fs : FheState) :
    Survey × FheState :=
  let pRc := asEuint32 fs r
  let pEq := fheEq pRc.2 ansH pRc.1
  let pOne := asEuint32 pEq.2 1
  let pZero := asEuint32 pOne.2 0
  let pInc := fheSelect pZero.2 pEq.1 pOne.1 pZero.1
  let pCnt := fheAdd pInc.2 (sv.aggregatedCounts q (r - 1)) pInc.1
  let fs6 := allowThis pCnt.2 pCnt.1
  let fs7 := allow fs6 pCnt.1 (Grantee.user creator)
  ({ sv with aggregatedCounts := upd2 sv.aggregatedCounts q (r - 1) pCnt.1 }, fs7)

/-- The Rating loop: rating values r, r+1, ..., r+n-1 (called with r = 1,
n = 5). -/
def ratingOptions (creator ansH q r n : Nat) (sv : Survey) (fs : FheState) :
    Survey × FheState :=
  match n with
  | 0 => (sv, fs)
  | Nat.succ m =>
    let p := ratingStep creator ansH q r sv fs
    ratingOptions creator ansH q (r + 1) m p.1 p.2

/-- The per-question dispatch on question type (source lines 206-250). -/
def processQuestion (creator q ansH : Nat) (sv : Survey) (fs : FheState) :
    Survey × FheState :=
  match (sv.questions q).qType with
  | QuestionType.SingleChoice =>
      scOptions creator ansH q 0 (sv.questions q).optionCount sv fs
  | QuestionType.MultipleChoice =>
      mcOptions creator ansH q 0 (sv.questions q).optionCount sv fs
  | QuestionType.Rating =>
      ratingOptions creator ansH q 1 5 sv fs

/-- FHE.fromExternal followed by the FHE.allowThis of source line 202:
bring in one answer and grant the contract access to its handle. -/
def importAnswer (fs : FheState) (v : Nat) : Nat × FheState :=
  let p := fromExternal fs v
  (p.1, allowThis p.2 p.1)

/-- The question loop of submitResponse (source lines 199-251):
questions q, q+1, ..., q+n-1.  `ans` is the respondent's stored
encryptedAnswers mapping being written. -/
def processQuestions (creator : Nat) (answers : List Nat) (q n : Nat)
    (ans : Nat → Nat) (sv : Survey) (fs : FheState) :
    (Nat → Nat) × Survey × FheState :=
  match n with
  | 0 => (ans, sv, fs)
  | Nat.succ m =>
    let pA := importAnswer fs (answers.getD q 0)
    let p := processQuestion creator q pA.1 sv pA.2
    processQuestions creator answers (q + 1) m (upd ans q pA.1) p.1 p.2

/-- The question loop of submitResponse run on the full question range,
starting from the caller's stored (empty) answers mapping. -/
def submitPQ (s : ContractState) (sender surveyId : Nat) (answers : List Nat) :
    (Nat → Nat) × Survey × FheState :=
  processQuestions (s.surveys surveyId).creator answers 0
    (s.surveys surveyId).questionCount
    (s.responses surveyId sender).encryptedAnswers (s.surveys surveyId) s.fhe

/-- The guard of submitResponse (the six requires of source lines
187-192; the answers/proofs length checks coincide in this modelling). -/
def submitOk (s : ContractState) (sender now surveyId : Nat)
    (answers : List Nat) : Prop :=
  (s.surveys surveyId).existsF = true ∧ (s.surveys surveyId).isActive = true ∧
  (s.surveys surveyId).startTime ≤ now ∧ now ≤ (s.surveys surveyId).endTime ∧
  answers.length = (s.surveys surveyId).questionCount ∧
  (s.responses surveyId sender).existsF = false

instance (s : ContractState) (sender now surveyId : Nat) (answers : List Nat) :
    Decidable (submitOk s sender now surveyId answers) := by
  unfold submitOk
  infer_instance

/-- The state produced by a successful submitResponse: the question loop,
then the totalResponses increment of source lines 253-257, then the
storage writes. -/
def submitState (s : ContractState) (sender now surveyId : Nat)
    (answers : List Nat) : ContractState :=
  let pq := submitPQ s sender surveyId answers
  let pOne := asEuint32 pq.2.2 1
  let pTot := fheAdd pOne.2 pq.2.1.totalResponses pOne.1
  let fs1 := allowThis pTot.2 pTot.1
  let fs2 := allow fs1 pTot.1 (Grantee.user (s.surveys surveyId).creator)
  { surveys := upd s.surveys surveyId { pq.2.1 with totalResponses := pTot.1 }
    responses := upd2 s.responses surveyId sender
      { encryptedAnswers := pq.1, existsF := true, submittedAt := now }
    permissions := s.permissions
    surveyCounter := s.surveyCounter
    fhe := fs2 }

/-- submitResponse (source lines 181-260).  `answers` holds the
plaintext values proven by the external ciphertext/proof pairs. -/
def submitResponse (s : ContractState) (sender now surveyId : Nat)
    (answers : List Nat) : Option ContractState :=
  if submitOk s sender now surveyId answers then
    some (submitState s sender now surveyId answers)
  else none

/-- grantPermission (source lines 268-289). -/
def grantPermission (s : ContractState) (sender surveyId viewer : Nat)
    (canView canExport canManage : Bool) : Option ContractState :=
  let sv := s.surveys surveyId
  if sv.existsF = true ∧ sender = sv.creator then
    some { s with
      permissions := upd2 s.permissions surveyId viewer
        { canView := canView, canExport := canExport, canManage := canManage
          existsF := true }
      fhe := allow s.fhe sv.totalResponses (Grantee.user viewer) }
  else none

/-- revokePermission (source lines 294-308): zeroes the three capability
flags, leaves the existence flag as it was. -/
def revokePermission (s : ContractState) (sender surveyId viewer : Nat) :
    Option ContractState :=
  let sv := s.surveys surveyId
  if sv.existsF = true ∧ sender = sv.creator then
    some { s with
      permissions := upd2 s.permissions surveyId viewer
        { canView := false, canExport := false, canManage := false
          existsF := (s.permissions surveyId viewer).existsF } }
  else none

/-- setSurveyStatus (source lines 313-327). -/
def setSurveyStatus (s : ContractState) (sender surveyId : Nat)
    (isActive : Bool) : Option ContractState :=
  let sv := s.surveys surveyId
  if sv.existsF = true ∧
     (sender = sv.creator ∨
      ((s.permissions surveyId sender).existsF = true ∧
       (s.permissions surveyId sender).canManage = true)) then
    some { s with surveys := upd s.surveys surveyId { sv with isActive := isActive } }
  else none

/-- getSurveyInfo (source lines 340-363): an unguarded lookup, it never
reverts and reports the exists flag as part of the result. -/
def getSurveyInfo (s : ContractState) (surveyId : Nat) :
    Option (Nat × String × String × Nat × Nat × Nat × Nat × Bool × Bool) :=
  let sv := s.surveys surveyId
  some (sv.creator, sv.title, sv.category, sv.createdAt, sv.startTime,
        sv.endTime, sv.questionCount, sv.existsF, sv.isActive)

/-- getQuestionInfo (source lines 372-392). -/
def getQuestionInfo (s : ContractState) (surveyId questionIndex : Nat) :
    Option (String × QuestionType × Nat × List String) :=
  let sv := s.surveys surveyId
  if sv.existsF = true ∧ questionIndex < sv.questionCount then
    some ((sv.questions questionIndex).text, (sv.questions questionIndex).qType,
          (sv.questions questionIndex).optionCount,
          (sv.questions questionIndex).options)
  else none

/-- getTotalResponses (source lines 397-401). -/
def getTotalResponses (s : ContractState) (surveyId : Nat) : Option Nat :=
  if (s.surveys surveyId).existsF = true then
    some (s.surveys surveyId).totalResponses
  else none

/-- getResponse (source lines 408-417). -/
def getResponse (s : ContractState) (surveyId userAddress questionIndex : Nat) :
    Option Nat :=
  if (s.responses surveyId userAddress).existsF = true ∧
     questionIndex < (s.surveys surveyId).questionCount then
    some ((s.responses surveyId userAddress).encryptedAnswers questionIndex)
  else none

/-- Number of aggregation buckets a question exposes: 5 for Rating,
optionCount otherwise (source lines 433 and 495). -/
def bucketLen (question : Question) : Nat :=
  if question.qType = QuestionType.Rating then 5 else question.optionCount

/-- getQuestionOptionCounts (source lines 424-439). -/
def getQuestionOptionCounts (s : ContractState) (surveyId questionIndex : Nat) :
    Option (List Nat) :=
  let sv := s.surveys surveyId
  if sv.existsF = true ∧ questionIndex < sv.questionCount then
    some ((List.range (bucketLen (sv.questions questionIndex))).map
      (sv.aggregatedCounts questionIndex))
  else none

/-- hasResponded (source lines 445-447). -/
def hasResponded (s : ContractState) (surveyId userAddress : Nat) : Bool :=
  (s.responses surveyId userAddress).existsF

/-- getPermission (source lines 455-461): unguarded lookup of the three
capability flags. -/
def getPermission (s : ContractState) (surveyId userAddress : Nat) :
    Bool × Bool × Bool :=
  ((s.permissions surveyId userAddress).canView,
   (s.permissions surveyId userAddress).canExport,
   (s.permissions surveyId userAddress).canManage)

/-- getSurveyTags (source lines 505-509). -/
def getSurveyTags (s : ContractState) (surveyId : Nat) : Option (List String) :=
  if (s.surveys surveyId).existsF = true then
    some (s.surveys surveyId).tags
  else none

/-- authorizeMyDecryption (source lines 465-476). -/
def authorizeMyDecryption (s : ContractState) (sender surveyId : Nat) :
    Option ContractState :=
  let sv := s.surveys surveyId
  if sv.existsF = true ∧
     (sender = sv.creator ∨
      ((s.permissions surveyId sender).existsF = true ∧
       (s.permissions surveyId sender).canView = true)) then
    some { s with fhe := allow s.fhe sv.totalResponses (Grantee.user sender) }
  else none

/-- Issue an FHE.allow on each handle of `hs` in order. -/
def allowList (fs : FheState) (hs : List Nat) (g : Grantee) : FheState :=
  match hs with
  | [] => fs
  | h :: t => allowList (allow fs h g) t g

/-- The sequence of handles allowed by authorizeAllResultsDecryption,
in call order: totalResponses first, then every question's bucket
handles (5 for Rating, optionCount otherwise). -/
def resultHandles (sv : Survey) : List Nat :=
  sv.totalResponses ::
    (List.range sv.questionCount).flatMap
      (fun q => (List.range (bucketLen (sv.questions q))).map (sv.aggregatedCounts q))

/-- authorizeAllResultsDecryption (source lines 480-500). -/
def authorizeAllResultsDecryption (s : ContractState) (sender surveyId : Nat) :
    Option ContractState :=
  let sv := s.surveys surveyId
  if sv.existsF = true ∧
     (sender = sv.creator ∨
      ((s.permissions surveyId sender).existsF = true ∧
       (s.permissions surveyId sender).canView = true)) then
    some { s with fhe := allowList s.fhe (resultHandles sv) (Grantee.user sender) }
  else none

/-- The state-changing entry points of the contract, with caller and
timestamp where the source reads them. -/
inductive Op where
  | create (sender now : Nat) (title category : String) (tags : List String)
      (startTime endTime : Nat) (questionTexts : List String)
      (questionTypes : List QuestionType) (questionOptions : List (List String))
  | submit (sender now surveyId : Nat) (answers : List Nat)
  | grant (sender surveyId viewer : Nat) (canView canExport canManage : Bool)
  | revoke (sender surveyId viewer : Nat)
  | setStatus (sender surveyId : Nat) (isActive : Bool)
  | authMy (sender surveyId : Nat)
  | authAll (sender surveyId : Nat)

/-- Execute an entry point; a reverted call leaves the state unchanged. -/
def execOp (s : ContractState) (op : Op) : ContractState :=
  match op with
  | Op.create sender now t c tg st et qt qty qo =>
      match createSurvey s sender now t c tg st et qt qty qo with
      | some p => p.2
      | none => s
  | Op.submit sender now id ans => (submitResponse s sender now id ans).getD s
  | Op.grant sender id v a b c => (grantPermission s sender id v a b c).getD s
  | Op.revoke sender id v => (revokePermission s sender id v).getD s
  | Op.setStatus sender id b => (setSurveyStatus s sender id b).getD s
  | Op.authMy sender id => (authorizeMyDecryption s sender id).getD s
  | Op.authAll sender id => (authorizeAllResultsDecryption s sender id).getD s

/-- Execute a sequence of entry-point calls. -/
def execTrace (s : ContractState) (ops : List Op) : ContractState :=
  match ops with
  | [] => s
  | op :: rest => execTrace (execOp s op) rest

/-- Plaintext value proven for question `i` by an answers list
(the euint32 import reduces mod 2^32). -/
def answerVal (answers : List Nat) (i : Nat) : Nat :=
  answers.getD i 0 % M32

/-- Plaintext increment the submission of answer value `a` applies to
bucket `o` of a question, by question type (derived characterization of
the three aggregation loops; proven against them below). -/
def bucketDelta (question : Question) (a o : Nat) : Nat :=
  match question.qType with
  | QuestionType.SingleChoice =>
      if o < question.optionCount ∧ a = o % M32 then 1 else 0
  | QuestionType.MultipleChoice =>
      if o < question.optionCount ∧ 0 < Nat.land a ((1 <<< (o % M32)) % M32)
      then 1 else 0
  | QuestionType.Rating =>
      if o < 5 ∧ a = (o + 1) % M32 then 1 else 0

/-- 1 when `op`, run against state `s`, is an accepted submitResponse to
survey `id`; 0 otherwise. -/
def submitDelta (s : ContractState) (op : Op) (id : Nat) : Nat :=
  match op with
  | Op.submit sender now sid answers =>
      if sid = id ∧ (submitResponse s sender now sid answers).isSome = true
      then 1 else 0
  | _ => 0

/-- The plaintext answer for question `q` recorded by `op` when it is an
accepted submitResponse to survey `id`; the empty list otherwise. -/
def submitAnswersAt (s : ContractState) (op : Op) (id q : Nat) : List Nat :=
  match op with
  | Op.submit sender now sid answers =>
      if sid = id ∧ (submitResponse s sender now sid answers).isSome = true
      then [answerVal answers q] else []
  | _ => []

/-- Plaintext increment `op`, run against state `s`, applies to bucket
`o` of question `q` of survey `id`: the per-type bucketDelta when it is
an accepted submitResponse to that survey, 0 otherwise. -/
def aggDelta (s : ContractState) (op : Op) (id q o : Nat) : Nat :=
  match op with
  | Op.submit sender now sid answers =>
      if sid = id ∧ (submitResponse s sender now sid answers).isSome = true then
        bucketDelta ((s.surveys id).questions q) (answerVal answers q) o
      else 0
  | _ => 0

/-- Number of accepted submitResponse calls a trace applies to survey
`id`, counted with the state each call actually sees. -/
def countAccepted (s : ContractState) (ops : List Op) (id : Nat) : Nat :=
  match ops with
  | [] => 0
  | op :: rest => submitDelta s op id + countAccepted (execOp s op) rest id

/-- Plaintext answers for question `q` of the accepted submitResponse
calls a trace applies to survey `id`, in trace order. -/
def answersAt (s : ContractState) (ops : List Op) (id q : Nat) : List Nat :=
  match ops with
  | [] => []
  | op :: rest => submitAnswersAt s op id q ++ answersAt (execOp s op) rest id q

/-- Well-formedness of a reachable state: handles stored anywhere are
below the allocation frontier, plaintext shadows are 32-bit values, the
default handle 0 decrypts to 0, existing surveys have ids below the
counter, and responses only exist for existing surveys. -/
structure WF (s : ContractState) : Prop where
  one_le : 1 ≤ s.fhe.nextHandle
  plain_zero : s.fhe.plain 0 = 0
  plain_lt : ∀ h, s.fhe.plain h < M32
  total_lt : ∀ id, (s.surveys id).totalResponses < s.fhe.nextHandle
  agg_lt : ∀ id q o, (s.surveys id).aggregatedCounts q o < s.fhe.nextHandle
  ans_lt : ∀ id a q, (s.responses id a).encryptedAnswers q < s.fhe.nextHandle
  id_lt : ∀ id, (s.surveys id).existsF = true → id < s.surveyCounter
  resp_exists : ∀ id a, (s.responses id a).existsF = true →
    (s.surveys id).existsF = true
  acl_lt : ∀ p ∈ s.fhe.acl, p.1 < s.fhe.nextHandle

example : (createSurvey initState 7 50 "T" "C" ["x"] 100 200
    ["Q1"] [QuestionType.SingleChoice] [["A", "B"]]).isSome = true := by decide

/-! ### Basic lemmas about the FHE shadow state -/

theorem M32_pos : 0 < M32 := by decide

theorem fresh_fst (fs : FheState) (v : Nat) : (fresh fs v).1 = fs.nextHandle := rfl

theorem fresh_nextHandle (fs : FheState) (v : Nat) :
    (fresh fs v).2.nextHandle = fs.nextHandle + 1 := rfl

theorem fresh_acl (fs : FheState) (v : Nat) : (fresh fs v).2.acl = fs.acl := rfl

theorem fresh_plain_self (fs : FheState) (v : Nat) :
    (fresh fs v).2.plain fs.nextHandle = v % M32 := by
  simp [fresh]

theorem fresh_plain_ne (fs : FheState) (v h : Nat) (hne : h ≠ fs.nextHandle) :
    (fresh fs v).2.plain h = fs.plain h := by
  simp [fresh, hne]

theorem allow_nextHandle (fs : FheState) (h : Nat) (g : Grantee) :
    (allow fs h g).nextHandle = fs.nextHandle := rfl

theorem allow_plain (fs : FheState) (h : Nat) (g : Grantee) :
    (allow fs h g).plain = fs.plain := rfl

theorem allow_acl (fs : FheState) (h : Nat) (g : Grantee) :
    (allow fs h g).acl = (h, g) :: fs.acl := rfl

theorem upd_self {α : Type} (f : Nat → α) (k : Nat) (v : α) : upd f k v k = v := by
  simp [upd]

theorem upd_ne {α : Type} (f : Nat → α) (k : Nat) (v : α) (x : Nat) (hx : x ≠ k) :
    upd f k v x = f x := by
  simp [upd, hx]

theorem upd2_self {α : Type} (f : Nat → Nat → α) (k1 k2 : Nat) (v : α) :
    upd2 f k1 k2 v k1 k2 = v := by
  simp [upd2, upd]

theorem upd2_ne {α : Type} (f : Nat → Nat → α) (k1 k2 : Nat) (v : α) (x1 x2 : Nat)
    (hx : ¬(x1 = k1 ∧ x2 = k2)) : upd2 f k1 k2 v x1 x2 = f x1 x2 := by
  by_cases h1 : x1 = k1
  · subst h1
    have h2 : x2 ≠ k2 := fun h => hx ⟨rfl, h⟩
    simp [upd2, upd, h2]
  · simp [upd2, upd, h1]

/-- All Survey fields except the aggregatedCounts mapping agree. -/
def svEqExceptAgg (sv sv' : Survey) : Prop :=
  sv'.creator = sv.creator ∧ sv'.title = sv.title ∧ sv'.category = sv.category ∧
  sv'.tags = sv.tags ∧ sv'.createdAt = sv.createdAt ∧
  sv'.startTime = sv.startTime ∧ sv'.endTime = sv.endTime ∧
  sv'.existsF = sv.existsF ∧ sv'.isActive = sv.isActive ∧
  sv'.questionCount = sv.questionCount ∧ sv'.questions = sv.questions ∧
  sv'.totalResponses = sv.totalResponses

theorem svEqExceptAgg_refl (sv : Survey) : svEqExceptAgg sv sv := by
  simp [svEqExceptAgg]

theorem svEqExceptAgg_creator {sv sv' : Survey} (h : svEqExceptAgg sv sv') :
    sv'.creator = sv.creator := h.1

theorem svEqExceptAgg_existsF {sv sv' : Survey} (h : svEqExceptAgg sv sv') :
    sv'.existsF = sv.existsF := h.2.2.2.2.2.2.2.1

theorem svEqExceptAgg_isActive {sv sv' : Survey} (h : svEqExceptAgg sv sv') :
    sv'.isActive = sv.isActive := h.2.2.2.2.2.2.2.2.1

theorem svEqExceptAgg_questionCount {sv sv' : Survey} (h : svEqExceptAgg sv sv') :
    sv'.questionCount = sv.questionCount := h.2.2.2.2.2.2.2.2.2.1

theorem svEqExceptAgg_questions {sv sv' : Survey} (h : svEqExceptAgg sv sv') :
    sv'.questions = sv.questions := h.2.2.2.2.2.2.2.2.2.2.1

theorem svEqExceptAgg_totalResponses {sv sv' : Survey} (h : svEqExceptAgg sv sv') :
    sv'.totalResponses = sv.totalResponses := h.2.2.2.2.2.2.2.2.2.2.2

/-- All immutable Survey metadata agrees: every field except the two
encrypted accumulators (aggregatedCounts, totalResponses) and the
mutable isActive flag. -/
def svMetaEq (sv sv' : Survey) : Prop :=
  sv'.creator = sv.creator ∧ sv'.title = sv.title ∧ sv'.category = sv.category ∧
  sv'.tags = sv.tags ∧ sv'.createdAt = sv.createdAt ∧
  sv'.startTime = sv.startTime ∧ sv'.endTime = sv.endTime ∧
  sv'.existsF = sv.existsF ∧ sv'.questionCount = sv.questionCount ∧
  sv'.questions = sv.questions

theorem svMetaEq_refl (sv : Survey) : svMetaEq sv sv := by
  simp [svMetaEq]

theorem svMetaEq_trans {sv1 sv2 sv3 : Survey} (h1 : svMetaEq sv1 sv2)
    (h2 : svMetaEq sv2 sv3) : svMetaEq sv1 sv3 := by
  obtain ⟨a1, b1, c1, d1, e1, f1, g1, h1a, i1, j1⟩ := h1
  obtain ⟨a2, b2, c2, d2, e2, f2, g2, h2a, i2, j2⟩ := h2
  exact ⟨a2.trans a1, b2.trans b1, c2.trans c1, d2.trans d1, e2.trans e1,
    f2.trans f1, g2.trans g1, h2a.trans h1a, i2.trans i1, j2.trans j1⟩

theorem svMetaEq_creator {sv sv' : Survey} (h : svMetaEq sv sv') :
    sv'.creator = sv.creator := h.1

theorem svMetaEq_existsF {sv sv' : Survey} (h : svMetaEq sv sv') :
    sv'.existsF = sv.existsF := h.2.2.2.2.2.2.2.1

theorem svMetaEq_questionCount {sv sv' : Survey} (h : svMetaEq sv sv') :
    sv'.questionCount = sv.questionCount := h.2.2.2.2.2.2.2.2.1

theorem svMetaEq_questions {sv sv' : Survey} (h : svMetaEq sv sv') :
    sv'.questions = sv.questions := h.2.2.2.2.2.2.2.2.2

theorem svEqExceptAgg.meta {sv sv' : Survey} (h : svEqExceptAgg sv sv') :
    svMetaEq sv sv' :=
  ⟨h.1, h.2.1, h.2.2.1, h.2.2.2.1, h.2.2.2.2.1, h.2.2.2.2.2.1, h.2.2.2.2.2.2.1,
   h.2.2.2.2.2.2.2.1, h.2.2.2.2.2.2.2.2.2.1, h.2.2.2.2.2.2.2.2.2.2.1⟩

theorem svEqExceptAgg_trans {sv1 sv2 sv3 : Survey} (h1 : svEqExceptAgg sv1 sv2)
    (h2 : svEqExceptAgg sv2 sv3) : svEqExceptAgg sv1 sv3 := by
  obtain ⟨a1, b1, c1, d1, e1, f1, g1, h1, i1, j1, k1, l1⟩ := h1
  obtain ⟨a2, b2, c2, d2, e2, f2, g2, h2, i2, j2, k2, l2⟩ := h2
  exact ⟨a2.trans a1, b2.trans b1, c2.trans c1, d2.trans d1, e2.trans e1,
    f2.trans f1, g2.trans g1, h2.trans h1, i2.trans i1, j2.trans j1,
    k2.trans k1, l2.trans l1⟩

/-! ### The SingleChoice step -/

theorem scStep_surveys (creator ansH q o : Nat) (sv : Survey) (fs : FheState) :
    (scStep creator ansH q o sv fs).1 =
    { sv with aggregatedCounts := upd2 sv.aggregatedCounts q o (fs.nextHandle + 5) } := rfl

theorem scStep_agg (creator ansH q o : Nat) (sv : Survey) (fs : FheState) :
    (scStep creator ansH q o sv fs).1.aggregatedCounts =
    upd2 sv.aggregatedCounts q o (fs.nextHandle + 5) := rfl

theorem scStep_nextHandle (creator ansH q o : Nat) (sv : Survey) (fs : FheState) :
    (scStep creator ansH q o sv fs).2.nextHandle = fs.nextHandle + 6 := rfl

theorem scStep_acl (creator ansH q o : Nat) (sv : Survey) (fs : FheState) :
    (scStep creator ansH q o sv fs).2.acl =
    (fs.nextHandle + 5, Grantee.user creator) ::
      (fs.nextHandle + 5, Grantee.contract) :: fs.acl := rfl

theorem scStep_plain_lt (creator ansH q o : Nat) (sv : Survey) (fs : FheState)
    (h : Nat) (hh : h < fs.nextHandle) :
    (scStep creator ansH q o sv fs).2.plain h = fs.plain h := by
  have h0 : h ≠ fs.nextHandle := by omega
  have h1 : h ≠ fs.nextHandle + 1 := by omega
  have h2 : h ≠ fs.nextHandle + 2 := by omega
  have h3 : h ≠ fs.nextHandle + 3 := by omega
  have h4 : h ≠ fs.nextHandle + 4 := by omega
  have h5 : h ≠ fs.nextHandle + 5 := by omega
  simp [scStep, asEuint32, fheEq, fheSelect, fheAdd, fresh, allowThis, allow,
    h0, h1, h2, h3, h4, h5]

theorem scStep_plain_cnt (creator ansH q o : Nat) (sv : Survey) (fs : FheState)
    (hAns : ansH < fs.nextHandle) (hAgg : sv.aggregatedCounts q o < fs.nextHandle) :
    (scStep creator ansH q o sv fs).2.plain (fs.nextHandle + 5) =
    (fs.plain (sv.aggregatedCounts q o) +
      (if fs.plain ansH = o % M32 then 1 else 0)) % M32 := by
  have ha0 : sv.aggregatedCounts q o ≠ fs.nextHandle := by omega
  have ha1 : sv.aggregatedCounts q o ≠ fs.nextHandle + 1 := by omega
  have ha2 : sv.aggregatedCounts q o ≠ fs.nextHandle + 2 := by omega
  have ha3 : sv.aggregatedCounts q o ≠ fs.nextHandle + 3 := by omega
  have ha4 : sv.aggregatedCounts q o ≠ fs.nextHandle + 4 := by omega
  have hb0 : ansH ≠ fs.nextHandle := by omega
  simp [scStep, asEuint32, fheEq, fheSelect, fheAdd, fresh, allowThis, allow,
    ha0, ha1, ha2, ha3, ha4, hb0, M32]
  by_cases hP : fs.plain ansH = o % 4294967296 <;> simp [hP, M32]

/-! ### The SingleChoice option loop -/

theorem scOptions_nextHandle (creator ansH q o n : Nat) (sv : Survey) (fs : FheState) :
    (scOptions creator ansH q o n sv fs).2.nextHandle = fs.nextHandle + 6 * n := by
  induction n generalizing o sv fs with
  | zero => simp [scOptions]
  | succ m ih =>
    simp only [scOptions]
    rw [ih, scStep_nextHandle]
    omega

theorem scOptions_plain_lt (creator ansH q o n : Nat) (sv : Survey) (fs : FheState)
    (h : Nat) (hh : h < fs.nextHandle) :
    (scOptions creator ansH q o n sv fs).2.plain h = fs.plain h := by
  induction n generalizing o sv fs with
  | zero => simp [scOptions]
  | succ m ih =>
    simp only [scOptions]
    rw [ih _ _ _ (by rw [scStep_nextHandle]; omega), scStep_plain_lt _ _ _ _ _ _ _ hh]

theorem scOptions_frame (creator ansH q o n : Nat) (sv : Survey) (fs : FheState) :
    svEqExceptAgg sv (scOptions creator ansH q o n sv fs).1 := by
  induction n generalizing o sv fs with
  | zero => simp [scOptions, svEqExceptAgg_refl]
  | succ m ih =>
    simp only [scOptions]
    refine svEqExceptAgg_trans ?_ (ih _ _ _)
    rw [scStep_surveys]
    simp [svEqExceptAgg]

theorem scOptions_agg_untouched (creator ansH q o n : Nat) (sv : Survey)
    (fs : FheState) (q' o' : Nat) (h : ¬(q' = q ∧ o ≤ o' ∧ o' < o + n)) :
    (scOptions creator ansH q o n sv fs).1.aggregatedCounts q' o' =
    sv.aggregatedCounts q' o' := by
  induction n generalizing o sv fs with
  | zero => simp [scOptions]
  | succ m ih =>
    simp only [scOptions]
    rw [ih _ _ _ (by intro hc; exact h ⟨hc.1, by omega, by omega⟩)]
    rw [scStep_agg]
    exact upd2_ne _ _ _ _ _ _ (by intro hc; exact h ⟨hc.1, by omega, by omega⟩)

theorem scOptions_agg_classify (creator ansH q o n : Nat) (sv : Survey)
    (fs : FheState) (q' o' : Nat) :
    (scOptions creator ansH q o n sv fs).1.aggregatedCounts q' o' =
      sv.aggregatedCounts q' o' ∨
    (fs.nextHandle ≤ (scOptions creator ansH q o n sv fs).1.aggregatedCounts q' o' ∧
     (scOptions creator ansH q o n sv fs).1.aggregatedCounts q' o' <
       fs.nextHandle + 6 * n) := by
  induction n generalizing o sv fs with
  | zero => simp [scOptions]
  | succ m ih =>
    simp only [scOptions]
    rcases ih (o + 1) (scStep creator ansH q o sv fs).1
        (scStep creator ansH q o sv fs).2 with heq | hb
    · rw [heq, scStep_agg]
      by_cases hc : q' = q ∧ o' = o
      · right
        rcases hc with ⟨h1, h2⟩
        subst h1; subst h2
        rw [upd2_self]
        omega
      · left; exact upd2_ne _ _ _ _ _ _ hc
    · right
      rw [scStep_nextHandle] at hb
      omega

theorem scOptions_agg_plain (creator ansH q o n : Nat) (sv : Survey)
    (fs : FheState) (hAns : ansH < fs.nextHandle)
    (hAgg : ∀ o2, sv.aggregatedCounts q o2 < fs.nextHandle) (o' : Nat)
    (hlo : o ≤ o') (hhi : o' < o + n) :
    (scOptions creator ansH q o n sv fs).2.plain
      ((scOptions creator ansH q o n sv fs).1.aggregatedCounts q o') =
    (fs.plain (sv.aggregatedCounts q o') +
      (if fs.plain ansH = o' % M32 then 1 else 0)) % M32 := by
  induction n generalizing o sv fs with
  | zero => omega
  | succ m ih =>
    simp only [scOptions]
    by_cases hc : o' = o
    · subst hc
      rw [scOptions_agg_untouched _ _ _ _ _ _ _ _ _ (by omega)]
      rw [scStep_agg, upd2_self]
      rw [scOptions_plain_lt _ _ _ _ _ _ _ _ (by rw [scStep_nextHandle]; omega)]
      exact scStep_plain_cnt _ _ _ _ _ _ hAns (hAgg o')
    · have h1 := ih (o + 1) (scStep creator ansH q o sv fs).1
        (scStep creator ansH q o sv fs).2
        (by rw [scStep_nextHandle]; omega)
        (by
          intro o2
          rw [scStep_agg, scStep_nextHandle]
          by_cases hc2 : o2 = o
          · subst hc2; rw [upd2_self]; omega
          · rw [upd2_ne _ _ _ _ _ _ (by simp [hc2])]
            have := hAgg o2
            omega)
        (by omega) (by omega)
      rw [h1]
      have hagg : (scStep creator ansH q o sv fs).1.aggregatedCounts q o' =
          sv.aggregatedCounts q o' := by
        rw [scStep_agg]
        exact upd2_ne _ _ _ _ _ _ (by simp [hc])
      rw [hagg, scStep_plain_lt _ _ _ _ _ _ _ (hAgg o'),
          scStep_plain_lt _ _ _ _ _ _ _ hAns]

theorem scOptions_acl (creator ansH q o n : Nat) (sv : Survey) (fs : FheState) :
    ∃ d, (scOptions creator ansH q o n sv fs).2.acl = d ++ fs.acl ∧
    ∀ p ∈ d, (fs.nextHandle ≤ p.1 ∧ p.1 < fs.nextHandle + 6 * n) ∧
      (p.2 = Grantee.contract ∨ p.2 = Grantee.user creator) := by
  induction n generalizing o sv fs with
  | zero => exact ⟨[], by simp [scOptions]⟩
  | succ m ih =>
    simp only [scOptions]
    obtain ⟨d, hd, hp⟩ := ih (o + 1) (scStep creator ansH q o sv fs).1
      (scStep creator ansH q o sv fs).2
    refine ⟨d ++ [(fs.nextHandle + 5, Grantee.user creator),
      (fs.nextHandle + 5, Grantee.contract)], ?_, ?_⟩
    · rw [hd, scStep_acl]
      simp
    · intro p hp2
      rcases List.mem_append.mp hp2 with h | h
      · have := hp p h
        rw [scStep_nextHandle] at this
        exact ⟨⟨by omega, by omega⟩, this.2⟩
      · simp only [List.mem_cons, List.mem_singleton] at h
        rcases h with h | h | h
        · subst h; exact ⟨⟨by omega, by omega⟩, Or.inr rfl⟩
        · subst h; exact ⟨⟨by omega, by omega⟩, Or.inl rfl⟩
        · cases h

/-! ### The MultipleChoice step and loop -/

theorem mcStep_agg (creator ansH q o : Nat) (sv : Survey) (fs : FheState) :
    (mcStep creator ansH q o sv fs).1.aggregatedCounts =
    upd2 sv.aggregatedCounts q o (fs.nextHandle + 7) := rfl

theorem mcStep_nextHandle (creator ansH q o : Nat) (sv : Survey) (fs : FheState) :
    (mcStep creator ansH q o sv fs).2.nextHandle = fs.nextHandle + 8 := rfl

theorem mcStep_acl (creator ansH q o : Nat) (sv : Survey) (fs : FheState) :
    (mcStep creator ansH q o sv fs).2.acl =
    (fs.nextHandle + 7, Grantee.user creator) ::
      (fs.nextHandle + 7, Grantee.contract) :: fs.acl := rfl

theorem mcStep_surveys (creator ansH q o : Nat) (sv : Survey) (fs : FheState) :
    (mcStep creator ansH q o sv fs).1 =
    { sv with aggregatedCounts := upd2 sv.aggregatedCounts q o (fs.nextHandle + 7) } := rfl

theorem mcStep_plain_lt (creator ansH q o : Nat) (sv : Survey) (fs : FheState)
    (h : Nat) (hh : h < fs.nextHandle) :
    (mcStep creator ansH q o sv fs).2.plain h = fs.plain h := by
  have h0 : h ≠ fs.nextHandle := by omega
  have h1 : h ≠ fs.nextHandle + 1 := by omega
  have h2 : h ≠ fs.nextHandle + 2 := by omega
  have h3 : h ≠ fs.nextHandle + 3 := by omega
  have h4 : h ≠ fs.nextHandle + 4 := by omega
  have h5 : h ≠ fs.nextHandle + 5 := by omega
  have h6 : h ≠ fs.nextHandle + 6 := by omega
  have h7 : h ≠ fs.nextHandle + 7 := by omega
  simp [mcStep, asEuint32, fheAnd, fheGt, fheSelect, fheAdd, fresh, allowThis,
    allow, h0, h1, h2, h3, h4, h5, h6, h7]

theorem mcStep_plain_cnt (creator ansH q o : Nat) (sv : Survey) (fs : FheState)
    (hAns : ansH < fs.nextHandle) (hAgg : sv.aggregatedCounts q o < fs.nextHandle) :
    (mcStep creator ansH q o sv fs).2.plain (fs.nextHandle + 7) =
    (fs.plain (sv.aggregatedCounts q o) +
      (if 0 < Nat.land (fs.plain ansH) ((1 <<< (o % M32)) % M32) then 1 else 0)) % M32 := by
  have ha0 : sv.aggregatedCounts q o ≠ fs.nextHandle := by omega
  have ha1 : sv.aggregatedCounts q o ≠ fs.nextHandle + 1 := by omega
  have ha2 : sv.aggregatedCounts q o ≠ fs.nextHandle + 2 := by omega
  have ha3 : sv.aggregatedCounts q o ≠ fs.nextHandle + 3 := by omega
  have ha4 : sv.aggregatedCounts q o ≠ fs.nextHandle + 4 := by omega
  have ha5 : sv.aggregatedCounts q o ≠ fs.nextHandle + 5 := by omega
  have ha6 : sv.aggregatedCounts q o ≠ fs.nextHandle + 6 := by omega
  have hb0 : ansH ≠ fs.nextHandle := by omega
  have hL : Nat.land (fs.plain ansH) ((1 <<< (o % 4294967296)) % 4294967296) % 4294967296 =
      Nat.land (fs.plain ansH) ((1 <<< (o % 4294967296)) % 4294967296) :=
    Nat.mod_eq_of_lt (Nat.lt_of_le_of_lt Nat.and_le_right
      (Nat.mod_lt _ (by decide)))
  simp [mcStep, asEuint32, fheAnd, fheGt, fheSelect, fheAdd, fresh, allowThis,
    allow, ha0, ha1, ha2, ha3, ha4, ha5, ha6, hb0, hL, M32]
  by_cases hP : 0 < Nat.land (fs.plain ansH) (1 <<< (o % 4294967296) % 4294967296) <;>
    simp [hP]

theorem mcOptions_nextHandle (creator ansH q o n : Nat) (sv : Survey) (fs : FheState) :
    (mcOptions creator ansH q o n sv fs).2.nextHandle = fs.nextHandle + 8 * n := by
  induction n generalizing o sv fs with
  | zero => simp [mcOptions]
  | succ m ih =>
    simp only [mcOptions]
    rw [ih, mcStep_nextHandle]
    omega

theorem mcOptions_plain_lt (creator ansH q o n : Nat) (sv : Survey) (fs : FheState)
    (h : Nat) (hh : h < fs.nextHandle) :
    (mcOptions creator ansH q o n sv fs).2.plain h = fs.plain h := by
  induction n generalizing o sv fs with
  | zero => simp [mcOptions]
  | succ m ih =>
    simp only [mcOptions]
    rw [ih _ _ _ (by rw [mcStep_nextHandle]; omega), mcStep_plain_lt _ _ _ _ _ _ _ hh]

theorem mcOptions_frame (creator ansH q o n : Nat) (sv : Survey) (fs : FheState) :
    svEqExceptAgg sv (mcOptions creator ansH q o n sv fs).1 := by
  induction n generalizing o sv fs with
  | zero => simp [mcOptions, svEqExceptAgg_refl]
  | succ m ih =>
    simp only [mcOptions]
    refine svEqExceptAgg_trans ?_ (ih _ _ _)
    rw [mcStep_surveys]
    simp [svEqExceptAgg]

theorem mcOptions_agg_untouched (creator ansH q o n : Nat) (sv : Survey)
    (fs : FheState) (q' o' : Nat) (h : ¬(q' = q ∧ o ≤ o' ∧ o' < o + n)) :
    (mcOptions creator ansH q o n sv fs).1.aggregatedCounts q' o' =
    sv.aggregatedCounts q' o' := by
  induction n generalizing o sv fs with
  | zero => simp [mcOptions]
  | succ m ih =>
    simp only [mcOptions]
    rw [ih _ _ _ (by intro hc; exact h ⟨hc.1, by omega, by omega⟩)]
    rw [mcStep_agg]
    exact upd2_ne _ _ _ _ _ _ (by intro hc; exact h ⟨hc.1, by omega, by omega⟩)

theorem mcOptions_agg_classify (creator ansH q o n : Nat) (sv : Survey)
    (fs : FheState) (q' o' : Nat) :
    (mcOptions creator ansH q o n sv fs).1.aggregatedCounts q' o' =
      sv.aggregatedCounts q' o' ∨
    (fs.nextHandle ≤ (mcOptions creator ansH q o n sv fs).1.aggregatedCounts q' o' ∧
     (mcOptions creator ansH q o n sv fs).1.aggregatedCounts q' o' <
       fs.nextHandle + 8 * n) := by
  induction n generalizing o sv fs with
  | zero => simp [mcOptions]
  | succ m ih =>
    simp only [mcOptions]
    rcases ih (o + 1) (mcStep creator ansH q o sv fs).1
        (mcStep creator ansH q o sv fs).2 with heq | hb
    · rw [heq, mcStep_agg]
      by_cases hc : q' = q ∧ o' = o
      · right
        rcases hc with ⟨h1, h2⟩
        subst h1; subst h2
        rw [upd2_self]
        omega
      · left; exact upd2_ne _ _ _ _ _ _ hc
    · right
      rw [mcStep_nextHandle] at hb
      omega

theorem mcOptions_agg_plain (creator ansH q o n : Nat) (sv : Survey)
    (fs : FheState) (hAns : ansH < fs.nextHandle)
    (hAgg : ∀ o2, sv.aggregatedCounts q o2 < fs.nextHandle) (o' : Nat)
    (hlo : o ≤ o') (hhi : o' < o + n) :
    (mcOptions creator ansH q o n sv fs).2.plain
      ((mcOptions creator ansH q o n sv fs).1.aggregatedCounts q o') =
    (fs.plain (sv.aggregatedCounts q o') +
      (if 0 < Nat.land (fs.plain ansH) ((1 <<< (o' % M32)) % M32)
       then 1 else 0)) % M32 := by
  induction n generalizing o sv fs with
  | zero => omega
  | succ m ih =>
    simp only [mcOptions]
    by_cases hc : o' = o
    · subst hc
      rw [mcOptions_agg_untouched _ _ _ _ _ _ _ _ _ (by omega)]
      rw [mcStep_agg, upd2_self]
      rw [mcOptions_plain_lt _ _ _ _ _ _ _ _ (by rw [mcStep_nextHandle]; omega)]
      exact mcStep_plain_cnt _ _ _ _ _ _ hAns (hAgg o')
    · have h1 := ih (o + 1) (mcStep creator ansH q o sv fs).1
        (mcStep creator ansH q o sv fs).2
        (by rw [mcStep_nextHandle]; omega)
        (by
          intro o2
          rw [mcStep_agg, mcStep_nextHandle]
          by_cases hc2 : o2 = o
          · subst hc2; rw [upd2_self]; omega
          · rw [upd2_ne _ _ _ _ _ _ (by simp [hc2])]
            have := hAgg o2
            omega)
        (by omega) (by omega)
      rw [h1]
      have hagg : (mcStep creator ansH q o sv fs).1.aggregatedCounts q o' =
          sv.aggregatedCounts q o' := by
        rw [mcStep_agg]
        exact upd2_ne _ _ _ _ _ _ (by simp [hc])
      rw [hagg, mcStep_plain_lt _ _ _ _ _ _ _ (hAgg o'),
          mcStep_plain_lt _ _ _ _ _ _ _ hAns]

theorem mcOptions_acl (creator ansH q o n : Nat) (sv : Survey) (fs : FheState) :
    ∃ d, (mcOptions creator ansH q o n sv fs).2.acl = d ++ fs.acl ∧
    ∀ p ∈ d, (fs.nextHandle ≤ p.1 ∧ p.1 < fs.nextHandle + 8 * n) ∧
      (p.2 = Grantee.contract ∨ p.2 = Grantee.user creator) := by
  induction n generalizing o sv fs with
  | zero => exact ⟨[], by simp [mcOptions]⟩
  | succ m ih =>
    simp only [mcOptions]
    obtain ⟨d, hd, hp⟩ := ih (o + 1) (mcStep creator ansH q o sv fs).1
      (mcStep creator ansH q o sv fs).2
    refine ⟨d ++ [(fs.nextHandle + 7, Grantee.user creator),
      (fs.nextHandle + 7, Grantee.contract)], ?_, ?_⟩
    · rw [hd, mcStep_acl]
      simp
    · intro p hp2
      rcases List.mem_append.mp hp2 with h | h
      · have := hp p h
        rw [mcStep_nextHandle] at this
        exact ⟨⟨by omega, by omega⟩, this.2⟩
      · simp only [List.mem_cons, List.mem_singleton] at h
        rcases h with h | h | h
        · subst h; exact ⟨⟨by omega, by omega⟩, Or.inr rfl⟩
        · subst h; exact ⟨⟨by omega, by omega⟩, Or.inl rfl⟩
        · cases h

/-! ### The Rating step and loop -/

theorem ratingStep_agg (creator ansH q r : Nat) (sv : Survey) (fs : FheState) :
    (ratingStep creator ansH q r sv fs).1.aggregatedCounts =
    upd2 sv.aggregatedCounts q (r - 1) (fs.nextHandle + 5) := rfl

theorem ratingStep_nextHandle (creator ansH q r : Nat) (sv : Survey) (fs : FheState) :
    (ratingStep creator ansH q r sv fs).2.nextHandle = fs.nextHandle + 6 := rfl

theorem ratingStep_acl (creator ansH q r : Nat) (sv : Survey) (fs : FheState) :
    (ratingStep creator ansH q r sv fs).2.acl =
    (fs.nextHandle + 5, Grantee.user creator) ::
      (fs.nextHandle + 5, Grantee.contract) :: fs.acl := rfl

theorem ratingStep_surveys (creator ansH q r : Nat) (sv : Survey) (fs : FheState) :
    (ratingStep creator ansH q r sv fs).1 =
    { sv with aggregatedCounts := upd2 sv.aggregatedCounts q (r - 1) (fs.nextHandle + 5) } := rfl

theorem ratingStep_plain_lt (creator ansH q r : Nat) (sv : Survey) (fs : FheState)
    (h : Nat) (hh : h < fs.nextHandle) :
    (ratingStep creator ansH q r sv fs).2.plain h = fs.plain h := by
  have h0 : h ≠ fs.nextHandle := by omega
  have h1 : h ≠ fs.nextHandle + 1 := by omega
  have h2 : h ≠ fs.nextHandle + 2 := by omega
  have h3 : h ≠ fs.nextHandle + 3 := by omega
  have h4 : h ≠ fs.nextHandle + 4 := by omega
  have h5 : h ≠ fs.nextHandle + 5 := by omega
  simp [ratingStep, asEuint32, fheEq, fheSelect, fheAdd, fresh, allowThis, allow,
    h0, h1, h2, h3, h4, h5]

theorem ratingStep_plain_cnt (creator ansH q r : Nat) (sv : Survey) (fs : FheState)
    (hAns : ansH < fs.nextHandle)
    (hAgg : sv.aggregatedCounts q (r - 1) < fs.nextHandle) :
    (ratingStep creator ansH q r sv fs).2.plain (fs.nextHandle + 5) =
    (fs.plain (sv.aggregatedCounts q (r - 1)) +
      (if fs.plain ansH = r % M32 then 1 else 0)) % M32 := by
  have ha0 : sv.aggregatedCounts q (r - 1) ≠ fs.nextHandle := by omega
  have ha1 : sv.aggregatedCounts q (r - 1) ≠ fs.nextHandle + 1 := by omega
  have ha2 : sv.aggregatedCounts q (r - 1) ≠ fs.nextHandle + 2 := by omega
  have ha3 : sv.aggregatedCounts q (r - 1) ≠ fs.nextHandle + 3 := by omega
  have ha4 : sv.aggregatedCounts q (r - 1) ≠ fs.nextHandle + 4 := by omega
  have hb0 : ansH ≠ fs.nextHandle := by omega
  simp [ratingStep, asEuint32, fheEq, fheSelect, fheAdd, fresh, allowThis, allow,
    ha0, ha1, ha2, ha3, ha4, hb0, M32]
  by_cases hP : fs.plain ansH = r % 4294967296 <;> simp [hP, M32]

theorem ratingOptions_nextHandle (creator ansH q r n : Nat) (sv : Survey)
    (fs : FheState) :
    (ratingOptions creator ansH q r n sv fs).2.nextHandle = fs.nextHandle + 6 * n := by
  induction n generalizing r sv fs with
  | zero => simp [ratingOptions]
  | succ m ih =>
    simp only [ratingOptions]
    rw [ih, ratingStep_nextHandle]
    omega

theorem ratingOptions_plain_lt (creator ansH q r n : Nat) (sv : Survey)
    (fs : FheState) (h : Nat) (hh : h < fs.nextHandle) :
    (ratingOptions creator ansH q r n sv fs).2.plain h = fs.plain h := by
  induction n generalizing r sv fs with
  | zero => simp [ratingOptions]
  | succ m ih =>
    simp only [ratingOptions]
    rw [ih _ _ _ (by rw [ratingStep_nextHandle]; omega),
        ratingStep_plain_lt _ _ _ _ _ _ _ hh]

theorem ratingOptions_frame (creator ansH q r n : Nat) (sv : Survey) (fs : FheState) :
    svEqExceptAgg sv (ratingOptions creator ansH q r n sv fs).1 := by
  induction n generalizing r sv fs with
  | zero => simp [ratingOptions, svEqExceptAgg_refl]
  | succ m ih =>
    simp only [ratingOptions]
    refine svEqExceptAgg_trans ?_ (ih _ _ _)
    rw [ratingStep_surveys]
    simp [svEqExceptAgg]

theorem ratingOptions_agg_untouched (creator ansH q r n : Nat) (sv : Survey)
    (fs : FheState) (hr : 1 ≤ r) (q' o' : Nat)
    (h : ¬(q' = q ∧ r ≤ o' + 1 ∧ o' + 1 < r + n)) :
    (ratingOptions creator ansH q r n sv fs).1.aggregatedCounts q' o' =
    sv.aggregatedCounts q' o' := by
  induction n generalizing r sv fs with
  | zero => simp [ratingOptions]
  | succ m ih =>
    simp only [ratingOptions]
    rw [ih _ _ _ (by omega) (by intro hc; exact h ⟨hc.1, by omega, by omega⟩)]
    rw [ratingStep_agg]
    exact upd2_ne _ _ _ _ _ _ (by intro hc; exact h ⟨hc.1, by omega, by omega⟩)

theorem ratingOptions_agg_classify (creator ansH q r n : Nat) (sv : Survey)
    (fs : FheState) (q' o' : Nat) :
    (ratingOptions creator ansH q r n sv fs).1.aggregatedCounts q' o' =
      sv.aggregatedCounts q' o' ∨
    (fs.nextHandle ≤ (ratingOptions creator ansH q r n sv fs).1.aggregatedCounts q' o' ∧
     (ratingOptions creator ansH q r n sv fs).1.aggregatedCounts q' o' <
       fs.nextHandle + 6 * n) := by
  induction n generalizing r sv fs with
  | zero => simp [ratingOptions]
  | succ m ih =>
    simp only [ratingOptions]
    rcases ih (r + 1) (ratingStep creator ansH q r sv fs).1
        (ratingStep creator ansH q r sv fs).2 with heq | hb
    · rw [heq, ratingStep_agg]
      by_cases hc : q' = q ∧ o' = r - 1
      · right
        rcases hc with ⟨h1, h2⟩
        subst h1; subst h2
        rw [upd2_self]
        omega
      · left; exact upd2_ne _ _ _ _ _ _ hc
    · right
      rw [ratingStep_nextHandle] at hb
      omega

theorem ratingOptions_agg_plain (creator ansH q r n : Nat) (sv : Survey)
    (fs : FheState) (hr : 1 ≤ r) (hAns : ansH < fs.nextHandle)
    (hAgg : ∀ o2, sv.aggregatedCounts q o2 < fs.nextHandle) (o' : Nat)
    (hlo : r ≤ o' + 1) (hhi : o' + 1 < r + n) :
    (ratingOptions creator ansH q r n sv fs).2.plain
      ((ratingOptions creator ansH q r n sv fs).1.aggregatedCounts q o') =
    (fs.plain (sv.aggregatedCounts q o') +
      (if fs.plain ansH = (o' + 1) % M32 then 1 else 0)) % M32 := by
  induction n generalizing r sv fs with
  | zero => omega
  | succ m ih =>
    simp only [ratingOptions]
    by_cases hc : o' + 1 = r
    · have hco : o' = r - 1 := by omega
      subst hco
      rw [ratingOptions_agg_untouched _ _ _ _ _ _ _ (by omega) _ _ (by omega)]
      rw [ratingStep_agg, upd2_self]
      rw [ratingOptions_plain_lt _ _ _ _ _ _ _ _ (by rw [ratingStep_nextHandle]; omega)]
      rw [ratingStep_plain_cnt _ _ _ _ _ _ hAns (hAgg (r - 1))]
      rw [show r - 1 + 1 = r from by omega]
    · have h1 := ih (r + 1) (ratingStep creator ansH q r sv fs).1
        (ratingStep creator ansH q r sv fs).2 (by omega)
        (by rw [ratingStep_nextHandle]; omega)
        (by
          intro o2
          rw [ratingStep_agg, ratingStep_nextHandle]
          by_cases hc2 : o2 = r - 1
          · subst hc2; rw [upd2_self]; omega
          · rw [upd2_ne _ _ _ _ _ _ (by simp [hc2])]
            have := hAgg o2
            omega)
        (by omega) (by omega)
      rw [h1]
      have hagg : (ratingStep creator ansH q r sv fs).1.aggregatedCounts q o' =
          sv.aggregatedCounts q o' := by
        rw [ratingStep_agg]
        exact upd2_ne _ _ _ _ _ _ (by intro hx; omega)
      rw [hagg, ratingStep_plain_lt _ _ _ _ _ _ _ (hAgg o'),
          ratingStep_plain_lt _ _ _ _ _ _ _ hAns]

theorem ratingOptions_acl (creator ansH q r n : Nat) (sv : Survey) (fs : FheState) :
    ∃ d, (ratingOptions creator ansH q r n sv fs).2.acl = d ++ fs.acl ∧
    ∀ p ∈ d, (fs.nextHandle ≤ p.1 ∧ p.1 < fs.nextHandle + 6 * n) ∧
      (p.2 = Grantee.contract ∨ p.2 = Grantee.user creator) := by
  induction n generalizing r sv fs with
  | zero => exact ⟨[], by simp [ratingOptions]⟩
  | succ m ih =>
    simp only [ratingOptions]
    obtain ⟨d, hd, hp⟩ := ih (r + 1) (ratingStep creator ansH q r sv fs).1
      (ratingStep creator ansH q r sv fs).2
    refine ⟨d ++ [(fs.nextHandle + 5, Grantee.user creator),
      (fs.nextHandle + 5, Grantee.contract)], ?_, ?_⟩
    · rw [hd, ratingStep_acl]
      simp
    · intro p hp2
      rcases List.mem_append.mp hp2 with h | h
      · have := hp p h
        rw [ratingStep_nextHandle] at this
        exact ⟨⟨by omega, by omega⟩, this.2⟩
      · simp only [List.mem_cons, List.mem_singleton] at h
        rcases h with h | h | h
        · subst h; exact ⟨⟨by omega, by omega⟩, Or.inr rfl⟩
        · subst h; exact ⟨⟨by omega, by omega⟩, Or.inl rfl⟩
        · cases h

/-! ### Preservation of 32-bit boundedness of the plaintext shadow -/

theorem fresh_plain_all (fs : FheState) (v : Nat)
    (hb : ∀ h, fs.plain h < M32) : ∀ h, (fresh fs v).2.plain h < M32 := by
  intro h2
  by_cases hx : h2 = fs.nextHandle <;> simp [fresh, hx]
  · exact Nat.mod_lt _ (by decide)
  · exact hb h2

theorem scStep_plain_all (creator ansH q o : Nat) (sv : Survey) (fs : FheState)
    (hb : ∀ h, fs.plain h < M32) :
    ∀ h, (scStep creator ansH q o sv fs).2.plain h < M32 := by
  simp only [scStep, asEuint32, fheEq, fheSelect, fheAdd, allowThis, allow]
  exact fresh_plain_all _ _ (fresh_plain_all _ _ (fresh_plain_all _ _
    (fresh_plain_all _ _ (fresh_plain_all _ _ (fresh_plain_all _ _ hb)))))

theorem mcStep_plain_all (creator ansH q o : Nat) (sv : Survey) (fs : FheState)
    (hb : ∀ h, fs.plain h < M32) :
    ∀ h, (mcStep creator ansH q o sv fs).2.plain h < M32 := by
  simp only [mcStep, asEuint32, fheAnd, fheGt, fheSelect, fheAdd, allowThis, allow]
  exact fresh_plain_all _ _ (fresh_plain_all _ _ (fresh_plain_all _ _
    (fresh_plain_all _ _ (fresh_plain_all _ _ (fresh_plain_all _ _
      (fresh_plain_all _ _ (fresh_plain_all _ _ hb)))))))

theorem ratingStep_plain_all (creator ansH q r : Nat) (sv : Survey) (fs : FheState)
    (hb : ∀ h, fs.plain h < M32) :
    ∀ h, (ratingStep creator ansH q r sv fs).2.plain h < M32 := by
  simp only [ratingStep, asEuint32, fheEq, fheSelect, fheAdd, allowThis, allow]
  exact fresh_plain_all _ _ (fresh_plain_all _ _ (fresh_plain_all _ _
    (fresh_plain_all _ _ (fresh_plain_all _ _ (fresh_plain_all _ _ hb)))))

theorem scOptions_plain_all (creator ansH q o n : Nat) (sv : Survey) (fs : FheState)
    (hb : ∀ h, fs.plain h < M32) :
    ∀ h, (scOptions creator ansH q o n sv fs).2.plain h < M32 := by
  induction n generalizing o sv fs with
  | zero => simpa [scOptions] using hb
  | succ m ih =>
    simp only [scOptions]
    exact ih _ _ _ (scStep_plain_all _ _ _ _ _ _ hb)

theorem mcOptions_plain_all (creator ansH q o n : Nat) (sv : Survey) (fs : FheState)
    (hb : ∀ h, fs.plain h < M32) :
    ∀ h, (mcOptions creator ansH q o n sv fs).2.plain h < M32 := by
  induction n generalizing o sv fs with
  | zero => simpa [mcOptions] using hb
  | succ m ih =>
    simp only [mcOptions]
    exact ih _ _ _ (mcStep_plain_all _ _ _ _ _ _ hb)

theorem ratingOptions_plain_all (creator ansH q r n : Nat) (sv : Survey)
    (fs : FheState) (hb : ∀ h, fs.plain h < M32) :
    ∀ h, (ratingOptions creator ansH q r n sv fs).2.plain h < M32 := by
  induction n generalizing r sv fs with
  | zero => simpa [ratingOptions] using hb
  | succ m ih =>
    simp only [ratingOptions]
    exact ih _ _ _ (ratingStep_plain_all _ _ _ _ _ _ hb)

/-! ### The per-question dispatch -/

theorem processQuestion_nextHandle_mono (creator q ansH : Nat) (sv : Survey)
    (fs : FheState) :
    fs.nextHandle ≤ (processQuestion creator q ansH sv fs).2.nextHandle := by
  rcases hq : (sv.questions q).qType <;>
    simp only [processQuestion, hq] <;>
    first
      | (rw [scOptions_nextHandle]; omega)
      | (rw [mcOptions_nextHandle]; omega)
      | (rw [ratingOptions_nextHandle]; omega)

theorem processQuestion_plain_lt (creator q ansH : Nat) (sv : Survey)
    (fs : FheState) (h : Nat) (hh : h < fs.nextHandle) :
    (processQuestion creator q ansH sv fs).2.plain h = fs.plain h := by
  rcases hq : (sv.questions q).qType <;>
    simp only [processQuestion, hq] <;>
    first
      | exact scOptions_plain_lt _ _ _ _ _ _ _ _ hh
      | exact mcOptions_plain_lt _ _ _ _ _ _ _ _ hh
      | exact ratingOptions_plain_lt _ _ _ _ _ _ _ _ hh

theorem processQuestion_plain_all (creator q ansH : Nat) (sv : Survey)
    (fs : FheState) (hb : ∀ h, fs.plain h < M32) :
    ∀ h, (processQuestion creator q ansH sv fs).2.plain h < M32 := by
  rcases hq : (sv.questions q).qType <;>
    simp only [processQuestion, hq] <;>
    first
      | exact scOptions_plain_all _ _ _ _ _ _ _ hb
      | exact mcOptions_plain_all _ _ _ _ _ _ _ hb
      | exact ratingOptions_plain_all _ _ _ _ _ _ _ hb

theorem processQuestion_frame (creator q ansH : Nat) (sv : Survey) (fs : FheState) :
    svEqExceptAgg sv (processQuestion creator q ansH sv fs).1 := by
  rcases hq : (sv.questions q).qType <;>
    simp only [processQuestion, hq] <;>
    first
      | exact scOptions_frame _ _ _ _ _ _ _
      | exact mcOptions_frame _ _ _ _ _ _ _
      | exact ratingOptions_frame _ _ _ _ _ _ _

theorem processQuestion_agg_other (creator q ansH : Nat) (sv : Survey)
    (fs : FheState) (q2 o2 : Nat) (hne : q2 ≠ q) :
    (processQuestion creator q ansH sv fs).1.aggregatedCounts q2 o2 =
    sv.aggregatedCounts q2 o2 := by
  rcases hq : (sv.questions q).qType <;>
    simp only [processQuestion, hq] <;>
    first
      | exact scOptions_agg_untouched _ _ _ _ _ _ _ _ _ (by simp [hne])
      | exact mcOptions_agg_untouched _ _ _ _ _ _ _ _ _ (by simp [hne])
      | exact ratingOptions_agg_untouched _ _ _ _ _ _ _ (by omega) _ _ (by simp [hne])

theorem processQuestion_agg_classify (creator q ansH : Nat) (sv : Survey)
    (fs : FheState) (q2 o2 : Nat) :
    (processQuestion creator q ansH sv fs).1.aggregatedCounts q2 o2 =
      sv.aggregatedCounts q2 o2 ∨
    (fs.nextHandle ≤ (processQuestion creator q ansH sv fs).1.aggregatedCounts q2 o2 ∧
     (processQuestion creator q ansH sv fs).1.aggregatedCounts q2 o2 <
       (processQuestion creator q ansH sv fs).2.nextHandle) := by
  rcases hq : (sv.questions q).qType <;> simp only [processQuestion, hq]
  · rcases scOptions_agg_classify creator ansH q 0 (sv.questions q).optionCount
        sv fs q2 o2 with h | h
    · exact Or.inl h
    · exact Or.inr (by rw [scOptions_nextHandle]; exact h)
  · rcases mcOptions_agg_classify creator ansH q 0 (sv.questions q).optionCount
        sv fs q2 o2 with h | h
    · exact Or.inl h
    · exact Or.inr (by rw [mcOptions_nextHandle]; exact h)
  · rcases ratingOptions_agg_classify creator ansH q 1 5 sv fs q2 o2 with h | h
    · exact Or.inl h
    · exact Or.inr (by rw [ratingOptions_nextHandle]; exact h)

theorem processQuestion_agg_plain (creator q ansH : Nat) (sv : Survey)
    (fs : FheState) (hAns : ansH < fs.nextHandle)
    (hAgg : ∀ q2 o2, sv.aggregatedCounts q2 o2 < fs.nextHandle)
    (hplain : ∀ h2, fs.plain h2 < M32) (o2 : Nat) :
    (processQuestion creator q ansH sv fs).2.plain
      ((processQuestion creator q ansH sv fs).1.aggregatedCounts q o2) =
    (fs.plain (sv.aggregatedCounts q o2) +
      bucketDelta (sv.questions q) (fs.plain ansH) o2) % M32 := by
  rcases hq : (sv.questions q).qType <;> simp only [processQuestion, hq]
  · by_cases ho2 : o2 < (sv.questions q).optionCount
    · rw [scOptions_agg_plain creator ansH q 0 (sv.questions q).optionCount sv fs
        hAns (fun o3 => hAgg q o3) o2 (by omega) (by omega)]
      simp [bucketDelta, hq, ho2]
    · rw [scOptions_agg_untouched _ _ _ _ _ _ _ _ _ (by omega)]
      rw [scOptions_plain_lt _ _ _ _ _ _ _ _ (hAgg q o2)]
      simp [bucketDelta, hq, ho2]
      exact (Nat.mod_eq_of_lt (hplain _)).symm
  · by_cases ho2 : o2 < (sv.questions q).optionCount
    · rw [mcOptions_agg_plain creator ansH q 0 (sv.questions q).optionCount sv fs
        hAns (fun o3 => hAgg q o3) o2 (by omega) (by omega)]
      simp [bucketDelta, hq, ho2]
    · rw [mcOptions_agg_untouched _ _ _ _ _ _ _ _ _ (by omega)]
      rw [mcOptions_plain_lt _ _ _ _ _ _ _ _ (hAgg q o2)]
      simp [bucketDelta, hq, ho2]
      exact (Nat.mod_eq_of_lt (hplain _)).symm
  · by_cases ho2 : o2 < 5
    · rw [ratingOptions_agg_plain creator ansH q 1 5 sv fs (by omega) hAns
        (fun o3 => hAgg q o3) o2 (by omega) (by omega)]
      simp [bucketDelta, hq, ho2]
    · rw [ratingOptions_agg_untouched _ _ _ _ _ _ _ (by omega) _ _ (by omega)]
      rw [ratingOptions_plain_lt _ _ _ _ _ _ _ _ (hAgg q o2)]
      simp [bucketDelta, hq, ho2]
      exact (Nat.mod_eq_of_lt (hplain _)).symm

theorem processQuestion_acl (creator q ansH : Nat) (sv : Survey) (fs : FheState) :
    ∃ d, (processQuestion creator q ansH sv fs).2.acl = d ++ fs.acl ∧
    ∀ p ∈ d, (fs.nextHandle ≤ p.1 ∧
        p.1 < (processQuestion creator q ansH sv fs).2.nextHandle) ∧
      (p.2 = Grantee.contract ∨ p.2 = Grantee.user creator) := by
  rcases hq : (sv.questions q).qType <;> simp only [processQuestion, hq]
  · obtain ⟨d, hd, hp⟩ := scOptions_acl creator ansH q 0
      (sv.questions q).optionCount sv fs
    exact ⟨d, hd, fun p hp2 =>
      ⟨by rw [scOptions_nextHandle]; exact (hp p hp2).1, (hp p hp2).2⟩⟩
  · obtain ⟨d, hd, hp⟩ := mcOptions_acl creator ansH q 0
      (sv.questions q).optionCount sv fs
    exact ⟨d, hd, fun p hp2 =>
      ⟨by rw [mcOptions_nextHandle]; exact (hp p hp2).1, (hp p hp2).2⟩⟩
  · obtain ⟨d, hd, hp⟩ := ratingOptions_acl creator ansH q 1 5 sv fs
    exact ⟨d, hd, fun p hp2 =>
      ⟨by rw [ratingOptions_nextHandle]; exact (hp p hp2).1, (hp p hp2).2⟩⟩

/-! ### The question fold of submitResponse -/

theorem importAnswer_fst (fs : FheState) (v : Nat) :
    (importAnswer fs v).1 = fs.nextHandle := rfl

theorem importAnswer_nextHandle (fs : FheState) (v : Nat) :
    (importAnswer fs v).2.nextHandle = fs.nextHandle + 1 := rfl

theorem importAnswer_acl (fs : FheState) (v : Nat) :
    (importAnswer fs v).2.acl = (fs.nextHandle, Grantee.contract) :: fs.acl := rfl

theorem importAnswer_plain_self (fs : FheState) (v : Nat) :
    (importAnswer fs v).2.plain fs.nextHandle = v % M32 := by
  simp [importAnswer, fromExternal, fresh, allowThis, allow]

theorem importAnswer_plain_lt (fs : FheState) (v h : Nat) (hh : h < fs.nextHandle) :
    (importAnswer fs v).2.plain h = fs.plain h := by
  simp [importAnswer, fromExternal, fresh, allowThis, allow]
  intro he
  omega

theorem importAnswer_plain_all (fs : FheState) (v : Nat)
    (hb : ∀ h, fs.plain h < M32) : ∀ h, (importAnswer fs v).2.plain h < M32 := by
  simp only [importAnswer, fromExternal, allowThis, allow]
  exact fresh_plain_all _ _ hb

theorem processQuestions_nextHandle_mono (creator : Nat) (answers : List Nat)
    (q n : Nat) (ans : Nat → Nat) (sv : Survey) (fs : FheState) :
    fs.nextHandle ≤ (processQuestions creator answers q n ans sv fs).2.2.nextHandle := by
  induction n generalizing q ans sv fs with
  | zero => simp [processQuestions]
  | succ m ih =>
    simp only [processQuestions]
    refine le_trans ?_ (ih _ _ _ _)
    refine le_trans ?_ (processQuestion_nextHandle_mono _ _ _ _ _)
    rw [importAnswer_nextHandle]
    omega

theorem processQuestions_plain_lt (creator : Nat) (answers : List Nat)
    (q n : Nat) (ans : Nat → Nat) (sv : Survey) (fs : FheState) (h : Nat)
    (hh : h < fs.nextHandle) :
    (processQuestions creator answers q n ans sv fs).2.2.plain h = fs.plain h := by
  induction n generalizing q ans sv fs with
  | zero => simp [processQuestions]
  | succ m ih =>
    simp only [processQuestions]
    rw [ih _ _ _ _ (by
      refine lt_of_lt_of_le ?_ (processQuestion_nextHandle_mono _ _ _ _ _)
      rw [importAnswer_nextHandle]
      omega)]
    rw [processQuestion_plain_lt _ _ _ _ _ _ (by rw [importAnswer_nextHandle]; omega)]
    exact importAnswer_plain_lt _ _ _ hh

theorem processQuestions_plain_all (creator : Nat) (answers : List Nat)
    (q n : Nat) (ans : Nat → Nat) (sv : Survey) (fs : FheState)
    (hb : ∀ h, fs.plain h < M32) :
    ∀ h, (processQuestions creator answers q n ans sv fs).2.2.plain h < M32 := by
  induction n generalizing q ans sv fs with
  | zero => simpa [processQuestions] using hb
  | succ m ih =>
    simp only [processQuestions]
    exact ih _ _ _ _ (processQuestion_plain_all _ _ _ _ _
      (importAnswer_plain_all _ _ hb))

theorem processQuestions_frame (creator : Nat) (answers : List Nat)
    (q n : Nat) (ans : Nat → Nat) (sv : Survey) (fs : FheState) :
    svEqExceptAgg sv (processQuestions creator answers q n ans sv fs).2.1 := by
  induction n generalizing q ans sv fs with
  | zero => simp [processQuestions, svEqExceptAgg_refl]
  | succ m ih =>
    simp only [processQuestions]
    exact svEqExceptAgg_trans (processQuestion_frame _ _ _ _ _) (ih _ _ _ _)

theorem processQuestions_ans_old (creator : Nat) (answers : List Nat)
    (q n : Nat) (ans : Nat → Nat) (sv : Survey) (fs : FheState) (i : Nat)
    (hi : ¬(q ≤ i ∧ i < q + n)) :
    (processQuestions creator answers q n ans sv fs).1 i = ans i := by
  induction n generalizing q ans sv fs with
  | zero => simp [processQuestions]
  | succ m ih =>
    simp only [processQuestions]
    rw [ih _ _ _ _ (by omega)]
    exact upd_ne _ _ _ _ (by omega)

theorem processQuestions_ans_new (creator : Nat) (answers : List Nat)
    (q n : Nat) (ans : Nat → Nat) (sv : Survey) (fs : FheState) (i : Nat)
    (hlo : q ≤ i) (hhi : i < q + n) :
    (fs.nextHandle ≤ (processQuestions creator answers q n ans sv fs).1 i ∧
     (processQuestions creator answers q n ans sv fs).1 i <
       (processQuestions creator answers q n ans sv fs).2.2.nextHandle) ∧
    (processQuestions creator answers q n ans sv fs).2.2.plain
      ((processQuestions creator answers q n ans sv fs).1 i) =
      answerVal answers i := by
  induction n generalizing q ans sv fs with
  | zero => omega
  | succ m ih =>
    simp only [processQuestions]
    by_cases hc : i = q
    · subst hc
      have hvi : (processQuestions creator answers (i + 1) m
          (upd ans i (importAnswer fs (answers.getD i 0)).1)
          (processQuestion creator i (importAnswer fs (answers.getD i 0)).1 sv
            (importAnswer fs (answers.getD i 0)).2).1
          (processQuestion creator i (importAnswer fs (answers.getD i 0)).1 sv
            (importAnswer fs (answers.getD i 0)).2).2).1 i =
          fs.nextHandle := by
        rw [processQuestions_ans_old _ _ _ _ _ _ _ _ (by omega)]
        rw [upd_self, importAnswer_fst]
      rw [hvi]
      constructor
      · constructor
        · omega
        · refine lt_of_lt_of_le ?_ (processQuestions_nextHandle_mono _ _ _ _ _ _ _)
          refine lt_of_lt_of_le ?_ (processQuestion_nextHandle_mono _ _ _ _ _)
          rw [importAnswer_nextHandle]
          omega
      · rw [processQuestions_plain_lt _ _ _ _ _ _ _ _ (by
          refine lt_of_lt_of_le ?_ (processQuestion_nextHandle_mono _ _ _ _ _)
          rw [importAnswer_nextHandle]
          omega)]
        rw [processQuestion_plain_lt _ _ _ _ _ _ (by rw [importAnswer_nextHandle]; omega)]
        exact importAnswer_plain_self _ _
    · have h1 := ih (q + 1)
        (upd ans q (importAnswer fs (answers.getD q 0)).1)
        (processQuestion creator q (importAnswer fs (answers.getD q 0)).1 sv
          (importAnswer fs (answers.getD q 0)).2).1
        (processQuestion creator q (importAnswer fs (answers.getD q 0)).1 sv
          (importAnswer fs (answers.getD q 0)).2).2
        (by omega) (by omega)
      refine ⟨⟨le_trans ?_ h1.1.1, h1.1.2⟩, h1.2⟩
      refine le_trans ?_ (processQuestion_nextHandle_mono _ _ _ _ _)
      rw [importAnswer_nextHandle]
      omega

theorem processQuestions_agg_other (creator : Nat) (answers : List Nat)
    (q n : Nat) (ans : Nat → Nat) (sv : Survey) (fs : FheState) (q2 o2 : Nat)
    (hq2 : ¬(q ≤ q2 ∧ q2 < q + n)) :
    (processQuestions creator answers q n ans sv fs).2.1.aggregatedCounts q2 o2 =
    sv.aggregatedCounts q2 o2 := by
  induction n generalizing q ans sv fs with
  | zero => simp [processQuestions]
  | succ m ih =>
    simp only [processQuestions]
    rw [ih _ _ _ _ (by omega)]
    exact processQuestion_agg_other _ _ _ _ _ _ _ (by omega)

theorem processQuestions_agg_classify (creator : Nat) (answers : List Nat)
    (q n : Nat) (ans : Nat → Nat) (sv : Survey) (fs : FheState) (q2 o2 : Nat) :
    (processQuestions creator answers q n ans sv fs).2.1.aggregatedCounts q2 o2 =
      sv.aggregatedCounts q2 o2 ∨
    (fs.nextHandle ≤
      (processQuestions creator answers q n ans sv fs).2.1.aggregatedCounts q2 o2 ∧
     (processQuestions creator answers q n ans sv fs).2.1.aggregatedCounts q2 o2 <
      (processQuestions creator answers q n ans sv fs).2.2.nextHandle) := by
  induction n generalizing q ans sv fs with
  | zero => simp [processQuestions]
  | succ m ih =>
    simp only [processQuestions]
    rcases ih (q + 1) (upd ans q (importAnswer fs (answers.getD q 0)).1)
        (processQuestion creator q (importAnswer fs (answers.getD q 0)).1 sv
          (importAnswer fs (answers.getD q 0)).2).1
        (processQuestion creator q (importAnswer fs (answers.getD q 0)).1 sv
          (importAnswer fs (answers.getD q 0)).2).2 with heq | hb
    · rw [heq]
      rcases processQuestion_agg_classify creator q
          (importAnswer fs (answers.getD q 0)).1 sv
          (importAnswer fs (answers.getD q 0)).2 q2 o2 with h2 | h2
      · exact Or.inl h2
      · refine Or.inr ⟨?_, ?_⟩
        · refine le_trans ?_ h2.1
          rw [importAnswer_nextHandle]
          omega
        · exact lt_of_lt_of_le h2.2 (processQuestions_nextHandle_mono _ _ _ _ _ _ _)
    · refine Or.inr ⟨?_, hb.2⟩
      refine le_trans ?_ hb.1
      refine le_trans ?_ (processQuestion_nextHandle_mono _ _ _ _ _)
      rw [importAnswer_nextHandle]
      omega

theorem processQuestions_agg_plain (creator : Nat) (answers : List Nat)
    (q n : Nat) (ans : Nat → Nat) (sv : Survey) (fs : FheState)
    (hAgg : ∀ q2 o2, sv.aggregatedCounts q2 o2 < fs.nextHandle)
    (hplain : ∀ h, fs.plain h < M32) (q2 : Nat) (hlo : q ≤ q2) (hhi : q2 < q + n)
    (o2 : Nat) :
    (processQuestions creator answers q n ans sv fs).2.2.plain
      ((processQuestions creator answers q n ans sv fs).2.1.aggregatedCounts q2 o2) =
    (fs.plain (sv.aggregatedCounts q2 o2) +
      bucketDelta (sv.questions q2) (answerVal answers q2) o2) % M32 := by
  induction n generalizing q ans sv fs with
  | zero => omega
  | succ m ih =>
    simp only [processQuestions]
    by_cases hc : q2 = q
    · subst hc
      rw [processQuestions_agg_other _ _ _ _ _ _ _ _ _ (by omega)]
      have hlt : (processQuestion creator q2 (importAnswer fs (answers.getD q2 0)).1 sv
          (importAnswer fs (answers.getD q2 0)).2).1.aggregatedCounts q2 o2 <
          (processQuestion creator q2 (importAnswer fs (answers.getD q2 0)).1 sv
            (importAnswer fs (answers.getD q2 0)).2).2.nextHandle := by
        rcases processQuestion_agg_classify creator q2
            (importAnswer fs (answers.getD q2 0)).1 sv
            (importAnswer fs (answers.getD q2 0)).2 q2 o2 with h2 | h2
        · rw [h2]
          refine lt_of_lt_of_le (hAgg q2 o2) ?_
          refine le_trans ?_ (processQuestion_nextHandle_mono _ _ _ _ _)
          rw [importAnswer_nextHandle]
          omega
        · exact h2.2
      rw [processQuestions_plain_lt _ _ _ _ _ _ _ _ hlt]
      rw [processQuestion_agg_plain _ _ _ _ _
        (by rw [importAnswer_fst, importAnswer_nextHandle]; omega)
        (by
          intro q3 o3
          rw [importAnswer_nextHandle]
          have := hAgg q3 o3
          omega)
        (importAnswer_plain_all _ _ hplain) o2]
      rw [importAnswer_plain_lt _ _ _ (hAgg q2 o2)]
      rw [importAnswer_fst, importAnswer_plain_self]
      rfl
    · have h1 := ih (q + 1) (upd ans q (importAnswer fs (answers.getD q 0)).1)
        (processQuestion creator q (importAnswer fs (answers.getD q 0)).1 sv
          (importAnswer fs (answers.getD q 0)).2).1
        (processQuestion creator q (importAnswer fs (answers.getD q 0)).1 sv
          (importAnswer fs (answers.getD q 0)).2).2
        (by
          intro q3 o3
          rcases processQuestion_agg_classify creator q
              (importAnswer fs (answers.getD q 0)).1 sv
              (importAnswer fs (answers.getD q 0)).2 q3 o3 with h2 | h2
          · rw [h2]
            refine lt_of_lt_of_le (hAgg q3 o3) ?_
            refine le_trans ?_ (processQuestion_nextHandle_mono _ _ _ _ _)
            rw [importAnswer_nextHandle]
            omega
          · exact h2.2)
        (processQuestion_plain_all _ _ _ _ _ (importAnswer_plain_all _ _ hplain))
        (by omega) (by omega)
      rw [h1]
      rw [processQuestion_agg_other _ _ _ _ _ _ _ (by omega)]
      rw [processQuestion_plain_lt _ _ _ _ _ _ (by
        rw [importAnswer_nextHandle]
        have := hAgg q2 o2
        omega)]
      rw [importAnswer_plain_lt _ _ _ (hAgg q2 o2)]
      have hques : (processQuestion creator q (importAnswer fs (answers.getD q 0)).1 sv
          (importAnswer fs (answers.getD q 0)).2).1.questions = sv.questions :=
        (processQuestion_frame creator q (importAnswer fs (answers.getD q 0)).1
          sv (importAnswer fs (answers.getD q 0)).2).2.2.2.2.2.2.2.2.2.2.1
      rw [hques]

theorem processQuestions_acl (creator : Nat) (answers : List Nat)
    (q n : Nat) (ans : Nat → Nat) (sv : Survey) (fs : FheState) :
    ∃ d, (processQuestions creator answers q n ans sv fs).2.2.acl = d ++ fs.acl ∧
    (∀ p ∈ d, (fs.nextHandle ≤ p.1 ∧
        p.1 < (processQuestions creator answers q n ans sv fs).2.2.nextHandle) ∧
      (p.2 = Grantee.contract ∨ p.2 = Grantee.user creator)) ∧
    (∀ p ∈ d, ∀ i, q ≤ i → i < q + n →
      p.1 = (processQuestions creator answers q n ans sv fs).1 i →
      p.2 = Grantee.contract) ∧
    (∀ i, q ≤ i → i < q + n →
      ((processQuestions creator answers q n ans sv fs).1 i, Grantee.contract) ∈ d) := by
  induction n generalizing q ans sv fs with
  | zero => exact ⟨[], by simp [processQuestions]⟩
  | succ m ih =>
    simp only [processQuestions]
    obtain ⟨d1, hd1, hb1⟩ := processQuestion_acl creator q
      (importAnswer fs (answers.getD q 0)).1 sv (importAnswer fs (answers.getD q 0)).2
    obtain ⟨d2, hd2, hb2, hc2, hm2⟩ := ih (q + 1)
      (upd ans q (importAnswer fs (answers.getD q 0)).1)
      (processQuestion creator q (importAnswer fs (answers.getD q 0)).1 sv
        (importAnswer fs (answers.getD q 0)).2).1
      (processQuestion creator q (importAnswer fs (answers.getD q 0)).1 sv
        (importAnswer fs (answers.getD q 0)).2).2
    have hvq : (processQuestions creator answers (q + 1) m
        (upd ans q (importAnswer fs (answers.getD q 0)).1)
        (processQuestion creator q (importAnswer fs (answers.getD q 0)).1 sv
          (importAnswer fs (answers.getD q 0)).2).1
        (processQuestion creator q (importAnswer fs (answers.getD q 0)).1 sv
          (importAnswer fs (answers.getD q 0)).2).2).1 q = fs.nextHandle := by
      rw [processQuestions_ans_old _ _ _ _ _ _ _ _ (by omega)]
      rw [upd_self, importAnswer_fst]
    refine ⟨d2 ++ d1 ++ [(fs.nextHandle, Grantee.contract)], ?_, ?_, ?_, ?_⟩
    · rw [hd2, hd1, importAnswer_acl]
      simp
    · intro p hp
      simp only [List.mem_append, List.mem_singleton] at hp
      rcases hp with (hp | hp) | hp
      · have := hb2 p hp
        refine ⟨⟨?_, this.1.2⟩, this.2⟩
        refine le_trans ?_ this.1.1
        refine le_trans ?_ (processQuestion_nextHandle_mono _ _ _ _ _)
        rw [importAnswer_nextHandle]
        omega
      · have := hb1 p hp
        refine ⟨⟨?_, ?_⟩, this.2⟩
        · refine le_trans ?_ this.1.1
          rw [importAnswer_nextHandle]
          omega
        · exact lt_of_lt_of_le this.1.2 (processQuestions_nextHandle_mono _ _ _ _ _ _ _)
      · subst hp
        refine ⟨⟨le_refl _, ?_⟩, Or.inl rfl⟩
        refine lt_of_lt_of_le ?_ (processQuestions_nextHandle_mono _ _ _ _ _ _ _)
        refine lt_of_lt_of_le ?_ (processQuestion_nextHandle_mono _ _ _ _ _)
        rw [importAnswer_nextHandle]
        omega
    · intro p hp i hilo hihi hpi
      simp only [List.mem_append, List.mem_singleton] at hp
      by_cases hci : i = q
      · subst hci
        rw [hvq] at hpi
        rcases hp with (hp | hp) | hp
        · have := hb2 p hp
          have h3 : (importAnswer fs (answers.getD i 0)).2.nextHandle ≤ p.1 := by
            refine le_trans ?_ (le_trans (processQuestion_nextHandle_mono _ _ _ _ _)
              this.1.1)
            omega
          rw [importAnswer_nextHandle] at h3
          omega
        · have := hb1 p hp
          have h3 := this.1.1
          rw [importAnswer_nextHandle] at h3
          omega
        · subst hp
          rfl
      · have hbd := (processQuestions_ans_new creator answers (q + 1) m
          (upd ans q (importAnswer fs (answers.getD q 0)).1)
          (processQuestion creator q (importAnswer fs (answers.getD q 0)).1 sv
            (importAnswer fs (answers.getD q 0)).2).1
          (processQuestion creator q (importAnswer fs (answers.getD q 0)).1 sv
            (importAnswer fs (answers.getD q 0)).2).2 i (by omega) (by omega)).1
        rcases hp with (hp | hp) | hp
        · exact hc2 p hp i (by omega) (by omega) hpi
        · have := hb1 p hp
          have h3 := this.1.2
          rw [hpi] at h3
          omega
        · subst hp
          simp only at hpi
          have h4 : fs.nextHandle <
              (processQuestion creator q (importAnswer fs (answers.getD q 0)).1 sv
                (importAnswer fs (answers.getD q 0)).2).2.nextHandle := by
            refine lt_of_lt_of_le ?_ (processQuestion_nextHandle_mono _ _ _ _ _)
            rw [importAnswer_nextHandle]
            omega
          omega
    · intro i hilo hihi
      by_cases hci : i = q
      · subst hci
        rw [hvq]
        simp
      · have := hm2 i (by omega) (by omega)
        exact List.mem_append.mpr (Or.inl (List.mem_append.mpr (Or.inl this)))

theorem processQuestions_agg_ne_ans (creator : Nat) (answers : List Nat)
    (q n : Nat) (ans : Nat → Nat) (sv : Survey) (fs : FheState)
    (hAgg : ∀ q2 o2, sv.aggregatedCounts q2 o2 < fs.nextHandle)
    (q2 o2 i : Nat) (hilo : q ≤ i) (hihi : i < q + n) :
    (processQuestions creator answers q n ans sv fs).2.1.aggregatedCounts q2 o2 ≠
    (processQuestions creator answers q n ans sv fs).1 i := by
  induction n generalizing q ans sv fs with
  | zero => omega
  | succ m ih =>
    simp only [processQuestions]
    by_cases hci : i = q
    · subst hci
      have hvq : (processQuestions creator answers (i + 1) m
          (upd ans i (importAnswer fs (answers.getD i 0)).1)
          (processQuestion creator i (importAnswer fs (answers.getD i 0)).1 sv
            (importAnswer fs (answers.getD i 0)).2).1
          (processQuestion creator i (importAnswer fs (answers.getD i 0)).1 sv
            (importAnswer fs (answers.getD i 0)).2).2).1 i = fs.nextHandle := by
        rw [processQuestions_ans_old _ _ _ _ _ _ _ _ (by omega)]
        rw [upd_self, importAnswer_fst]
      rw [hvq]
      rcases processQuestions_agg_classify creator answers (i + 1) m
          (upd ans i (importAnswer fs (answers.getD i 0)).1)
          (processQuestion creator i (importAnswer fs (answers.getD i 0)).1 sv
            (importAnswer fs (answers.getD i 0)).2).1
          (processQuestion creator i (importAnswer fs (answers.getD i 0)).1 sv
            (importAnswer fs (answers.getD i 0)).2).2 q2 o2 with heq | hb
      · rw [heq]
        rcases processQuestion_agg_classify creator i
            (importAnswer fs (answers.getD i 0)).1 sv
            (importAnswer fs (answers.getD i 0)).2 q2 o2 with h2 | h2
        · rw [h2]
          have := hAgg q2 o2
          omega
        · have h3 := h2.1
          rw [importAnswer_nextHandle] at h3
          omega
      · have h3 := hb.1
        have h4 : (importAnswer fs (answers.getD i 0)).2.nextHandle ≤
            (processQuestion creator i (importAnswer fs (answers.getD i 0)).1 sv
              (importAnswer fs (answers.getD i 0)).2).2.nextHandle :=
          processQuestion_nextHandle_mono _ _ _ _ _
        rw [importAnswer_nextHandle] at h4
        omega
    · exact ih (q + 1) (upd ans q (importAnswer fs (answers.getD q 0)).1)
        (processQuestion creator q (importAnswer fs (answers.getD q 0)).1 sv
          (importAnswer fs (answers.getD q 0)).2).1
        (processQuestion creator q (importAnswer fs (answers.getD q 0)).1 sv
          (importAnswer fs (answers.getD q 0)).2).2
        (by
          intro q3 o3
          rcases processQuestion_agg_classify creator q
              (importAnswer fs (answers.getD q 0)).1 sv
              (importAnswer fs (answers.getD q 0)).2 q3 o3 with h2 | h2
          · rw [h2]
            refine lt_of_lt_of_le (hAgg q3 o3) ?_
            refine le_trans ?_ (processQuestion_nextHandle_mono _ _ _ _ _)
            rw [importAnswer_nextHandle]
            omega
          · exact h2.2)
        (by omega) (by omega)

/-! ### Structure of an accepted submitResponse -/

theorem submitResponse_some_iff {s : ContractState} {sender now surveyId : Nat}
    {answers : List Nat} {s' : ContractState} :
    submitResponse s sender now surveyId answers = some s' ↔
    (submitOk s sender now surveyId answers ∧
     s' = submitState s sender now surveyId answers) := by
  unfold submitResponse
  split
  · next hc => simp [hc, eq_comm]
  · next hc => simp [hc]

theorem submitResponse_isSome_iff {s : ContractState} {sender now surveyId : Nat}
    {answers : List Nat} :
    (submitResponse s sender now surveyId answers).isSome = true ↔
    submitOk s sender now surveyId answers := by
  unfold submitResponse
  split
  · next hc => simp [hc]
  · next hc => simp [hc]

theorem submitResponse_exists_none {s : ContractState} {sender now surveyId : Nat}
    {answers : List Nat}
    (h : (s.responses surveyId sender).existsF = true) :
    submitResponse s sender now surveyId answers = none := by
  unfold submitResponse
  split
  · next hc =>
      unfold submitOk at hc
      rw [hc.2.2.2.2.2] at h
      cases h
  · rfl

theorem submitPQ_def (s : ContractState) (sender surveyId : Nat)
    (answers : List Nat) :
    submitPQ s sender surveyId answers =
    processQuestions (s.surveys surveyId).creator answers 0
      (s.surveys surveyId).questionCount
      (s.responses surveyId sender).encryptedAnswers
      (s.surveys surveyId) s.fhe := rfl

theorem submitState_permissions (s : ContractState) (sender now surveyId : Nat)
    (answers : List Nat) :
    (submitState s sender now surveyId answers).permissions = s.permissions := rfl

theorem submitState_surveyCounter (s : ContractState) (sender now surveyId : Nat)
    (answers : List Nat) :
    (submitState s sender now surveyId answers).surveyCounter = s.surveyCounter := rfl

theorem submitState_nextHandle (s : ContractState) (sender now surveyId : Nat)
    (answers : List Nat) :
    (submitState s sender now surveyId answers).fhe.nextHandle =
    (submitPQ s sender surveyId answers).2.2.nextHandle + 2 := rfl

theorem submitPQ_nextHandle_mono (s : ContractState) (sender surveyId : Nat)
    (answers : List Nat) :
    s.fhe.nextHandle ≤ (submitPQ s sender surveyId answers).2.2.nextHandle :=
  processQuestions_nextHandle_mono _ _ _ _ _ _ _

theorem submitPQ_plain_lt (s : ContractState) (sender surveyId : Nat)
    (answers : List Nat) (h : Nat) (hh : h < s.fhe.nextHandle) :
    (submitPQ s sender surveyId answers).2.2.plain h = s.fhe.plain h :=
  processQuestions_plain_lt _ _ _ _ _ _ _ _ hh

theorem submitState_surveys_ne (s : ContractState) (sender now surveyId : Nat)
    (answers : List Nat) (id : Nat) (hid : id ≠ surveyId) :
    (submitState s sender now surveyId answers).surveys id = s.surveys id := by
  simp only [submitState]
  exact upd_ne _ _ _ _ hid

theorem submitState_surveys_self (s : ContractState) (sender now surveyId : Nat)
    (answers : List Nat) :
    (submitState s sender now surveyId answers).surveys surveyId =
    { (submitPQ s sender surveyId answers).2.1 with
      totalResponses := (submitPQ s sender surveyId answers).2.2.nextHandle + 1 } := by
  simp only [submitState]
  exact upd_self _ _ _

theorem submitState_total (s : ContractState) (sender now surveyId : Nat)
    (answers : List Nat) :
    ((submitState s sender now surveyId answers).surveys surveyId).totalResponses =
    (submitPQ s sender surveyId answers).2.2.nextHandle + 1 := by
  rw [submitState_surveys_self]

theorem submitState_agg (s : ContractState) (sender now surveyId : Nat)
    (answers : List Nat) :
    ((submitState s sender now surveyId answers).surveys surveyId).aggregatedCounts =
    (submitPQ s sender surveyId answers).2.1.aggregatedCounts := by
  rw [submitState_surveys_self]

theorem submitState_meta (s : ContractState) (sender now surveyId : Nat)
    (answers : List Nat) :
    svMetaEq (s.surveys surveyId)
      ((submitState s sender now surveyId answers).surveys surveyId) := by
  rw [submitState_surveys_self]
  have h := (processQuestions_frame (s.surveys surveyId).creator answers 0
    (s.surveys surveyId).questionCount
    (s.responses surveyId sender).encryptedAnswers (s.surveys surveyId) s.fhe).meta
  exact ⟨h.1, h.2.1, h.2.2.1, h.2.2.2.1, h.2.2.2.2.1, h.2.2.2.2.2.1,
    h.2.2.2.2.2.2.1, h.2.2.2.2.2.2.2.1, h.2.2.2.2.2.2.2.2.1, h.2.2.2.2.2.2.2.2.2⟩

theorem submitState_isActive (s : ContractState) (sender now surveyId : Nat)
    (answers : List Nat) :
    ((submitState s sender now surveyId answers).surveys surveyId).isActive =
    (s.surveys surveyId).isActive := by
  rw [submitState_surveys_self]
  exact @svEqExceptAgg_isActive (s.surveys surveyId)
    (submitPQ s sender surveyId answers).2.1
    (processQuestions_frame _ _ _ _ _ _ _)

theorem submitState_responses_self (s : ContractState) (sender now surveyId : Nat)
    (answers : List Nat) :
    (submitState s sender now surveyId answers).responses surveyId sender =
    { encryptedAnswers := (submitPQ s sender surveyId answers).1
      existsF := true, submittedAt := now } := by
  simp only [submitState]
  exact upd2_self _ _ _ _

theorem submitState_responses_ne (s : ContractState) (sender now surveyId : Nat)
    (answers : List Nat) (id a : Nat) (hne : ¬(id = surveyId ∧ a = sender)) :
    (submitState s sender now surveyId answers).responses id a =
    s.responses id a := by
  simp only [submitState]
  exact upd2_ne _ _ _ _ _ _ hne

theorem submitState_plain_lt (s : ContractState) (sender now surveyId : Nat)
    (answers : List Nat) (h : Nat) (hh : h < s.fhe.nextHandle) :
    (submitState s sender now surveyId answers).fhe.plain h = s.fhe.plain h := by
  have hm := submitPQ_nextHandle_mono s sender surveyId answers
  simp only [submitState, asEuint32, fheAdd, allowThis, allow]
  rw [fresh_plain_ne _ _ _ (by rw [fresh_nextHandle]; omega)]
  rw [fresh_plain_ne _ _ _ (by omega)]
  exact processQuestions_plain_lt _ _ _ _ _ _ _ _ hh

theorem submitState_plain_all (s : ContractState) (sender now surveyId : Nat)
    (answers : List Nat) (hb : ∀ h, s.fhe.plain h < M32) :
    ∀ h, (submitState s sender now surveyId answers).fhe.plain h < M32 := by
  simp only [submitState, asEuint32, fheAdd, allowThis, allow]
  exact fresh_plain_all _ _ (fresh_plain_all _ _
    (processQuestions_plain_all _ _ _ _ _ _ _ hb))

theorem submitState_total_plain (s : ContractState) (sender now surveyId : Nat)
    (answers : List Nat)
    (htot : (s.surveys surveyId).totalResponses < s.fhe.nextHandle) :
    (submitState s sender now surveyId answers).fhe.plain
      ((submitState s sender now surveyId answers).surveys surveyId).totalResponses =
    (s.fhe.plain (s.surveys surveyId).totalResponses + 1) % M32 := by
  have hm := submitPQ_nextHandle_mono s sender surveyId answers
  have hfr : (submitPQ s sender surveyId answers).2.1.totalResponses =
      (s.surveys surveyId).totalResponses :=
    svEqExceptAgg_totalResponses (processQuestions_frame _ _ _ _ _ _ _)
  rw [submitState_total]
  simp only [submitState, asEuint32, fheAdd, allowThis, allow]
  rw [show (submitPQ s sender surveyId answers).2.2.nextHandle + 1 =
      (fresh (submitPQ s sender surveyId answers).2.2 1).2.nextHandle from rfl,
    fresh_plain_self]
  rw [fresh_plain_ne _ _ _ (by rw [hfr]; omega)]
  rw [show ((fresh (submitPQ s sender surveyId answers).2.2 1).1) =
      (submitPQ s sender surveyId answers).2.2.nextHandle from rfl, fresh_plain_self]
  rw [hfr]
  rw [submitPQ_plain_lt _ _ _ _ _ htot]
  have h1 : (1 : Nat) % M32 = 1 := by decide
  rw [h1]

theorem submitState_agg_plain (s : ContractState) (sender now surveyId : Nat)
    (answers : List Nat)
    (hAgg : ∀ q2 o2, (s.surveys surveyId).aggregatedCounts q2 o2 < s.fhe.nextHandle)
    (hplain : ∀ h, s.fhe.plain h < M32) (q2 : Nat)
    (hq2 : q2 < (s.surveys surveyId).questionCount) (o2 : Nat) :
    (submitState s sender now surveyId answers).fhe.plain
      (((submitState s sender now surveyId answers).surveys surveyId).aggregatedCounts
        q2 o2) =
    (s.fhe.plain ((s.surveys surveyId).aggregatedCounts q2 o2) +
      bucketDelta ((s.surveys surveyId).questions q2) (answerVal answers q2) o2) % M32 := by
  rw [submitState_agg]
  have hcl : (submitPQ s sender surveyId answers).2.1.aggregatedCounts q2 o2 <
      (submitPQ s sender surveyId answers).2.2.nextHandle := by
    rcases processQuestions_agg_classify (s.surveys surveyId).creator answers 0
        (s.surveys surveyId).questionCount
        (s.responses surveyId sender).encryptedAnswers
        (s.surveys surveyId) s.fhe q2 o2 with h2 | h2
    · rw [show (processQuestions (s.surveys surveyId).creator answers 0
          (s.surveys surveyId).questionCount
          (s.responses surveyId sender).encryptedAnswers
          (s.surveys surveyId) s.fhe) = submitPQ s sender surveyId answers from rfl] at h2
      rw [h2]
      exact lt_of_lt_of_le (hAgg q2 o2) (submitPQ_nextHandle_mono _ _ _ _)
    · exact h2.2
  have hst : (submitState s sender now surveyId answers).fhe.plain
      ((submitPQ s sender surveyId answers).2.1.aggregatedCounts q2 o2) =
      (submitPQ s sender surveyId answers).2.2.plain
        ((submitPQ s sender surveyId answers).2.1.aggregatedCounts q2 o2) := by
    simp only [submitState, asEuint32, fheAdd, allowThis, allow]
    rw [fresh_plain_ne _ _ _ (by rw [fresh_nextHandle]; omega)]
    rw [fresh_plain_ne _ _ _ (by omega)]
  rw [hst]
  exact processQuestions_agg_plain _ _ _ _ _ _ _ hAgg hplain q2 (by omega)
    (by omega) o2

theorem submitPQ_ans_bounds (s : ContractState) (sender surveyId : Nat)
    (answers : List Nat) (i : Nat)
    (hi : i < (s.surveys surveyId).questionCount) :
    s.fhe.nextHandle ≤ (submitPQ s sender surveyId answers).1 i ∧
    (submitPQ s sender surveyId answers).1 i <
      (submitPQ s sender surveyId answers).2.2.nextHandle := by
  have hb := (processQuestions_ans_new (s.surveys surveyId).creator answers 0
    (s.surveys surveyId).questionCount
    (s.responses surveyId sender).encryptedAnswers
    (s.surveys surveyId) s.fhe i (by omega) (by omega)).1
  rw [← submitPQ_def] at hb
  exact hb

theorem submitState_ans_plain (s : ContractState) (sender now surveyId : Nat)
    (answers : List Nat) (i : Nat)
    (hi : i < (s.surveys surveyId).questionCount) :
    (submitState s sender now surveyId answers).fhe.plain
      ((submitPQ s sender surveyId answers).1 i) = answerVal answers i := by
  have hb := submitPQ_ans_bounds s sender surveyId answers i hi
  have hp := (processQuestions_ans_new (s.surveys surveyId).creator answers 0
    (s.surveys surveyId).questionCount
    (s.responses surveyId sender).encryptedAnswers
    (s.surveys surveyId) s.fhe i (by omega) (by omega)).2
  rw [← submitPQ_def] at hp
  have hst : (submitState s sender now surveyId answers).fhe.plain
      ((submitPQ s sender surveyId answers).1 i) =
      (submitPQ s sender surveyId answers).2.2.plain
        ((submitPQ s sender surveyId answers).1 i) := by
    simp only [submitState, asEuint32, fheAdd, allowThis, allow]
    rw [fresh_plain_ne _ _ _ (by rw [fresh_nextHandle]; omega)]
    rw [fresh_plain_ne _ _ _ (by omega)]
  rw [hst]
  exact hp

theorem submitState_acl_eq (s : ContractState) (sender now surveyId : Nat)
    (answers : List Nat) :
    (submitState s sender now surveyId answers).fhe.acl =
    ((submitPQ s sender surveyId answers).2.2.nextHandle + 1,
      Grantee.user (s.surveys surveyId).creator) ::
    ((submitPQ s sender surveyId answers).2.2.nextHandle + 1, Grantee.contract) ::
    (submitPQ s sender surveyId answers).2.2.acl := rfl

theorem submitState_acl (s : ContractState) (sender now surveyId : Nat)
    (answers : List Nat) :
    ∃ d, (submitState s sender now surveyId answers).fhe.acl = d ++ s.fhe.acl ∧
    (∀ p ∈ d, (s.fhe.nextHandle ≤ p.1 ∧
        p.1 < (submitState s sender now surveyId answers).fhe.nextHandle) ∧
      (p.2 = Grantee.contract ∨
       p.2 = Grantee.user (s.surveys surveyId).creator)) ∧
    (∀ p ∈ d, ∀ i, i < (s.surveys surveyId).questionCount →
      p.1 = (submitPQ s sender surveyId answers).1 i → p.2 = Grantee.contract) ∧
    (∀ i, i < (s.surveys surveyId).questionCount →
      ((submitPQ s sender surveyId answers).1 i, Grantee.contract) ∈ d) := by
  obtain ⟨d0, hd0, hb0, hc0, hm0⟩ := processQuestions_acl
    (s.surveys surveyId).creator answers 0 (s.surveys surveyId).questionCount
    (s.responses surveyId sender).encryptedAnswers (s.surveys surveyId) s.fhe
  rw [← submitPQ_def] at hd0 hb0 hc0 hm0
  have hmono := submitPQ_nextHandle_mono s sender surveyId answers
  refine ⟨((submitPQ s sender surveyId answers).2.2.nextHandle + 1,
      Grantee.user (s.surveys surveyId).creator) ::
    ((submitPQ s sender surveyId answers).2.2.nextHandle + 1, Grantee.contract) ::
    d0, ?_, ?_, ?_, ?_⟩
  · rw [submitState_acl_eq, hd0]
    rfl
  · intro p hp
    rw [submitState_nextHandle]
    simp only [List.mem_cons] at hp
    rcases hp with hp | hp | hp
    · subst hp
      exact ⟨⟨by omega, by omega⟩, Or.inr rfl⟩
    · subst hp
      exact ⟨⟨by omega, by omega⟩, Or.inl rfl⟩
    · have := hb0 p hp
      exact ⟨⟨this.1.1, by omega⟩, this.2⟩
  · intro p hp i hi hpi
    have hab := submitPQ_ans_bounds s sender surveyId answers i hi
    simp only [List.mem_cons] at hp
    rcases hp with hp | hp | hp
    · subst hp
      simp only at hpi
      omega
    · subst hp
      rfl
    · exact hc0 p hp i (by omega) (by omega) hpi
  · intro i hi
    exact List.mem_cons_of_mem _ (List.mem_cons_of_mem _ (hm0 i (by omega) (by omega)))

theorem submitState_agg_classify (s : ContractState) (sender now surveyId : Nat)
    (answers : List Nat) (q2 o2 : Nat) :
    ((submitState s sender now surveyId answers).surveys surveyId).aggregatedCounts
      q2 o2 = (s.surveys surveyId).aggregatedCounts q2 o2 ∨
    (s.fhe.nextHandle ≤
      ((submitState s sender now surveyId answers).surveys surveyId).aggregatedCounts
        q2 o2 ∧
     ((submitState s sender now surveyId answers).surveys surveyId).aggregatedCounts
        q2 o2 < (submitState s sender now surveyId answers).fhe.nextHandle) := by
  rw [submitState_agg, submitState_nextHandle]
  have h := processQuestions_agg_classify (s.surveys surveyId).creator answers 0
    (s.surveys surveyId).questionCount
    (s.responses surveyId sender).encryptedAnswers (s.surveys surveyId) s.fhe q2 o2
  rw [← submitPQ_def] at h
  rcases h with h | h
  · exact Or.inl h
  · exact Or.inr ⟨h.1, by omega⟩

theorem submitState_agg_ne_ans (s : ContractState) (sender now surveyId : Nat)
    (answers : List Nat)
    (hAgg : ∀ q2 o2, (s.surveys surveyId).aggregatedCounts q2 o2 < s.fhe.nextHandle)
    (q2 o2 i : Nat) (hi : i < (s.surveys surveyId).questionCount) :
    ((submitState s sender now surveyId answers).surveys surveyId).aggregatedCounts
      q2 o2 ≠ (submitPQ s sender surveyId answers).1 i := by
  rw [submitState_agg]
  have h := processQuestions_agg_ne_ans (s.surveys surveyId).creator answers 0
    (s.surveys surveyId).questionCount
    (s.responses surveyId sender).encryptedAnswers (s.surveys surveyId) s.fhe
    hAgg q2 o2 i (by omega) (by omega)
  rw [← submitPQ_def] at h
  exact h

theorem submitState_total_ne_ans (s : ContractState) (sender now surveyId : Nat)
    (answers : List Nat) (i : Nat)
    (hi : i < (s.surveys surveyId).questionCount) :
    ((submitState s sender now surveyId answers).surveys surveyId).totalResponses ≠
    (submitPQ s sender surveyId answers).1 i := by
  rw [submitState_total]
  have := submitPQ_ans_bounds s sender surveyId answers i hi
  omega

theorem submitState_ans_old (s : ContractState) (sender surveyId : Nat)
    (answers : List Nat) (i : Nat)
    (hi : ¬ i < (s.surveys surveyId).questionCount) :
    (submitPQ s sender surveyId answers).1 i =
    (s.responses surveyId sender).encryptedAnswers i := by
  have h := processQuestions_ans_old (s.surveys surveyId).creator answers 0
    (s.surveys surveyId).questionCount
    (s.responses surveyId sender).encryptedAnswers (s.surveys surveyId) s.fhe i
    (by omega)
  rw [← submitPQ_def] at h
  exact h

theorem submitResponse_wf (s : ContractState) (sender now surveyId : Nat)
    (answers : List Nat) (s' : ContractState) (hWF : WF s)
    (hsub : submitResponse s sender now surveyId answers = some s') : WF s' := by
  obtain ⟨hok, rfl⟩ := submitResponse_some_iff.mp hsub
  have hmono := submitPQ_nextHandle_mono s sender surveyId answers
  have hnext := submitState_nextHandle s sender now surveyId answers
  constructor
  · omega
  · rw [submitState_plain_lt _ _ _ _ _ _ (by have := hWF.one_le; omega)]
    exact hWF.plain_zero
  · exact submitState_plain_all _ _ _ _ _ hWF.plain_lt
  · intro id
    by_cases hid : id = surveyId
    · subst hid
      rw [submitState_total]
      omega
    · rw [submitState_surveys_ne _ _ _ _ _ _ hid]
      have := hWF.total_lt id
      omega
  · intro id q o
    by_cases hid : id = surveyId
    · subst hid
      rcases submitState_agg_classify s sender now id answers q o with h | h
      · rw [h]
        have := hWF.agg_lt id q o
        omega
      · omega
    · rw [submitState_surveys_ne _ _ _ _ _ _ hid]
      have := hWF.agg_lt id q o
      omega
  · intro id a q
    by_cases hk : id = surveyId ∧ a = sender
    · rcases hk with ⟨h1, h2⟩
      subst h1; subst h2
      rw [submitState_responses_self]
      simp only []
      by_cases hq : q < (s.surveys id).questionCount
      · have := submitPQ_ans_bounds s a id answers q hq
        omega
      · rw [submitState_ans_old _ _ _ _ _ hq]
        have := hWF.ans_lt id a q
        omega
    · rw [submitState_responses_ne _ _ _ _ _ _ _ hk]
      have := hWF.ans_lt id a q
      omega
  · intro id hid
    rw [submitState_surveyCounter] at *
    by_cases hi2 : id = surveyId
    · subst hi2
      exact hWF.id_lt id hok.1
    · rw [submitState_surveys_ne _ _ _ _ _ _ hi2] at hid
      exact hWF.id_lt id hid
  · intro id a hid
    by_cases hi2 : id = surveyId
    · subst hi2
      have hm := submitState_meta s sender now id answers
      rw [hm.2.2.2.2.2.2.2.1]
      exact hok.1
    · rw [submitState_responses_ne _ _ _ _ _ _ _ (by
        intro hc
        exact hi2 hc.1)] at hid
      rw [submitState_surveys_ne _ _ _ _ _ _ hi2]
      exact hWF.resp_exists id a hid
  · intro p hp
    obtain ⟨d, hd, hb, hc2, hm2⟩ := submitState_acl s sender now surveyId answers
    rw [hd] at hp
    rcases List.mem_append.mp hp with hp | hp
    · exact (hb p hp).1.2
    · have := hWF.acl_lt p hp
      omega

/-! ### Structure of a successful createSurvey -/

theorem createSurvey_some_iff {s : ContractState} {sender now : Nat}
    {title category : String} {tags : List String} {startTime endTime : Nat}
    {questionTexts : List String} {questionTypes : List QuestionType}
    {questionOptions : List (List String)} {r : Nat × ContractState} :
    createSurvey s sender now title category tags startTime endTime questionTexts
      questionTypes questionOptions = some r ↔
    (createOk title startTime endTime questionTexts questionTypes questionOptions ∧
     r = (s.surveyCounter,
       createState s sender now title category tags startTime endTime
         questionTexts questionTypes questionOptions)) := by
  unfold createSurvey
  split
  · next hc => simp [hc, eq_comm]
  · next hc => simp [hc]

theorem createState_surveys_self (s : ContractState) (sender now : Nat)
    (title category : String) (tags : List String) (startTime endTime : Nat)
    (questionTexts : List String) (questionTypes : List QuestionType)
    (questionOptions : List (List String)) :
    (createState s sender now title category tags startTime endTime questionTexts
      questionTypes questionOptions).surveys s.surveyCounter =
    createSv s sender now title category tags startTime endTime questionTexts
      questionTypes questionOptions := by
  simp only [createState]
  exact upd_self _ _ _

theorem createState_surveys_ne (s : ContractState) (sender now : Nat)
    (title category : String) (tags : List String) (startTime endTime : Nat)
    (questionTexts : List String) (questionTypes : List QuestionType)
    (questionOptions : List (List String)) (id : Nat) (hid : id ≠ s.surveyCounter) :
    (createState s sender now title category tags startTime endTime questionTexts
      questionTypes questionOptions).surveys id = s.surveys id := by
  simp only [createState]
  exact upd_ne _ _ _ _ hid

theorem createState_responses (s : ContractState) (sender now : Nat)
    (title category : String) (tags : List String) (startTime endTime : Nat)
    (questionTexts : List String) (questionTypes : List QuestionType)
    (questionOptions : List (List String)) :
    (createState s sender now title category tags startTime endTime questionTexts
      questionTypes questionOptions).responses = s.responses := rfl

theorem createState_surveyCounter (s : ContractState) (sender now : Nat)
    (title category : String) (tags : List String) (startTime endTime : Nat)
    (questionTexts : List String) (questionTypes : List QuestionType)
    (questionOptions : List (List String)) :
    (createState s sender now title category tags startTime endTime questionTexts
      questionTypes questionOptions).surveyCounter = s.surveyCounter + 1 := rfl

theorem createState_nextHandle (s : ContractState) (sender now : Nat)
    (title category : String) (tags : List String) (startTime endTime : Nat)
    (questionTexts : List String) (questionTypes : List QuestionType)
    (questionOptions : List (List String)) :
    (createState s sender now title category tags startTime endTime questionTexts
      questionTypes questionOptions).fhe.nextHandle = s.fhe.nextHandle + 1 := rfl

theorem createState_acl (s : ContractState) (sender now : Nat)
    (title category : String) (tags : List String) (startTime endTime : Nat)
    (questionTexts : List String) (questionTypes : List QuestionType)
    (questionOptions : List (List String)) :
    (createState s sender now title category tags startTime endTime questionTexts
      questionTypes questionOptions).fhe.acl =
    (s.fhe.nextHandle, Grantee.user sender) ::
      (s.fhe.nextHandle, Grantee.contract) :: s.fhe.acl := rfl

theorem createState_plain_lt (s : ContractState) (sender now : Nat)
    (title category : String) (tags : List String) (startTime endTime : Nat)
    (questionTexts : List String) (questionTypes : List QuestionType)
    (questionOptions : List (List String)) (h : Nat) (hh : h < s.fhe.nextHandle) :
    (createState s sender now title category tags startTime endTime questionTexts
      questionTypes questionOptions).fhe.plain h = s.fhe.plain h := by
  simp only [createState, asEuint32, allowThis, allow]
  exact fresh_plain_ne _ _ _ (by omega)

theorem createState_total_plain (s : ContractState) (sender now : Nat)
    (title category : String) (tags : List String) (startTime endTime : Nat)
    (questionTexts : List String) (questionTypes : List QuestionType)
    (questionOptions : List (List String)) :
    (createState s sender now title category tags startTime endTime questionTexts
      questionTypes questionOptions).fhe.plain
      ((createState s sender now title category tags startTime endTime
        questionTexts questionTypes questionOptions).surveys
          s.surveyCounter).totalResponses = 0 := by
  rw [createState_surveys_self]
  simp only [createSv, createState, asEuint32, allowThis, allow]
  rw [fresh_plain_self]
  decide

theorem createState_plain_all (s : ContractState) (sender now : Nat)
    (title category : String) (tags : List String) (startTime endTime : Nat)
    (questionTexts : List String) (questionTypes : List QuestionType)
    (questionOptions : List (List String)) (hb : ∀ h, s.fhe.plain h < M32) :
    ∀ h, (createState s sender now title category tags startTime endTime
      questionTexts questionTypes questionOptions).fhe.plain h < M32 := by
  simp only [createState, asEuint32, allowThis, allow]
  exact fresh_plain_all _ _ hb

theorem createState_wf (s : ContractState) (sender now : Nat)
    (title category : String) (tags : List String) (startTime endTime : Nat)
    (questionTexts : List String) (questionTypes : List QuestionType)
    (questionOptions : List (List String)) (hWF : WF s) :
    WF (createState s sender now title category tags startTime endTime
      questionTexts questionTypes questionOptions) := by
  have h1 := hWF.one_le
  constructor
  · rw [createState_nextHandle]
    omega
  · rw [createState_plain_lt _ _ _ _ _ _ _ _ _ _ _ _ (by omega)]
    exact hWF.plain_zero
  · exact createState_plain_all _ _ _ _ _ _ _ _ _ _ _ hWF.plain_lt
  · intro id
    rw [createState_nextHandle]
    by_cases hid : id = s.surveyCounter
    · subst hid
      rw [createState_surveys_self]
      simp only [createSv]
      omega
    · rw [createState_surveys_ne _ _ _ _ _ _ _ _ _ _ _ _ hid]
      have := hWF.total_lt id
      omega
  · intro id q o
    rw [createState_nextHandle]
    by_cases hid : id = s.surveyCounter
    · subst hid
      rw [createState_surveys_self]
      simp only [createSv]
      omega
    · rw [createState_surveys_ne _ _ _ _ _ _ _ _ _ _ _ _ hid]
      have := hWF.agg_lt id q o
      omega
  · intro id a q
    rw [createState_responses, createState_nextHandle]
    have := hWF.ans_lt id a q
    omega
  · intro id hid
    rw [createState_surveyCounter]
    by_cases hi2 : id = s.surveyCounter
    · omega
    · rw [createState_surveys_ne _ _ _ _ _ _ _ _ _ _ _ _ hi2] at hid
      have := hWF.id_lt id hid
      omega
  · intro id a hid
    rw [createState_responses] at hid
    have hex := hWF.resp_exists id a hid
    have hlt := hWF.id_lt id hex
    rw [createState_surveys_ne _ _ _ _ _ _ _ _ _ _ _ _ (by omega)]
    exact hex
  · intro p hp
    rw [createState_acl] at hp
    rw [createState_nextHandle]
    rcases List.mem_cons.mp hp with hp | hp
    · subst hp
      simp
    · rcases List.mem_cons.mp hp with hp | hp
      · subst hp
        simp
      · have := hWF.acl_lt p hp
        omega

/-! ### Structure of the permission and status operations -/

theorem grantPermission_some_iff {s : ContractState} {sender surveyId viewer : Nat}
    {cv ce cm : Bool} {s' : ContractState} :
    grantPermission s sender surveyId viewer cv ce cm = some s' ↔
    ((s.surveys surveyId).existsF = true ∧ sender = (s.surveys surveyId).creator ∧
     s' = { s with
       permissions := upd2 s.permissions surveyId viewer
         { canView := cv, canExport := ce, canManage := cm, existsF := true }
       fhe := (allow s.fhe (s.surveys surveyId).totalResponses (Grantee.user viewer)) }) := by
  unfold grantPermission
  dsimp only
  split
  · next hc =>
      rw [Option.some.injEq]
      constructor
      · intro h
        exact ⟨hc.1, hc.2, h.symm⟩
      · intro h
        exact h.2.2.symm
  · next hc =>
      constructor
      · intro h; cases h
      · intro ⟨h1, h2, h3⟩
        exact absurd ⟨h1, h2⟩ hc

theorem revokePermission_some_iff {s : ContractState} {sender surveyId viewer : Nat}
    {s' : ContractState} :
    revokePermission s sender surveyId viewer = some s' ↔
    ((s.surveys surveyId).existsF = true ∧ sender = (s.surveys surveyId).creator ∧
     s' = { s with
       permissions := upd2 s.permissions surveyId viewer
         { canView := false, canExport := false, canManage := false
           existsF := (s.permissions surveyId viewer).existsF } }) := by
  unfold revokePermission
  dsimp only
  split
  · next hc =>
      rw [Option.some.injEq]
      constructor
      · intro h
        exact ⟨hc.1, hc.2, h.symm⟩
      · intro h
        exact h.2.2.symm
  · next hc =>
      constructor
      · intro h; cases h
      · intro ⟨h1, h2, h3⟩
        exact absurd ⟨h1, h2⟩ hc

theorem setSurveyStatus_some_iff {s : ContractState} {sender surveyId : Nat}
    {isActive : Bool} {s' : ContractState} :
    setSurveyStatus s sender surveyId isActive = some s' ↔
    ((s.surveys surveyId).existsF = true ∧
     (sender = (s.surveys surveyId).creator ∨
      ((s.permissions surveyId sender).existsF = true ∧
       (s.permissions surveyId sender).canManage = true)) ∧
     s' = { s with surveys :=
       (upd s.surveys surveyId ({ s.surveys surveyId with isActive := isActive })) }) := by
  unfold setSurveyStatus
  dsimp only
  split
  · next hc =>
      rw [Option.some.injEq]
      constructor
      · intro h
        exact ⟨hc.1, hc.2, h.symm⟩
      · intro h
        exact h.2.2.symm
  · next hc =>
      constructor
      · intro h; cases h
      · intro ⟨h1, h2, h3⟩
        exact absurd ⟨h1, h2⟩ hc

theorem authorizeMyDecryption_some_iff {s : ContractState} {sender surveyId : Nat}
    {s' : ContractState} :
    authorizeMyDecryption s sender surveyId = some s' ↔
    ((s.surveys surveyId).existsF = true ∧
     (sender = (s.surveys surveyId).creator ∨
      ((s.permissions surveyId sender).existsF = true ∧
       (s.permissions surveyId sender).canView = true)) ∧
     s' = { s with
       fhe := (allow s.fhe (s.surveys surveyId).totalResponses (Grantee.user sender)) }) := by
  unfold authorizeMyDecryption
  dsimp only
  split
  · next hc =>
      rw [Option.some.injEq]
      constructor
      · intro h
        exact ⟨hc.1, hc.2, h.symm⟩
      · intro h
        exact h.2.2.symm
  · next hc =>
      constructor
      · intro h; cases h
      · intro ⟨h1, h2, h3⟩
        exact absurd ⟨h1, h2⟩ hc

theorem authorizeAllResultsDecryption_some_iff {s : ContractState}
    {sender surveyId : Nat} {s' : ContractState} :
    authorizeAllResultsDecryption s sender surveyId = some s' ↔
    ((s.surveys surveyId).existsF = true ∧
     (sender = (s.surveys surveyId).creator ∨
      ((s.permissions surveyId sender).existsF = true ∧
       (s.permissions surveyId sender).canView = true)) ∧
     s' = { s with
       fhe := (allowList s.fhe (resultHandles (s.surveys surveyId)) (Grantee.user sender)) }) := by
  unfold authorizeAllResultsDecryption
  dsimp only
  split
  · next hc =>
      rw [Option.some.injEq]
      constructor
      · intro h
        exact ⟨hc.1, hc.2, h.symm⟩
      · intro h
        exact h.2.2.symm
  · next hc =>
      constructor
      · intro h; cases h
      · intro ⟨h1, h2, h3⟩
        exact absurd ⟨h1, h2⟩ hc

theorem allowList_nextHandle (fs : FheState) (hs : List Nat) (g : Grantee) :
    (allowList fs hs g).nextHandle = fs.nextHandle := by
  induction hs generalizing fs with
  | nil => rfl
  | cons h t ih => simp [allowList, ih, allow]

theorem allowList_plain (fs : FheState) (hs : List Nat) (g : Grantee) :
    (allowList fs hs g).plain = fs.plain := by
  induction hs generalizing fs with
  | nil => rfl
  | cons h t ih => simp [allowList, ih, allow]

theorem allowList_acl (fs : FheState) (hs : List Nat) (g : Grantee) :
    ∃ d, (allowList fs hs g).acl = d ++ fs.acl ∧
    (∀ p ∈ d, p.1 ∈ hs ∧ p.2 = g) ∧ (∀ h ∈ hs, (h, g) ∈ d) := by
  induction hs generalizing fs with
  | nil => exact ⟨[], by simp [allowList]⟩
  | cons h t ih =>
    obtain ⟨d, hd, hb, hm⟩ := ih (allow fs h g)
    refine ⟨d ++ [(h, g)], ?_, ?_, ?_⟩
    · rw [allowList, hd, allow_acl]
      simp
    · intro p hp
      rcases List.mem_append.mp hp with hp | hp
      · have := hb p hp
        exact ⟨List.mem_cons_of_mem _ this.1, this.2⟩
      · simp only [List.mem_singleton] at hp
        subst hp
        exact ⟨List.mem_cons_self _ _, rfl⟩
    · intro h2 hh2
      rcases List.mem_cons.mp hh2 with hh2 | hh2
      · subst hh2
        simp
      · exact List.mem_append.mpr (Or.inl (hm h2 hh2))

/-! ### Well-formedness is preserved by every entry point -/

theorem grantPermission_wf {s : ContractState} {sender surveyId viewer : Nat}
    {cv ce cm : Bool} {s' : ContractState} (hWF : WF s)
    (h : grantPermission s sender surveyId viewer cv ce cm = some s') : WF s' := by
  obtain ⟨h1, h2, rfl⟩ := grantPermission_some_iff.mp h
  refine ⟨hWF.one_le, hWF.plain_zero, hWF.plain_lt, hWF.total_lt, hWF.agg_lt,
    hWF.ans_lt, hWF.id_lt, hWF.resp_exists, ?_⟩
  intro p hp
  rcases List.mem_cons.mp hp with hp | hp
  · subst hp
    exact hWF.total_lt surveyId
  · exact hWF.acl_lt p hp

theorem revokePermission_wf {s : ContractState} {sender surveyId viewer : Nat}
    {s' : ContractState} (hWF : WF s)
    (h : revokePermission s sender surveyId viewer = some s') : WF s' := by
  obtain ⟨h1, h2, rfl⟩ := revokePermission_some_iff.mp h
  exact ⟨hWF.one_le, hWF.plain_zero, hWF.plain_lt, hWF.total_lt, hWF.agg_lt,
    hWF.ans_lt, hWF.id_lt, hWF.resp_exists, hWF.acl_lt⟩

theorem authorizeMyDecryption_wf {s : ContractState} {sender surveyId : Nat}
    {s' : ContractState} (hWF : WF s)
    (h : authorizeMyDecryption s sender surveyId = some s') : WF s' := by
  obtain ⟨h1, h2, rfl⟩ := authorizeMyDecryption_some_iff.mp h
  refine ⟨hWF.one_le, hWF.plain_zero, hWF.plain_lt, hWF.total_lt, hWF.agg_lt,
    hWF.ans_lt, hWF.id_lt, hWF.resp_exists, ?_⟩
  intro p hp
  rcases List.mem_cons.mp hp with hp | hp
  · subst hp
    exact hWF.total_lt surveyId
  · exact hWF.acl_lt p hp

theorem resultHandles_lt (s : ContractState) (surveyId : Nat) (hWF : WF s) :
    ∀ h2 ∈ resultHandles (s.surveys surveyId), h2 < s.fhe.nextHandle := by
  intro h2 hh2
  rcases List.mem_cons.mp hh2 with hh2 | hh2
  · subst hh2
    exact hWF.total_lt surveyId
  · rw [List.mem_flatMap] at hh2
    obtain ⟨q, hq, hh3⟩ := hh2
    rw [List.mem_map] at hh3
    obtain ⟨o, ho, rfl⟩ := hh3
    exact hWF.agg_lt surveyId q o

theorem authorizeAllResultsDecryption_wf {s : ContractState}
    {sender surveyId : Nat} {s' : ContractState} (hWF : WF s)
    (h : authorizeAllResultsDecryption s sender surveyId = some s') : WF s' := by
  obtain ⟨h1, h2, rfl⟩ := authorizeAllResultsDecryption_some_iff.mp h
  constructor
  · simp only [allowList_nextHandle]
    exact hWF.one_le
  · simp only [allowList_plain]
    exact hWF.plain_zero
  · simp only [allowList_plain]
    exact hWF.plain_lt
  · simp only [allowList_nextHandle]
    exact hWF.total_lt
  · simp only [allowList_nextHandle]
    exact hWF.agg_lt
  · simp only [allowList_nextHandle]
    exact hWF.ans_lt
  · exact hWF.id_lt
  · exact hWF.resp_exists
  · intro p hp
    simp only [allowList_nextHandle]
    obtain ⟨d, hd, hb, hm⟩ := allowList_acl s.fhe
      (resultHandles (s.surveys surveyId)) (Grantee.user sender)
    have hp2 : p ∈ d ++ s.fhe.acl := by rw [← hd]; exact hp
    rcases List.mem_append.mp hp2 with hp3 | hp3
    · exact resultHandles_lt s surveyId hWF p.1 (hb p hp3).1
    · exact hWF.acl_lt p hp3

theorem setSurveyStatus_wf {s : ContractState} {sender surveyId : Nat}
    {isActive : Bool} {s' : ContractState} (hWF : WF s)
    (h : setSurveyStatus s sender surveyId isActive = some s') : WF s' := by
  obtain ⟨h1, h2, rfl⟩ := setSurveyStatus_some_iff.mp h
  constructor
  · exact hWF.one_le
  · exact hWF.plain_zero
  · exact hWF.plain_lt
  · intro id
    by_cases hid : id = surveyId
    · subst hid
      simp only [upd_self]
      exact hWF.total_lt id
    · simp only [upd_ne _ _ _ _ hid]
      exact hWF.total_lt id
  · intro id q o
    by_cases hid : id = surveyId
    · subst hid
      simp only [upd_self]
      exact hWF.agg_lt id q o
    · simp only [upd_ne _ _ _ _ hid]
      exact hWF.agg_lt id q o
  · exact hWF.ans_lt
  · intro id hid
    by_cases hi2 : id = surveyId
    · subst hi2
      exact hWF.id_lt id h1
    · simp only [upd_ne _ _ _ _ hi2] at hid
      exact hWF.id_lt id hid
  · intro id a hid
    have hex := hWF.resp_exists id a hid
    by_cases hi2 : id = surveyId
    · subst hi2
      simp only [upd_self]
      exact hex
    · simp only [upd_ne _ _ _ _ hi2]
      exact hex
  · exact hWF.acl_lt

theorem execOp_wf (s : ContractState) (op : Op) (hWF : WF s) :
    WF (execOp s op) := by
  cases op with
  | create sender now t c tg st et qt qty qo =>
    simp only [execOp]
    cases hc : createSurvey s sender now t c tg st et qt qty qo with
    | none => exact hWF
    | some p =>
      obtain ⟨hok, rfl⟩ := createSurvey_some_iff.mp hc
      exact createState_wf _ _ _ _ _ _ _ _ _ _ _ hWF
  | submit sender now id ans =>
    simp only [execOp]
    cases hc : submitResponse s sender now id ans with
    | none => exact hWF
    | some t =>
      simp only [Option.getD_some]
      exact submitResponse_wf _ _ _ _ _ _ hWF hc
  | grant sender id v a b c =>
    simp only [execOp]
    cases hc : grantPermission s sender id v a b c with
    | none => exact hWF
    | some t =>
      simp only [Option.getD_some]
      exact grantPermission_wf hWF hc
  | revoke sender id v =>
    simp only [execOp]
    cases hc : revokePermission s sender id v with
    | none => exact hWF
    | some t =>
      simp only [Option.getD_some]
      exact revokePermission_wf hWF hc
  | setStatus sender id b =>
    simp only [execOp]
    cases hc : setSurveyStatus s sender id b with
    | none => exact hWF
    | some t =>
      simp only [Option.getD_some]
      exact setSurveyStatus_wf hWF hc
  | authMy sender id =>
    simp only [execOp]
    cases hc : authorizeMyDecryption s sender id with
    | none => exact hWF
    | some t =>
      simp only [Option.getD_some]
      exact authorizeMyDecryption_wf hWF hc
  | authAll sender id =>
    simp only [execOp]
    cases hc : authorizeAllResultsDecryption s sender id with
    | none => exact hWF
    | some t =>
      simp only [Option.getD_some]
      exact authorizeAllResultsDecryption_wf hWF hc

theorem execTrace_wf (s : ContractState) (ops : List Op) (hWF : WF s) :
    WF (execTrace s ops) := by
  induction ops generalizing s with
  | nil => exact hWF
  | cons op rest ih =>
    simp only [execTrace]
    exact ih _ (execOp_wf s op hWF)

theorem wf_initState : WF initState := by
  constructor
  · exact le_refl 1
  · rfl
  · intro h
    exact (by decide : (0 : Nat) < M32)
  · intro id
    exact (by decide : (0 : Nat) < 1)
  · intro id q o
    exact (by decide : (0 : Nat) < 1)
  · intro id a q
    exact (by decide : (0 : Nat) < 1)
  · intro id hid
    cases hid
  · intro id a hid
    cases hid
  · intro p hp
    cases hp

/-! ### Frame properties of a single entry-point execution -/

theorem execOp_meta (s : ContractState) (op : Op) (id : Nat) (hWF : WF s)
    (hex : (s.surveys id).existsF = true) :
    svMetaEq (s.surveys id) ((execOp s op).surveys id) := by
  cases op with
  | create sender now t c tg st et qt qty qo =>
    simp only [execOp]
    cases hc : createSurvey s sender now t c tg st et qt qty qo with
    | none => exact svMetaEq_refl _
    | some p =>
      obtain ⟨hok, rfl⟩ := createSurvey_some_iff.mp hc
      have hlt := hWF.id_lt id hex
      rw [createState_surveys_ne _ _ _ _ _ _ _ _ _ _ _ id (by omega)]
      exact svMetaEq_refl _
  | submit sender now sid ans =>
    cases hc : submitResponse s sender now sid ans with
    | none => simp only [execOp, hc, Option.getD_none]; exact svMetaEq_refl _
    | some t =>
      simp only [execOp, hc, Option.getD_some]
      obtain ⟨hok, rfl⟩ := submitResponse_some_iff.mp hc
      by_cases hid : id = sid
      · subst hid
        exact submitState_meta s sender now id ans
      · rw [submitState_surveys_ne _ _ _ _ _ _ hid]
        exact svMetaEq_refl _
  | grant sender sid v a b c =>
    cases hc : grantPermission s sender sid v a b c with
    | none => simp only [execOp, hc, Option.getD_none]; exact svMetaEq_refl _
    | some t =>
      simp only [execOp, hc, Option.getD_some]
      obtain ⟨h1, h2, rfl⟩ := grantPermission_some_iff.mp hc
      exact svMetaEq_refl _
  | revoke sender sid v =>
    cases hc : revokePermission s sender sid v with
    | none => simp only [execOp, hc, Option.getD_none]; exact svMetaEq_refl _
    | some t =>
      simp only [execOp, hc, Option.getD_some]
      obtain ⟨h1, h2, rfl⟩ := revokePermission_some_iff.mp hc
      exact svMetaEq_refl _
  | setStatus sender sid b =>
    cases hc : setSurveyStatus s sender sid b with
    | none => simp only [execOp, hc, Option.getD_none]; exact svMetaEq_refl _
    | some t =>
      simp only [execOp, hc, Option.getD_some]
      obtain ⟨h1, h2, rfl⟩ := setSurveyStatus_some_iff.mp hc
      by_cases hid : id = sid
      · subst hid
        simp only [upd_self]
        exact ⟨rfl, rfl, rfl, rfl, rfl, rfl, rfl, rfl, rfl, rfl⟩
      · simp only [upd_ne _ _ _ _ hid]
        exact svMetaEq_refl _
  | authMy sender sid =>
    cases hc : authorizeMyDecryption s sender sid with
    | none => simp only [execOp, hc, Option.getD_none]; exact svMetaEq_refl _
    | some t =>
      simp only [execOp, hc, Option.getD_some]
      obtain ⟨h1, h2, rfl⟩ := authorizeMyDecryption_some_iff.mp hc
      exact svMetaEq_refl _
  | authAll sender sid =>
    cases hc : authorizeAllResultsDecryption s sender sid with
    | none => simp only [execOp, hc, Option.getD_none]; exact svMetaEq_refl _
    | some t =>
      simp only [execOp, hc, Option.getD_some]
      obtain ⟨h1, h2, rfl⟩ := authorizeAllResultsDecryption_some_iff.mp hc
      exact svMetaEq_refl _

theorem execOp_isActive (s : ContractState) (op : Op) (id : Nat) (hWF : WF s)
    (hex : (s.surveys id).existsF = true) :
    ((execOp s op).surveys id).isActive = (s.surveys id).isActive ∨
    ∃ sender b, op = Op.setStatus sender id b ∧
      (sender = (s.surveys id).creator ∨
       ((s.permissions id sender).existsF = true ∧
        (s.permissions id sender).canManage = true)) := by
  cases op with
  | create sender now t c tg st et qt qty qo =>
    left
    simp only [execOp]
    cases hc : createSurvey s sender now t c tg st et qt qty qo with
    | none => rfl
    | some p =>
      obtain ⟨hok, rfl⟩ := createSurvey_some_iff.mp hc
      have hlt := hWF.id_lt id hex
      rw [createState_surveys_ne _ _ _ _ _ _ _ _ _ _ _ id (by omega)]
  | submit sender now sid ans =>
    left
    cases hc : submitResponse s sender now sid ans with
    | none => simp only [execOp, hc, Option.getD_none]
    | some t =>
      simp only [execOp, hc, Option.getD_some]
      obtain ⟨hok, rfl⟩ := submitResponse_some_iff.mp hc
      by_cases hid : id = sid
      · subst hid
        exact submitState_isActive s sender now id ans
      · rw [submitState_surveys_ne _ _ _ _ _ _ hid]
  | grant sender sid v a b c =>
    left
    cases hc : grantPermission s sender sid v a b c with
    | none => simp only [execOp, hc, Option.getD_none]
    | some t =>
      simp only [execOp, hc, Option.getD_some]
      obtain ⟨h1, h2, rfl⟩ := grantPermission_some_iff.mp hc
      rfl
  | revoke sender sid v =>
    left
    cases hc : revokePermission s sender sid v with
    | none => simp only [execOp, hc, Option.getD_none]
    | some t =>
      simp only [execOp, hc, Option.getD_some]
      obtain ⟨h1, h2, rfl⟩ := revokePermission_some_iff.mp hc
      rfl
  | setStatus sender sid b =>
    cases hc : setSurveyStatus s sender sid b with
    | none => left; simp only [execOp, hc, Option.getD_none]
    | some t =>
      obtain ⟨h1, h2, rfl⟩ := setSurveyStatus_some_iff.mp hc
      by_cases hid : id = sid
      · subst hid
        exact Or.inr ⟨sender, b, rfl, h2⟩
      · left
        simp only [execOp, hc, Option.getD_some]
        simp only [upd_ne _ _ _ _ hid]
  | authMy sender sid =>
    left
    cases hc : authorizeMyDecryption s sender sid with
    | none => simp only [execOp, hc, Option.getD_none]
    | some t =>
      simp only [execOp, hc, Option.getD_some]
      obtain ⟨h1, h2, rfl⟩ := authorizeMyDecryption_some_iff.mp hc
      rfl
  | authAll sender sid =>
    left
    cases hc : authorizeAllResultsDecryption s sender sid with
    | none => simp only [execOp, hc, Option.getD_none]
    | some t =>
      simp only [execOp, hc, Option.getD_some]
      obtain ⟨h1, h2, rfl⟩ := authorizeAllResultsDecryption_some_iff.mp hc
      rfl

theorem execOp_responses_frame (s : ContractState) (op : Op) (id a : Nat)
    (hex : (s.responses id a).existsF = true) :
    (execOp s op).responses id a = s.responses id a := by
  cases op with
  | create sender now t c tg st et qt qty qo =>
    simp only [execOp]
    cases hc : createSurvey s sender now t c tg st et qt qty qo with
    | none => rfl
    | some p =>
      obtain ⟨hok, rfl⟩ := createSurvey_some_iff.mp hc
      rw [createState_responses]
  | submit sender now sid ans =>
    cases hc : submitResponse s sender now sid ans with
    | none => simp only [execOp, hc, Option.getD_none]
    | some t =>
      simp only [execOp, hc, Option.getD_some]
      obtain ⟨hok, rfl⟩ := submitResponse_some_iff.mp hc
      refine submitState_responses_ne _ _ _ _ _ _ _ ?_
      intro hk
      rw [hk.1, hk.2] at hex
      rw [hok.2.2.2.2.2] at hex
      cases hex
  | grant sender sid v a2 b c =>
    cases hc : grantPermission s sender sid v a2 b c with
    | none => simp only [execOp, hc, Option.getD_none]
    | some t =>
      simp only [execOp, hc, Option.getD_some]
      obtain ⟨h1, h2, rfl⟩ := grantPermission_some_iff.mp hc
      rfl
  | revoke sender sid v =>
    cases hc : revokePermission s sender sid v with
    | none => simp only [execOp, hc, Option.getD_none]
    | some t =>
      simp only [execOp, hc, Option.getD_some]
      obtain ⟨h1, h2, rfl⟩ := revokePermission_some_iff.mp hc
      rfl
  | setStatus sender sid b =>
    cases hc : setSurveyStatus s sender sid b with
    | none => simp only [execOp, hc, Option.getD_none]
    | some t =>
      simp only [execOp, hc, Option.getD_some]
      obtain ⟨h1, h2, rfl⟩ := setSurveyStatus_some_iff.mp hc
      rfl
  | authMy sender sid =>
    cases hc : authorizeMyDecryption s sender sid with
    | none => simp only [execOp, hc, Option.getD_none]
    | some t =>
      simp only [execOp, hc, Option.getD_some]
      obtain ⟨h1, h2, rfl⟩ := authorizeMyDecryption_some_iff.mp hc
      rfl
  | authAll sender sid =>
    cases hc : authorizeAllResultsDecryption s sender sid with
    | none => simp only [execOp, hc, Option.getD_none]
    | some t =>
      simp only [execOp, hc, Option.getD_some]
      obtain ⟨h1, h2, rfl⟩ := authorizeAllResultsDecryption_some_iff.mp hc
      rfl

theorem execOp_total_plain (s : ContractState) (op : Op) (id : Nat) (hWF : WF s)
    (hex : (s.surveys id).existsF = true) :
    (execOp s op).fhe.plain ((execOp s op).surveys id).totalResponses =
    (s.fhe.plain (s.surveys id).totalResponses + submitDelta s op id) % M32 := by
  have hmod : s.fhe.plain (s.surveys id).totalResponses % M32 =
      s.fhe.plain (s.surveys id).totalResponses := Nat.mod_eq_of_lt (hWF.plain_lt _)
  cases op with
  | create sender now t c tg st et qt qty qo =>
    simp only [execOp, submitDelta]
    rw [Nat.add_zero, hmod]
    cases hc : createSurvey s sender now t c tg st et qt qty qo with
    | none => rfl
    | some p =>
      obtain ⟨hok, rfl⟩ := createSurvey_some_iff.mp hc
      have hlt := hWF.id_lt id hex
      rw [createState_surveys_ne _ _ _ _ _ _ _ _ _ _ _ id (by omega)]
      exact createState_plain_lt _ _ _ _ _ _ _ _ _ _ _ _ (hWF.total_lt id)
  | submit sender now sid ans =>
    by_cases hacc : (submitResponse s sender now sid ans).isSome = true
    · obtain ⟨t, hc⟩ := Option.isSome_iff_exists.mp hacc
      simp only [execOp, hc, Option.getD_some]
      obtain ⟨hok, rfl⟩ := submitResponse_some_iff.mp hc
      by_cases hid : sid = id
      · subst hid
        rw [show submitDelta s (Op.submit sender now sid ans) sid = 1 from by
          simp [submitDelta, hacc]]
        exact submitState_total_plain s sender now sid ans (hWF.total_lt sid)
      · rw [show submitDelta s (Op.submit sender now sid ans) id = 0 from by
          simp [submitDelta, hid]]
        rw [Nat.add_zero, hmod]
        rw [submitState_surveys_ne _ _ _ _ _ _ (fun he => hid he.symm)]
        exact submitState_plain_lt _ _ _ _ _ _ (hWF.total_lt id)
    · have hc : submitResponse s sender now sid ans = none := by
        cases hcc : submitResponse s sender now sid ans with
        | none => rfl
        | some t => rw [hcc] at hacc; simp at hacc
      simp only [execOp, hc, Option.getD_none]
      rw [show submitDelta s (Op.submit sender now sid ans) id = 0 from by
        simp [submitDelta, hc]]
      rw [Nat.add_zero, hmod]
  | grant sender sid v a b c =>
    simp only [submitDelta]
    rw [Nat.add_zero, hmod]
    cases hc : grantPermission s sender sid v a b c with
    | none => simp only [execOp, hc, Option.getD_none]
    | some t =>
      simp only [execOp, hc, Option.getD_some]
      obtain ⟨h1, h2, rfl⟩ := grantPermission_some_iff.mp hc
      rfl
  | revoke sender sid v =>
    simp only [submitDelta]
    rw [Nat.add_zero, hmod]
    cases hc : revokePermission s sender sid v with
    | none => simp only [execOp, hc, Option.getD_none]
    | some t =>
      simp only [execOp, hc, Option.getD_some]
      obtain ⟨h1, h2, rfl⟩ := revokePermission_some_iff.mp hc
      rfl
  | setStatus sender sid b =>
    simp only [submitDelta]
    rw [Nat.add_zero, hmod]
    cases hc : setSurveyStatus s sender sid b with
    | none => simp only [execOp, hc, Option.getD_none]
    | some t =>
      simp only [execOp, hc, Option.getD_some]
      obtain ⟨h1, h2, rfl⟩ := setSurveyStatus_some_iff.mp hc
      by_cases hid : id = sid
      · subst hid
        simp only [upd_self]
      · simp only [upd_ne _ _ _ _ hid]
  | authMy sender sid =>
    simp only [submitDelta]
    rw [Nat.add_zero, hmod]
    cases hc : authorizeMyDecryption s sender sid with
    | none => simp only [execOp, hc, Option.getD_none]
    | some t =>
      simp only [execOp, hc, Option.getD_some]
      obtain ⟨h1, h2, rfl⟩ := authorizeMyDecryption_some_iff.mp hc
      rfl
  | authAll sender sid =>
    simp only [submitDelta]
    rw [Nat.add_zero, hmod]
    cases hc : authorizeAllResultsDecryption s sender sid with
    | none => simp only [execOp, hc, Option.getD_none]
    | some t =>
      simp only [execOp, hc, Option.getD_some]
      obtain ⟨h1, h2, rfl⟩ := authorizeAllResultsDecryption_some_iff.mp hc
      simp only [allowList_plain]

theorem execOp_agg_plain (s : ContractState) (op : Op) (id q o : Nat) (hWF : WF s)
    (hex : (s.surveys id).existsF = true)
    (hq : q < (s.surveys id).questionCount) :
    (execOp s op).fhe.plain
      (((execOp s op).surveys id).aggregatedCounts q o) =
    (s.fhe.plain ((s.surveys id).aggregatedCounts q o) + aggDelta s op id q o) % M32 := by
  have hmod : s.fhe.plain ((s.surveys id).aggregatedCounts q o) % M32 =
      s.fhe.plain ((s.surveys id).aggregatedCounts q o) :=
    Nat.mod_eq_of_lt (hWF.plain_lt _)
  cases op with
  | create sender now t c tg st et qt qty qo =>
    simp only [execOp, aggDelta]
    rw [Nat.add_zero, hmod]
    cases hc : createSurvey s sender now t c tg st et qt qty qo with
    | none => rfl
    | some p =>
      obtain ⟨hok, rfl⟩ := createSurvey_some_iff.mp hc
      have hlt := hWF.id_lt id hex
      rw [createState_surveys_ne _ _ _ _ _ _ _ _ _ _ _ id (by omega)]
      exact createState_plain_lt _ _ _ _ _ _ _ _ _ _ _ _ (hWF.agg_lt id q o)
  | submit sender now sid ans =>
    by_cases hacc : (submitResponse s sender now sid ans).isSome = true
    · obtain ⟨t, hc⟩ := Option.isSome_iff_exists.mp hacc
      simp only [execOp, hc, Option.getD_some]
      obtain ⟨hok, rfl⟩ := submitResponse_some_iff.mp hc
      by_cases hid : sid = id
      · subst hid
        rw [show aggDelta s (Op.submit sender now sid ans) sid q o =
            bucketDelta ((s.surveys sid).questions q) (answerVal ans q) o from by
          simp [aggDelta, hacc]]
        exact submitState_agg_plain s sender now sid ans
          (fun q2 o2 => hWF.agg_lt sid q2 o2) hWF.plain_lt q hq o
      · rw [show aggDelta s (Op.submit sender now sid ans) id q o = 0 from by
          simp [aggDelta, hid]]
        rw [Nat.add_zero, hmod]
        rw [submitState_surveys_ne _ _ _ _ _ _ (fun he => hid he.symm)]
        exact submitState_plain_lt _ _ _ _ _ _ (hWF.agg_lt id q o)
    · have hc : submitResponse s sender now sid ans = none := by
        cases hcc : submitResponse s sender now sid ans with
        | none => rfl
        | some t => rw [hcc] at hacc; simp at hacc
      simp only [execOp, hc, Option.getD_none]
      rw [show aggDelta s (Op.submit sender now sid ans) id q o = 0 from by
        simp [aggDelta, hc]]
      rw [Nat.add_zero, hmod]

  | grant sender sid v a b c =>
    simp only [aggDelta]
    rw [Nat.add_zero, hmod]
    cases hc : grantPermission s sender sid v a b c with
    | none => simp only [execOp, hc, Option.getD_none]
    | some t =>
      simp only [execOp, hc, Option.getD_some]
      obtain ⟨h1, h2, rfl⟩ := grantPermission_some_iff.mp hc
      rfl
  | revoke sender sid v =>
    simp only [aggDelta]
    rw [Nat.add_zero, hmod]
    cases hc : revokePermission s sender sid v with
    | none => simp only [execOp, hc, Option.getD_none]
    | some t =>
      simp only [execOp, hc, Option.getD_some]
      obtain ⟨h1, h2, rfl⟩ := revokePermission_some_iff.mp hc
      rfl
  | setStatus sender sid b =>
    simp only [aggDelta]
    rw [Nat.add_zero, hmod]
    cases hc : setSurveyStatus s sender sid b with
    | none => simp only [execOp, hc, Option.getD_none]
    | some t =>
      simp only [execOp, hc, Option.getD_some]
      obtain ⟨h1, h2, rfl⟩ := setSurveyStatus_some_iff.mp hc
      by_cases hid : id = sid
      · subst hid
        simp only [upd_self]
      · simp only [upd_ne _ _ _ _ hid]
  | authMy sender sid =>
    simp only [aggDelta]
    rw [Nat.add_zero, hmod]
    cases hc : authorizeMyDecryption s sender sid with
    | none => simp only [execOp, hc, Option.getD_none]
    | some t =>
      simp only [execOp, hc, Option.getD_some]
      obtain ⟨h1, h2, rfl⟩ := authorizeMyDecryption_some_iff.mp hc
      rfl
  | authAll sender sid =>
    simp only [aggDelta]
    rw [Nat.add_zero, hmod]
    cases hc : authorizeAllResultsDecryption s sender sid with
    | none => simp only [execOp, hc, Option.getD_none]
    | some t =>
      simp only [execOp, hc, Option.getD_some]
      obtain ⟨h1, h2, rfl⟩ := authorizeAllResultsDecryption_some_iff.mp hc
      simp only [allowList_plain]

/-! ### Trace-level invariants -/

theorem execTrace_meta (s : ContractState) (ops : List Op) (id : Nat)
    (hWF : WF s) (hex : (s.surveys id).existsF = true) :
    svMetaEq (s.surveys id) ((execTrace s ops).surveys id) := by
  induction ops generalizing s with
  | nil => exact svMetaEq_refl _
  | cons op rest ih =>
    simp only [execTrace]
    have h1 := execOp_meta s op id hWF hex
    refine svMetaEq_trans h1 (ih _ (execOp_wf s op hWF) ?_)
    rw [svMetaEq_existsF h1]
    exact hex

theorem execTrace_responses_frame (s : ContractState) (ops : List Op) (id a : Nat)
    (hex : (s.responses id a).existsF = true) :
    (execTrace s ops).responses id a = s.responses id a := by
  induction ops generalizing s with
  | nil => rfl
  | cons op rest ih =>
    simp only [execTrace]
    have h1 := execOp_responses_frame s op id a hex
    rw [ih _ (by rw [h1]; exact hex), h1]

theorem submitAnswersAt_sum (s : ContractState) (op : Op) (id q o : Nat) :
    ((submitAnswersAt s op id q).map
      (fun a => bucketDelta ((s.surveys id).questions q) a o)).sum =
    aggDelta s op id q o := by
  cases op with
  | submit sender now sid answers =>
    simp only [submitAnswersAt, aggDelta]
    split
    · simp
    · simp
  | create a b c d e f g h i j => simp [submitAnswersAt, aggDelta]
  | grant a b c d e f => simp [submitAnswersAt, aggDelta]
  | revoke a b c => simp [submitAnswersAt, aggDelta]
  | setStatus a b c => simp [submitAnswersAt, aggDelta]
  | authMy a b => simp [submitAnswersAt, aggDelta]
  | authAll a b => simp [submitAnswersAt, aggDelta]

theorem execTrace_total_plain (s : ContractState) (ops : List Op) (id : Nat)
    (hWF : WF s) (hex : (s.surveys id).existsF = true) :
    (execTrace s ops).fhe.plain ((execTrace s ops).surveys id).totalResponses =
    (s.fhe.plain (s.surveys id).totalResponses + countAccepted s ops id) % M32 := by
  induction ops generalizing s with
  | nil =>
    simp only [execTrace, countAccepted]
    rw [Nat.add_zero]
    exact (Nat.mod_eq_of_lt (hWF.plain_lt _)).symm
  | cons op rest ih =>
    simp only [execTrace, countAccepted]
    have hWF1 := execOp_wf s op hWF
    have hex1 : ((execOp s op).surveys id).existsF = true := by
      rw [svMetaEq_existsF (execOp_meta s op id hWF hex)]
      exact hex
    rw [ih (execOp s op) hWF1 hex1]
    rw [execOp_total_plain s op id hWF hex]
    rw [Nat.mod_add_mod, Nat.add_assoc]

theorem execTrace_agg_plain (s : ContractState) (ops : List Op) (id q o : Nat)
    (hWF : WF s) (hex : (s.surveys id).existsF = true)
    (hq : q < (s.surveys id).questionCount) :
    (execTrace s ops).fhe.plain
      (((execTrace s ops).surveys id).aggregatedCounts q o) =
    (s.fhe.plain ((s.surveys id).aggregatedCounts q o) +
      ((answersAt s ops id q).map
        (fun a => bucketDelta ((s.surveys id).questions q) a o)).sum) % M32 := by
  induction ops generalizing s with
  | nil =>
    simp only [execTrace, answersAt]
    simp only [List.map_nil, List.sum_nil]
    rw [Nat.add_zero]
    exact (Nat.mod_eq_of_lt (hWF.plain_lt _)).symm
  | cons op rest ih =>
    simp only [execTrace, answersAt]
    have hWF1 := execOp_wf s op hWF
    have hmeta := execOp_meta s op id hWF hex
    have hex1 : ((execOp s op).surveys id).existsF = true := by
      rw [svMetaEq_existsF hmeta]
      exact hex
    have hq1 : q < ((execOp s op).surveys id).questionCount := by
      rw [svMetaEq_questionCount hmeta]
      exact hq
    rw [ih (execOp s op) hWF1 hex1 hq1]
    rw [svMetaEq_questions hmeta]
    rw [execOp_agg_plain s op id q o hWF hex hq]
    rw [List.map_append, List.sum_append, submitAnswersAt_sum]
    rw [Nat.mod_add_mod, Nat.add_assoc]

/-! ### The respondent-answer confidentiality invariant -/

/-- Every stored answer handle of an existing response is a real handle
whose only ACL grantee is the contract itself, and it is distinct from
every survey's current totalResponses handle and from every current
aggregated-count handle (the handles the contract does grant to users). -/
def AnswerInv (s : ContractState) : Prop :=
  ∀ id a q, (s.responses id a).existsF = true →
    q < (s.surveys id).questionCount →
    (1 ≤ (s.responses id a).encryptedAnswers q ∧
     ((s.responses id a).encryptedAnswers q, Grantee.contract) ∈ s.fhe.acl ∧
     (∀ g, ((s.responses id a).encryptedAnswers q, g) ∈ s.fhe.acl →
        g = Grantee.contract) ∧
     (∀ id2, (s.responses id a).encryptedAnswers q ≠
        (s.surveys id2).totalResponses) ∧
     (∀ id2 q2 o2, (s.responses id a).encryptedAnswers q ≠
        (s.surveys id2).aggregatedCounts q2 o2))

theorem answerInv_initState : AnswerInv initState := by
  intro id a q hex
  cases hex

theorem grantPermission_answerInv {s : ContractState}
    {sender surveyId viewer : Nat} {cv ce cm : Bool} {s' : ContractState}
    (hInv : AnswerInv s)
    (h : grantPermission s sender surveyId viewer cv ce cm = some s') :
    AnswerInv s' := by
  obtain ⟨h1, h2, rfl⟩ := grantPermission_some_iff.mp h
  intro id a q hex hq
  obtain ⟨g1, g2, g3, g4, g5⟩ := hInv id a q hex hq
  refine ⟨g1, List.mem_cons_of_mem _ g2, ?_, g4, g5⟩
  intro g hg
  rcases List.mem_cons.mp hg with hg | hg
  · exact absurd (congrArg Prod.fst hg) (g4 surveyId)
  · exact g3 g hg

theorem revokePermission_answerInv {s : ContractState}
    {sender surveyId viewer : Nat} {s' : ContractState}
    (hInv : AnswerInv s)
    (h : revokePermission s sender surveyId viewer = some s') :
    AnswerInv s' := by
  obtain ⟨h1, h2, rfl⟩ := revokePermission_some_iff.mp h
  intro id a q hex hq
  exact hInv id a q hex hq

theorem authorizeMyDecryption_answerInv {s : ContractState}
    {sender surveyId : Nat} {s' : ContractState}
    (hInv : AnswerInv s)
    (h : authorizeMyDecryption s sender surveyId = some s') :
    AnswerInv s' := by
  obtain ⟨h1, h2, rfl⟩ := authorizeMyDecryption_some_iff.mp h
  intro id a q hex hq
  obtain ⟨g1, g2, g3, g4, g5⟩ := hInv id a q hex hq
  refine ⟨g1, List.mem_cons_of_mem _ g2, ?_, g4, g5⟩
  intro g hg
  rcases List.mem_cons.mp hg with hg | hg
  · exact absurd (congrArg Prod.fst hg) (g4 surveyId)
  · exact g3 g hg

theorem authorizeAllResultsDecryption_answerInv {s : ContractState}
    {sender surveyId : Nat} {s' : ContractState}
    (hInv : AnswerInv s)
    (h : authorizeAllResultsDecryption s sender surveyId = some s') :
    AnswerInv s' := by
  obtain ⟨h1, h2, rfl⟩ := authorizeAllResultsDecryption_some_iff.mp h
  intro id a q hex hq
  obtain ⟨g1, g2, g3, g4, g5⟩ := hInv id a q hex hq
  obtain ⟨d, hd, hb, hm⟩ := allowList_acl s.fhe
    (resultHandles (s.surveys surveyId)) (Grantee.user sender)
  have hnotin : (s.responses id a).encryptedAnswers q ∉
      resultHandles (s.surveys surveyId) := by
    intro hmem
    rcases List.mem_cons.mp hmem with hmem | hmem
    · exact g4 surveyId hmem
    · rw [List.mem_flatMap] at hmem
      obtain ⟨q2, hq2, hmem2⟩ := hmem
      rw [List.mem_map] at hmem2
      obtain ⟨o2, ho2, hmem3⟩ := hmem2
      exact g5 surveyId q2 o2 hmem3.symm
  refine ⟨g1, ?_, ?_, g4, g5⟩
  · show _ ∈ (allowList s.fhe (resultHandles (s.surveys surveyId))
      (Grantee.user sender)).acl
    rw [hd]
    exact List.mem_append.mpr (Or.inr g2)
  · intro g hg
    have hg2 : ((s.responses id a).encryptedAnswers q, g) ∈ d ++ s.fhe.acl := by
      rw [← hd]
      exact hg
    rcases List.mem_append.mp hg2 with hg3 | hg3
    · exact absurd (hb _ hg3).1 hnotin
    · exact g3 g hg3

theorem setSurveyStatus_answerInv {s : ContractState} {sender surveyId : Nat}
    {isActive : Bool} {s' : ContractState}
    (hInv : AnswerInv s)
    (h : setSurveyStatus s sender surveyId isActive = some s') :
    AnswerInv s' := by
  obtain ⟨h1, h2, rfl⟩ := setSurveyStatus_some_iff.mp h
  intro id a q hex hq
  have hq2 : q < (s.surveys id).questionCount := by
    by_cases hid : id = surveyId
    · subst hid
      simp only [upd_self] at hq
      exact hq
    · simp only [upd_ne _ _ _ _ hid] at hq
      exact hq
  obtain ⟨g1, g2, g3, g4, g5⟩ := hInv id a q hex hq2
  refine ⟨g1, g2, g3, ?_, ?_⟩
  · intro id2
    by_cases hid2 : id2 = surveyId
    · subst hid2
      simp only [upd_self]
      exact g4 id2
    · simp only [upd_ne _ _ _ _ hid2]
      exact g4 id2
  · intro id2 q2 o2
    by_cases hid2 : id2 = surveyId
    · subst hid2
      simp only [upd_self]
      exact g5 id2 q2 o2
    · simp only [upd_ne _ _ _ _ hid2]
      exact g5 id2 q2 o2

theorem createSurvey_answerInv {s : ContractState} {sender now : Nat}
    {title category : String} {tags : List String} {startTime endTime : Nat}
    {questionTexts : List String} {questionTypes : List QuestionType}
    {questionOptions : List (List String)} {r : Nat × ContractState}
    (hWF : WF s) (hInv : AnswerInv s)
    (h : createSurvey s sender now title category tags startTime endTime
      questionTexts questionTypes questionOptions = some r) :
    AnswerInv r.2 := by
  obtain ⟨hok, rfl⟩ := createSurvey_some_iff.mp h
  intro id a q hex hq
  rw [createState_responses] at hex
  have hexs := hWF.resp_exists id a hex
  have hidlt := hWF.id_lt id hexs
  rw [createState_surveys_ne _ _ _ _ _ _ _ _ _ _ _ _ (by omega)] at hq
  obtain ⟨g1, g2, g3, g4, g5⟩ := hInv id a q hex hq
  have hanslt := hWF.ans_lt id a q
  rw [createState_responses]
  refine ⟨g1, ?_, ?_, ?_, ?_⟩
  · rw [createState_acl]
    exact List.mem_cons_of_mem _ (List.mem_cons_of_mem _ g2)
  · intro g hg
    rw [createState_acl] at hg
    rcases List.mem_cons.mp hg with hg | hg
    · have := congrArg Prod.fst hg
      simp only at this
      omega
    · rcases List.mem_cons.mp hg with hg | hg
      · have := congrArg Prod.fst hg
        simp only at this
        omega
      · exact g3 g hg
  · intro id2
    by_cases hid2 : id2 = s.surveyCounter
    · subst hid2
      rw [createState_surveys_self]
      show _ ≠ s.fhe.nextHandle
      omega
    · rw [createState_surveys_ne _ _ _ _ _ _ _ _ _ _ _ _ hid2]
      exact g4 id2
  · intro id2 q2 o2
    by_cases hid2 : id2 = s.surveyCounter
    · subst hid2
      rw [createState_surveys_self]
      show _ ≠ 0
      omega
    · rw [createState_surveys_ne _ _ _ _ _ _ _ _ _ _ _ _ hid2]
      exact g5 id2 q2 o2

theorem submitState_responses_ans (s : ContractState) (sender now surveyId : Nat)
    (answers : List Nat) :
    ((submitState s sender now surveyId answers).responses surveyId
      sender).encryptedAnswers = (submitPQ s sender surveyId answers).1 := by
  rw [submitState_responses_self]

theorem submitResponse_answerInv {s : ContractState}
    {sender now surveyId : Nat} {answers : List Nat} {s' : ContractState}
    (hWF : WF s) (hInv : AnswerInv s)
    (h : submitResponse s sender now surveyId answers = some s') :
    AnswerInv s' := by
  obtain ⟨hok, rfl⟩ := submitResponse_some_iff.mp h
  have hmono := submitPQ_nextHandle_mono s sender surveyId answers
  have hone := hWF.one_le
  obtain ⟨d, hd, hbnd, hcontr, hmem⟩ := submitState_acl s sender now surveyId answers
  intro id a q hex hq
  by_cases hk : id = surveyId ∧ a = sender
  · rcases hk with ⟨hk1, hk2⟩
    subst hk1
    subst hk2
    rw [submitState_responses_ans]
    have hq2 : q < (s.surveys id).questionCount := by
      rw [svMetaEq_questionCount (submitState_meta s a now id answers)] at hq
      exact hq
    have hb := submitPQ_ans_bounds s a id answers q hq2
    refine ⟨by omega, ?_, ?_, ?_, ?_⟩
    · rw [hd]
      exact List.mem_append.mpr (Or.inl (hmem q hq2))
    · intro g hg
      have hg2 : ((submitPQ s a id answers).1 q, g) ∈ d ++ s.fhe.acl := by
        rw [← hd]
        exact hg
      rcases List.mem_append.mp hg2 with hg3 | hg3
      · exact hcontr _ hg3 q hq2 rfl
      · exact absurd (hWF.acl_lt _ hg3) (Nat.not_lt.mpr hb.1)
    · intro id2
      by_cases hid2 : id2 = id
      · subst hid2
        exact (submitState_total_ne_ans s a now id2 answers q hq2).symm
      · rw [submitState_surveys_ne _ _ _ _ _ _ hid2]
        have := hWF.total_lt id2
        omega
    · intro id2 q2 o2
      by_cases hid2 : id2 = id
      · subst hid2
        exact (submitState_agg_ne_ans s a now id2 answers
          (fun q3 o3 => hWF.agg_lt id2 q3 o3) q2 o2 q hq2).symm
      · rw [submitState_surveys_ne _ _ _ _ _ _ hid2]
        have := hWF.agg_lt id2 q2 o2
        omega
  · have hrne := submitState_responses_ne s sender now surveyId answers id a hk
    rw [hrne] at hex ⊢
    have hq2 : q < (s.surveys id).questionCount := by
      by_cases hid : id = surveyId
      · subst hid
        rw [svMetaEq_questionCount (submitState_meta s sender now id answers)] at hq
        exact hq
      · rw [submitState_surveys_ne _ _ _ _ _ _ hid] at hq
        exact hq
    obtain ⟨g1, g2, g3, g4, g5⟩ := hInv id a q hex hq2
    have hlt := hWF.ans_lt id a q
    refine ⟨g1, ?_, ?_, ?_, ?_⟩
    · rw [hd]
      exact List.mem_append.mpr (Or.inr g2)
    · intro g hg
      have hg2 : ((s.responses id a).encryptedAnswers q, g) ∈ d ++ s.fhe.acl := by
        rw [← hd]
        exact hg
      rcases List.mem_append.mp hg2 with hg3 | hg3
      · exact absurd (hbnd _ hg3).1.1 (Nat.not_le.mpr hlt)
      · exact g3 g hg3
    · intro id2
      by_cases hid2 : id2 = surveyId
      · subst hid2
        rw [submitState_total]
        omega
      · rw [submitState_surveys_ne _ _ _ _ _ _ hid2]
        exact g4 id2
    · intro id2 q2 o2
      by_cases hid2 : id2 = surveyId
      · subst hid2
        rcases submitState_agg_classify s sender now id2 answers q2 o2 with hcl | hcl
        · rw [hcl]
          exact g5 id2 q2 o2
        · omega
      · rw [submitState_surveys_ne _ _ _ _ _ _ hid2]
        exact g5 id2 q2 o2

theorem execOp_answerInv (s : ContractState) (op : Op) (hWF : WF s)
    (hInv : AnswerInv s) : AnswerInv (execOp s op) := by
  cases op with
  | create sender now t c tg st et qt qty qo =>
    simp only [execOp]
    cases hc : createSurvey s sender now t c tg st et qt qty qo with
    | none => exact hInv
    | some p => exact createSurvey_answerInv hWF hInv hc
  | submit sender now sid ans =>
    cases hc : submitResponse s sender now sid ans with
    | none => simp only [execOp, hc, Option.getD_none]; exact hInv
    | some t =>
      simp only [execOp, hc, Option.getD_some]
      exact submitResponse_answerInv hWF hInv hc
  | grant sender sid v a b c =>
    cases hc : grantPermission s sender sid v a b c with
    | none => simp only [execOp, hc, Option.getD_none]; exact hInv
    | some t =>
      simp only [execOp, hc, Option.getD_some]
      exact grantPermission_answerInv hInv hc
  | revoke sender sid v =>
    cases hc : revokePermission s sender sid v with
    | none => simp only [execOp, hc, Option.getD_none]; exact hInv
    | some t =>
      simp only [execOp, hc, Option.getD_some]
      exact revokePermission_answerInv hInv hc
  | setStatus sender sid b =>
    cases hc : setSurveyStatus s sender sid b with
    | none => simp only [execOp, hc, Option.getD_none]; exact hInv
    | some t =>
      simp only [execOp, hc, Option.getD_some]
      exact setSurveyStatus_answerInv hInv hc
  | authMy sender sid =>
    cases hc : authorizeMyDecryption s sender sid with
    | none => simp only [execOp, hc, Option.getD_none]; exact hInv
    | some t =>
      simp only [execOp, hc, Option.getD_some]
      exact authorizeMyDecryption_answerInv hInv hc
  | authAll sender sid =>
    cases hc : authorizeAllResultsDecryption s sender sid with
    | none => simp only [execOp, hc, Option.getD_none]; exact hInv
    | some t =>
      simp only [execOp, hc, Option.getD_some]
      exact authorizeAllResultsDecryption_answerInv hInv hc

theorem execTrace_answerInv (s : ContractState) (ops : List Op) (hWF : WF s)
    (hInv : AnswerInv s) : AnswerInv (execTrace s ops) := by
  induction ops generalizing s with
  | nil => exact hInv
  | cons op rest ih =>
    simp only [execTrace]
    exact ih _ (execOp_wf s op hWF) (execOp_answerInv s op hWF hInv)

/-! ### Arithmetic bridges for the per-type bucket increments -/

theorem land_shift_pos_iff (m o : Nat) (hm : m < M32) (ho : o < M32) :
    (0 < Nat.land m ((1 <<< (o % M32)) % M32)) ↔ m.testBit o = true := by
  have hM : M32 = 2 ^ 32 := by norm_num [M32]
  rw [Nat.mod_eq_of_lt ho, Nat.shiftLeft_eq, one_mul]
  by_cases h32 : o < 32
  · have hlt : (2 : Nat) ^ o < M32 := by
      rw [hM]
      exact Nat.pow_lt_pow_right (by omega) h32
    rw [Nat.mod_eq_of_lt hlt]
    show 0 < m &&& 2 ^ o ↔ m.testBit o = true
    constructor
    · intro hpos
      by_contra htb
      rw [Bool.not_eq_true] at htb
      have hz : m &&& 2 ^ o = 0 := by
        apply Nat.eq_of_testBit_eq
        intro i
        rw [Nat.testBit_land, Nat.zero_testBit]
        by_cases hio : i = o
        · subst hio
          rw [htb]
          rfl
        · rw [Nat.testBit_two_pow_of_ne (fun he => hio he.symm)]
          exact Bool.and_false _
      omega
    · intro htb
      rcases Nat.eq_zero_or_pos (m &&& 2 ^ o) with hz | hp
      · have h2 : (m &&& 2 ^ o).testBit o = false := by
          rw [hz]
          exact Nat.zero_testBit o
        rw [Nat.testBit_land, Nat.testBit_two_pow_self, htb] at h2
        cases h2
      · exact hp
  · have hz : (2 : Nat) ^ o % M32 = 0 := by
      rw [hM]
      exact Nat.mod_eq_zero_of_dvd (Nat.pow_dvd_pow 2 (by omega))
    rw [hz]
    show 0 < m &&& 0 ↔ m.testBit o = true
    rw [Nat.and_zero]
    constructor
    · intro hpos
      omega
    · intro htb
      have h2 : m.testBit o = false :=
        Nat.testBit_lt_two_pow (lt_of_lt_of_le hm
          (by rw [hM]; exact Nat.pow_le_pow_right (by omega) (by omega)))
      rw [htb] at h2
      cases h2

theorem bucketDelta_sc (question : Question)
    (hty : question.qType = QuestionType.SingleChoice) (a o : Nat)
    (ho : o < question.optionCount) (hN : question.optionCount ≤ M32) :
    bucketDelta question a o = if a = o then 1 else 0 := by
  simp only [bucketDelta, hty]
  rw [Nat.mod_eq_of_lt (by omega : o < M32)]
  by_cases h : a = o
  · rw [if_pos ⟨ho, h⟩, if_pos h]
  · rw [if_neg (fun hc => h hc.2), if_neg h]

theorem bucketDelta_mc (question : Question)
    (hty : question.qType = QuestionType.MultipleChoice) (a o : Nat)
    (ha : a < M32) (ho : o < question.optionCount)
    (hN : question.optionCount ≤ M32) :
    bucketDelta question a o = if a.testBit o then 1 else 0 := by
  simp only [bucketDelta, hty]
  have hiff := land_shift_pos_iff a o ha (by omega)
  by_cases htb : a.testBit o
  · rw [if_pos ⟨ho, hiff.mpr htb⟩, if_pos htb]
  · rw [if_neg (fun hc => htb (hiff.mp hc.2)), if_neg htb]

theorem bucketDelta_rating (question : Question)
    (hty : question.qType = QuestionType.Rating) (a o : Nat) (ho : o < 5) :
    bucketDelta question a o = if a = o + 1 then 1 else 0 := by
  simp only [bucketDelta, hty]
  rw [Nat.mod_eq_of_lt (by simp only [M32]; omega : o + 1 < M32)]
  by_cases h : a = o + 1
  · rw [if_pos ⟨ho, h⟩, if_pos h]
  · rw [if_neg (fun hc => h hc.2), if_neg h]

theorem bucketDelta_rating_ne (question : Question)
    (hty : question.qType = QuestionType.Rating) (a o : Nat)
    (h : a ≠ o + 1 ∨ ¬ o < 5) :
    bucketDelta question a o = 0 := by
  simp only [bucketDelta, hty]
  rcases h with h | h
  · exact if_neg (fun hc => h (by
      rw [hc.2]
      exact Nat.mod_eq_of_lt (by simp only [M32]; omega)))
  · exact if_neg (fun hc => h hc.1)

theorem sum_indicator_count (l : List Nat) (o : Nat) :
    (l.map (fun a => if a = o then 1 else 0)).sum = l.count o := by
  induction l with
  | nil => simp
  | cons a t ih =>
    simp only [List.map_cons, List.sum_cons, List.count_cons, ih]
    by_cases h : a = o <;> simp [h, Nat.add_comm]

theorem count_sum_length (l : List Nat) (N : Nat) (h : ∀ a ∈ l, a < N) :
    (Finset.range N).sum (fun o => l.count o) = l.length := by
  induction l with
  | nil => simp
  | cons a t ih =>
    have ha : a < N := h a (List.mem_cons_self a t)
    have ht : ∀ b ∈ t, b < N := fun b hb => h b (List.mem_cons_of_mem a hb)
    simp only [List.count_cons, List.length_cons]
    rw [Finset.sum_add_distrib, ih ht]
    have hind : (Finset.range N).sum
        (fun o => if (a == o) = true then (1 : Nat) else 0) = 1 := by
      rw [show (fun o => if (a == o) = true then (1 : Nat) else 0) =
          (fun o => if a = o then (1 : Nat) else 0) from
        funext fun o => by simp [beq_iff_eq]]
      rw [Finset.sum_ite_eq]
      rw [if_pos (Finset.mem_range.mpr ha)]
    rw [hind]

/-! ### Success forms of the encrypted-result views -/

theorem getTotalResponses_some {s : ContractState} {id : Nat}
    (hex : (s.surveys id).existsF = true) :
    getTotalResponses s id = some (s.surveys id).totalResponses := by
  unfold getTotalResponses
  rw [if_pos hex]

theorem getQuestionOptionCounts_some {s : ContractState} {id q : Nat}
    (hex : (s.surveys id).existsF = true)
    (hq : q < (s.surveys id).questionCount) :
    getQuestionOptionCounts s id q =
    some ((List.range (bucketLen ((s.surveys id).questions q))).map
      ((s.surveys id).aggregatedCounts q)) := by
  unfold getQuestionOptionCounts
  dsimp only
  rw [if_pos ⟨hex, hq⟩]

/-! ### Concrete example states used by the witnesses -/

/-- A survey created by account 7 at time 50 with window [100, 200] and
one two-option SingleChoice question. -/
def exS1 : ContractState :=
  ((createSurvey initState 7 50 "T" "C" ["x"] 100 200 ["Q1"]
    [QuestionType.SingleChoice] [["A", "B"]]).getD (0, initState)).2

theorem exS1_create : createSurvey initState 7 50 "T" "C" ["x"] 100 200 ["Q1"]
    [QuestionType.SingleChoice] [["A", "B"]] = some (0, exS1) := rfl

theorem wf_exS1 : WF exS1 :=
  createState_wf initState 7 50 "T" "C" ["x"] 100 200 ["Q1"]
    [QuestionType.SingleChoice] [["A", "B"]] wf_initState

/-- exS1 after account 9 submits the answer 1 (option B) at time 150. -/
def exS2 : ContractState := (submitResponse exS1 9 150 0 [1]).getD exS1

theorem exS2_submit : submitResponse exS1 9 150 0 [1] = some exS2 := by
  rw [show exS2 = submitState exS1 9 150 0 [1] from rfl]
  rw [submitResponse_some_iff]
  exact ⟨by decide, rfl⟩

/-- A survey created by account 7 with a two-option MultipleChoice
question followed by a two-option SingleChoice question. -/
def exM1 : ContractState :=
  ((createSurvey initState 7 50 "T" "C" [] 100 200 ["M", "S"]
    [QuestionType.MultipleChoice, QuestionType.SingleChoice]
    [["A", "B"], ["A", "B"]]).getD (0, initState)).2

theorem exM1_create : createSurvey initState 7 50 "T" "C" [] 100 200 ["M", "S"]
    [QuestionType.MultipleChoice, QuestionType.SingleChoice]
    [["A", "B"], ["A", "B"]] = some (0, exM1) := rfl

theorem wf_exM1 : WF exM1 :=
  createState_wf initState 7 50 "T" "C" [] 100 200 ["M", "S"]
    [QuestionType.MultipleChoice, QuestionType.SingleChoice]
    [["A", "B"], ["A", "B"]] wf_initState

/-- exM1 after account 9 submits bitmask 1 (selecting only option 0) for
the MultipleChoice question and answer 0 for the SingleChoice question. -/
def exM2 : ContractState := (submitResponse exM1 9 150 0 [1, 0]).getD exM1

theorem exM2_submit : submitResponse exM1 9 150 0 [1, 0] = some exM2 := by
  rw [show exM2 = submitState exM1 9 150 0 [1, 0] from rfl]
  rw [submitResponse_some_iff]
  exact ⟨by decide, rfl⟩

/-- A survey created by account 7 with one Rating question. -/
def exR1 : ContractState :=
  ((createSurvey initState 7 50 "T" "C" [] 100 200 ["R"]
    [QuestionType.Rating] [["1", "2", "3", "4", "5"]]).getD (0, initState)).2

theorem exR1_create : createSurvey initState 7 50 "T" "C" [] 100 200 ["R"]
    [QuestionType.Rating] [["1", "2", "3", "4", "5"]] = some (0, exR1) := rfl

theorem wf_exR1 : WF exR1 :=
  createState_wf initState 7 50 "T" "C" [] 100 200 ["R"]
    [QuestionType.Rating] [["1", "2", "3", "4", "5"]] wf_initState

/-- exR1 after account 9 submits the rating 4 at time 150. -/
def exR2 : ContractState := (submitResponse exR1 9 150 0 [4]).getD exR1

theorem exR2_submit : submitResponse exR1 9 150 0 [4] = some exR2 := by
  rw [show exR2 = submitState exR1 9 150 0 [4] from rfl]
  rw [submitResponse_some_iff]
  exact ⟨by decide, rfl⟩

/-- exS1 after its creator grants account 9 view-only permission. -/
def exG : ContractState := (grantPermission exS1 7 0 9 true false false).getD exS1

theorem exG_grant : grantPermission exS1 7 0 9 true false false = some exG := by
  rw [grantPermission_some_iff]
  exact ⟨by decide, by decide, rfl⟩

/-- exG after the creator revokes account 9's permission again. -/
def exRv : ContractState := (revokePermission exG 7 0 9).getD exG

theorem exRv_revoke : revokePermission exG 7 0 9 = some exRv := by
  rw [revokePermission_some_iff]
  exact ⟨by decide, by decide, rfl⟩

/-- exS1 after its creator authorizes decryption of all results. -/
def exAuth : ContractState :=
  (authorizeAllResultsDecryption exS1 7 0).getD exS1

theorem exAuth_eq : authorizeAllResultsDecryption exS1 7 0 = some exAuth := by
  rw [authorizeAllResultsDecryption_some_iff]
  exact ⟨by decide, by decide, rfl⟩

/-- A two-call trace: create the SingleChoice example survey, then have
account 9 submit answer 1 to it. -/
def exTrace1 : List Op :=
  [Op.create 7 50 "T" "C" ["x"] 100 200 ["Q1"]
    [QuestionType.SingleChoice] [["A", "B"]],
   Op.submit 9 150 0 [1]]

/-- An accepted submitResponse contributes exactly one recorded answer. -/
theorem submitAnswersAt_length (s : ContractState) (op : Op) (id q : Nat) :
    (submitAnswersAt s op id q).length = submitDelta s op id := by
  cases op with
  | submit sender now sid answers =>
    simp only [submitAnswersAt, submitDelta]
    by_cases h : sid = id ∧ (submitResponse s sender now sid answers).isSome = true
    · rw [if_pos h, if_pos h]
      rfl
    · rw [if_neg h, if_neg h]
      rfl
  | create a b c d e f g h i j => rfl
  | grant a b c d e f => rfl
  | revoke a b c => rfl
  | setStatus a b c => rfl
  | authMy a b => rfl
  | authAll a b => rfl

/-- A trace records one answer for question q per accepted submission. -/
theorem answersAt_length (s : ContractState) (ops : List Op) (id q : Nat) :
    (answersAt s ops id q).length = countAccepted s ops id := by
  induction ops generalizing s with
  | nil => rfl
  | cons op rest ih =>
    simp only [answersAt, countAccepted, List.length_append]
    rw [submitAnswersAt_length, ih]

/-! ### The claims -/

/-- Claim C2: the encrypted totalResponses counter of a survey decrypts
to zero immediately after createSurvey; each accepted submitResponse
adds exactly 1 to its plaintext in 32-bit arithmetic; an operation that
is not an accepted submitResponse to the survey leaves its plaintext
unchanged; and along any trace after creation the plaintext equals the
number of accepted responses to that survey. -/
theorem C2_total_counter :
    (∀ (s0 : ContractState) (sender now : Nat) (title category : String)
       (tags : List String) (st et : Nat) (qts : List String)
       (qtys : List QuestionType) (qos : List (List String))
       (id : Nat) (s1 : ContractState),
       createSurvey s0 sender now title category tags st et qts qtys qos =
         some (id, s1) →
       s1.fhe.plain (s1.surveys id).totalResponses = 0) ∧
    (∀ (s : ContractState) (sender now surveyId : Nat) (answers : List Nat)
       (s' : ContractState), WF s →
       submitResponse s sender now surveyId answers = some s' →
       s'.fhe.plain (s'.surveys surveyId).totalResponses =
         (s.fhe.plain (s.surveys surveyId).totalResponses + 1) % M32) ∧
    (∀ (s : ContractState) (op : Op) (id : Nat), WF s →
       (s.surveys id).existsF = true → submitDelta s op id = 0 →
       (execOp s op).fhe.plain ((execOp s op).surveys id).totalResponses =
       s.fhe.plain (s.surveys id).totalResponses) ∧
    (∀ (s0 : ContractState) (sender now : Nat) (title category : String)
       (tags : List String) (st et : Nat) (qts : List String)
       (qtys : List QuestionType) (qos : List (List String))
       (id : Nat) (s1 : ContractState) (ops : List Op), WF s0 →
       createSurvey s0 sender now title category tags st et qts qtys qos =
         some (id, s1) →
       countAccepted s1 ops id < M32 →
       (execTrace s1 ops).fhe.plain
         ((execTrace s1 ops).surveys id).totalResponses =
       countAccepted s1 ops id) := by
  refine ⟨?_, ?_, ?_, ?_⟩
  · intro s0 sender now title category tags st et qts qtys qos id s1 hcr
    obtain ⟨hok, heq⟩ := createSurvey_some_iff.mp hcr
    rw [Prod.mk.injEq] at heq
    obtain ⟨hid, hs1⟩ := heq
    subst hid
    subst hs1
    exact createState_total_plain s0 sender now title category tags st et
      qts qtys qos
  · intro s sender now surveyId answers s' hWF hsub
    obtain ⟨hok, rfl⟩ := submitResponse_some_iff.mp hsub
    exact submitState_total_plain s sender now surveyId answers
      (hWF.total_lt surveyId)
  · intro s op id hWF hex hdelta
    have h := execOp_total_plain s op id hWF hex
    rw [hdelta, Nat.add_zero, Nat.mod_eq_of_lt (hWF.plain_lt _)] at h
    exact h
  · intro s0 sender now title category tags st et qts qtys qos id s1 ops
      hWF0 hcr hK
    obtain ⟨hok, heq⟩ := createSurvey_some_iff.mp hcr
    rw [Prod.mk.injEq] at heq
    obtain ⟨hid, hs1⟩ := heq
    subst hid
    subst hs1
    have hWF1 := createState_wf s0 sender now title category tags st et
      qts qtys qos hWF0
    have hex1 : ((createState s0 sender now title category tags st et qts
        qtys qos).surveys s0.surveyCounter).existsF = true := by
      rw [createState_surveys_self]
      rfl
    rw [execTrace_total_plain _ ops s0.surveyCounter hWF1 hex1]
    rw [createState_total_plain s0 sender now title category tags st et
      qts qtys qos]
    rw [Nat.zero_add]
    exact Nat.mod_eq_of_lt hK

theorem C2_total_counter_witness :
    exS1.fhe.plain (exS1.surveys 0).totalResponses = 0 ∧
    exS2.fhe.plain (exS2.surveys 0).totalResponses =
      (exS1.fhe.plain (exS1.surveys 0).totalResponses + 1) % M32 ∧
    (execOp exS1 (Op.authMy 7 0)).fhe.plain
      ((execOp exS1 (Op.authMy 7 0)).surveys 0).totalResponses =
      exS1.fhe.plain (exS1.surveys 0).totalResponses ∧
    (execTrace exS1 [Op.submit 9 150 0 [1]]).fhe.plain
      ((execTrace exS1 [Op.submit 9 150 0 [1]]).surveys 0).totalResponses =
      countAccepted exS1 [Op.submit 9 150 0 [1]] 0 :=
  ⟨C2_total_counter.1 initState 7 50 "T" "C" ["x"] 100 200 ["Q1"]
      [QuestionType.SingleChoice] [["A", "B"]] 0 exS1 exS1_create,
   C2_total_counter.2.1 exS1 9 150 0 [1] exS2 wf_exS1 exS2_submit,
   C2_total_counter.2.2.1 exS1 (Op.authMy 7 0) 0 wf_exS1 (by decide)
     (by decide),
   C2_total_counter.2.2.2 initState 7 50 "T" "C" ["x"] 100 200 ["Q1"]
      [QuestionType.SingleChoice] [["A", "B"]] 0 exS1 [Op.submit 9 150 0 [1]]
      wf_initState exS1_create (by decide)⟩

/-- Claim C3: once a submitResponse from an address to a survey has
succeeded, the stored Response record persists unchanged through any
later trace of operations, and every later submitResponse from the same
address to the same survey fails and leaves the state unchanged,
whatever its timestamp and answers. -/
theorem C3_one_shot_resubmission (s : ContractState)
    (sender now surveyId : Nat) (answers : List Nat) (s1 : ContractState)
    (hsub : submitResponse s sender now surveyId answers = some s1)
    (ops : List Op) :
    (execTrace s1 ops).responses surveyId sender =
      s1.responses surveyId sender ∧
    ((execTrace s1 ops).responses surveyId sender).existsF = true ∧
    (∀ (now2 : Nat) (answers2 : List Nat),
      submitResponse (execTrace s1 ops) sender now2 surveyId answers2 =
        none ∧
      execOp (execTrace s1 ops) (Op.submit sender now2 surveyId answers2) =
        execTrace s1 ops) := by
  obtain ⟨hok, rfl⟩ := submitResponse_some_iff.mp hsub
  have hex1 : ((submitState s sender now surveyId answers).responses
      surveyId sender).existsF = true := by
    rw [submitState_responses_self]
  have hfr := execTrace_responses_frame _ ops surveyId sender hex1
  refine ⟨hfr, by rw [hfr]; exact hex1, ?_⟩
  intro now2 answers2
  have hnone : submitResponse
      (execTrace (submitState s sender now surveyId answers) ops) sender
      now2 surveyId answers2 = none :=
    submitResponse_exists_none (by rw [hfr]; exact hex1)
  exact ⟨hnone, by simp [execOp, hnone]⟩

theorem C3_one_shot_resubmission_witness :
    (execTrace exS2 []).responses 0 9 = exS2.responses 0 9 ∧
    ((execTrace exS2 []).responses 0 9).existsF = true ∧
    (∀ (now2 : Nat) (answers2 : List Nat),
      submitResponse (execTrace exS2 []) 9 now2 0 answers2 = none ∧
      execOp (execTrace exS2 []) (Op.submit 9 now2 0 answers2) =
        execTrace exS2 []) :=
  C3_one_shot_resubmission exS1 9 150 0 [1] exS2 exS2_submit []

/-- Claim C6 counterexample: survey 5 does not exist in the freshly
deployed state, yet getSurveyInfo succeeds on it, returning the default
record with the exists flag false; so getSurveyInfo does not fail on a
missing survey. -/
theorem C6_getSurveyInfo_never_fails :
    (initState.surveys 5).existsF = false ∧
    getSurveyInfo initState 5 =
      some (0, "", "", 0, 0, 0, 0, false, false) :=
  ⟨rfl, rfl⟩

/-- Claim C6 (amended): getQuestionInfo and getSurveyTags fail on a
surveyId with no survey, getQuestionInfo also fails when questionIndex
is out of range, but getSurveyInfo never fails: it returns the stored
record unconditionally, reporting the exists flag as part of its
result. -/
theorem C6_read_accessor_guards (s : ContractState) (surveyId : Nat) :
    ((s.surveys surveyId).existsF = false →
      getSurveyTags s surveyId = none ∧
      ∀ questionIndex, getQuestionInfo s surveyId questionIndex = none) ∧
    (∀ questionIndex,
      ¬ questionIndex < (s.surveys surveyId).questionCount →
      getQuestionInfo s surveyId questionIndex = none) ∧
    getSurveyInfo s surveyId =
      some ((s.surveys surveyId).creator, (s.surveys surveyId).title,
        (s.surveys surveyId).category, (s.surveys surveyId).createdAt,
        (s.surveys surveyId).startTime, (s.surveys surveyId).endTime,
        (s.surveys surveyId).questionCount, (s.surveys surveyId).existsF,
        (s.surveys surveyId).isActive) := by
  refine ⟨fun hex => ⟨?_, fun qi => ?_⟩, fun qi hqi => ?_, rfl⟩
  · simp [getSurveyTags, hex]
  · simp [getQuestionInfo, hex]
  · simp [getQuestionInfo, hqi]

theorem C6_read_accessor_guards_witness :
    getSurveyTags initState 3 = none ∧
    getQuestionInfo initState 3 0 = none ∧
    getQuestionInfo exS1 0 7 = none ∧
    getSurveyInfo initState 3 = some (0, "", "", 0, 0, 0, 0, false, false) :=
  ⟨((C6_read_accessor_guards initState 3).1 (by decide)).1,
   ((C6_read_accessor_guards initState 3).1 (by decide)).2 0,
   (C6_read_accessor_guards exS1 0).2.1 7 (by decide),
   (C6_read_accessor_guards initState 3).2.2⟩

/-- Claim C8: for an existing survey and an address other than its
creator, after the creator's grantPermission(id, addr, true, false,
false) and then revokePermission(id, addr) both succeed, getPermission
returns (false, false, false) for addr, the Permission record's
existence flag is still true, and a subsequent authorizeMyDecryption
call from addr fails. -/
theorem C8_grant_then_revoke (s : ContractState) (surveyId addr : Nat)
    (s1 s2 : ContractState)
    (hne : addr ≠ (s.surveys surveyId).creator)
    (hg : grantPermission s (s.surveys surveyId).creator surveyId addr
      true false false = some s1)
    (hr : revokePermission s1 (s.surveys surveyId).creator surveyId addr =
      some s2) :
    getPermission s2 surveyId addr = (false, false, false) ∧
    (s2.permissions surveyId addr).existsF = true ∧
    authorizeMyDecryption s2 addr surveyId = none := by
  obtain ⟨hex, hcr, rfl⟩ := grantPermission_some_iff.mp hg
  obtain ⟨hex2, hcr2, rfl⟩ := revokePermission_some_iff.mp hr
  refine ⟨?_, ?_, ?_⟩
  · simp [getPermission, upd2_self]
  · simp [upd2_self]
  · unfold authorizeMyDecryption
    dsimp only
    rw [if_neg]
    intro hc
    rcases hc.2 with hcon | hcv
    · exact hne hcon
    · rw [upd2_self] at hcv
      exact Bool.false_ne_true hcv.2

theorem C8_grant_then_revoke_witness :
    getPermission exRv 0 9 = (false, false, false) ∧
    (exRv.permissions 0 9).existsF = true ∧
    authorizeMyDecryption exRv 9 0 = none :=
  C8_grant_then_revoke exS1 0 9 exG exRv (by decide) exG_grant exRv_revoke

/-- Claim C9: for an existing survey, every entry point preserves the
survey's creator, title, category, tags, creation timestamp, start and
end times, question count and every question record (text, type,
optionCount, options), both per operation and along any trace; the
isActive flag changes only through a setSurveyStatus call for that
survey whose sender is the creator or holds a canManage permission. -/
theorem C9_metadata_immutable :
    (∀ (s : ContractState) (op : Op) (id : Nat), WF s →
      (s.surveys id).existsF = true →
      svMetaEq (s.surveys id) ((execOp s op).surveys id) ∧
      (((execOp s op).surveys id).isActive = (s.surveys id).isActive ∨
       ∃ sender b, op = Op.setStatus sender id b ∧
         (sender = (s.surveys id).creator ∨
          ((s.permissions id sender).existsF = true ∧
           (s.permissions id sender).canManage = true)))) ∧
    (∀ (s : ContractState) (ops : List Op) (id : Nat), WF s →
      (s.surveys id).existsF = true →
      svMetaEq (s.surveys id) ((execTrace s ops).surveys id)) :=
  ⟨fun s op id hWF hex =>
    ⟨execOp_meta s op id hWF hex, execOp_isActive s op id hWF hex⟩,
   fun s ops id hWF hex => execTrace_meta s ops id hWF hex⟩

theorem C9_metadata_immutable_witness :
    (svMetaEq (exS1.surveys 0)
       ((execOp exS1 (Op.setStatus 7 0 false)).surveys 0) ∧
     (((execOp exS1 (Op.setStatus 7 0 false)).surveys 0).isActive =
        (exS1.surveys 0).isActive ∨
      ∃ sender b, Op.setStatus 7 0 false = Op.setStatus sender 0 b ∧
        (sender = (exS1.surveys 0).creator ∨
         ((exS1.permissions 0 sender).existsF = true ∧
          (exS1.permissions 0 sender).canManage = true)))) ∧
    svMetaEq (exS1.surveys 0)
      ((execTrace exS1 [Op.submit 9 150 0 [1]]).surveys 0) :=
  ⟨C9_metadata_immutable.1 exS1 (Op.setStatus 7 0 false) 0 wf_exS1
     (by decide),
   C9_metadata_immutable.2 exS1 [Op.submit 9 150 0 [1]] 0 wf_exS1
     (by decide)⟩

/-- Claim C1: for a SingleChoice question, an accepted submitResponse
adds 1 to the plaintext of the bucket equal to the plaintext answer and
0 to every other bucket in range; and along any trace after creation in
which every accepted answer for the question is an option index in
range, each bucket decrypts to the number of accepted responses that
chose that option and the buckets sum to the number of accepted
responses. -/
theorem C1_single_choice_counts :
    (∀ (s : ContractState) (sender now surveyId : Nat) (answers : List Nat)
       (s' : ContractState), WF s →
       submitResponse s sender now surveyId answers = some s' →
       ∀ q, q < (s.surveys surveyId).questionCount →
       ((s.surveys surveyId).questions q).qType =
         QuestionType.SingleChoice →
       ((s.surveys surveyId).questions q).optionCount ≤ M32 →
       ∀ o, o < ((s.surveys surveyId).questions q).optionCount →
       s'.fhe.plain ((s'.surveys surveyId).aggregatedCounts q o) =
         (s.fhe.plain ((s.surveys surveyId).aggregatedCounts q o) +
           if answerVal answers q = o then 1 else 0) % M32) ∧
    (∀ (s0 : ContractState) (sender now : Nat) (title category : String)
       (tags : List String) (st et : Nat) (qts : List String)
       (qtys : List QuestionType) (qos : List (List String))
       (id : Nat) (s1 : ContractState) (ops : List Op) (q : Nat), WF s0 →
       createSurvey s0 sender now title category tags st et qts qtys qos =
         some (id, s1) →
       q < (s1.surveys id).questionCount →
       ((s1.surveys id).questions q).qType = QuestionType.SingleChoice →
       ((s1.surveys id).questions q).optionCount ≤ M32 →
       (∀ a ∈ answersAt s1 ops id q,
         a < ((s1.surveys id).questions q).optionCount) →
       countAccepted s1 ops id < M32 →
       (∀ o, o < ((s1.surveys id).questions q).optionCount →
         (execTrace s1 ops).fhe.plain
           (((execTrace s1 ops).surveys id).aggregatedCounts q o) =
         (answersAt s1 ops id q).count o) ∧
       (Finset.range ((s1.surveys id).questions q).optionCount).sum
         (fun o => (execTrace s1 ops).fhe.plain
           (((execTrace s1 ops).surveys id).aggregatedCounts q o)) =
       countAccepted s1 ops id) := by
  constructor
  · intro s sender now surveyId answers s' hWF hsub q hq hty hN o ho
    obtain ⟨hok, rfl⟩ := submitResponse_some_iff.mp hsub
    rw [submitState_agg_plain s sender now surveyId answers
      (fun q2 o2 => hWF.agg_lt _ _ _) hWF.plain_lt q hq o]
    rw [bucketDelta_sc _ hty _ _ ho hN]
  · intro s0 sender now title category tags st et qts qtys qos id s1 ops q
      hWF0 hcr hq hty hN hans hK
    obtain ⟨hok, heq⟩ := createSurvey_some_iff.mp hcr
    rw [Prod.mk.injEq] at heq
    obtain ⟨hid, hs1⟩ := heq
    subst hid
    subst hs1
    have hWF1 := createState_wf s0 sender now title category tags st et
      qts qtys qos hWF0
    have hex1 : ((createState s0 sender now title category tags st et qts
        qtys qos).surveys s0.surveyCounter).existsF = true := by
      rw [createState_surveys_self]
      rfl
    have hlen := answersAt_length (createState s0 sender now title category
      tags st et qts qtys qos) ops s0.surveyCounter q
    have hpoint : ∀ o, o < (((createState s0 sender now title category tags
        st et qts qtys qos).surveys s0.surveyCounter).questions
          q).optionCount →
        (execTrace (createState s0 sender now title category tags st et qts
          qtys qos) ops).fhe.plain
          (((execTrace (createState s0 sender now title category tags st et
            qts qtys qos) ops).surveys s0.surveyCounter).aggregatedCounts
              q o) =
        (answersAt (createState s0 sender now title category tags st et qts
          qtys qos) ops s0.surveyCounter q).count o := by
      intro o ho
      rw [execTrace_agg_plain _ ops s0.surveyCounter q o hWF1 hex1 hq]
      rw [show ((createState s0 sender now title category tags st et qts
          qtys qos).surveys s0.surveyCounter).aggregatedCounts q o = 0 from
        by rw [createState_surveys_self]; rfl]
      rw [hWF1.plain_zero, Nat.zero_add]
      rw [show (fun a => bucketDelta (((createState s0 sender now title
          category tags st et qts qtys qos).surveys
            s0.surveyCounter).questions q) a o) =
          (fun a => if a = o then 1 else 0) from
        funext fun a => bucketDelta_sc _ hty a o ho hN]
      rw [sum_indicator_count]
      have hcle : (answersAt (createState s0 sender now title category tags
          st et qts qtys qos) ops s0.surveyCounter q).count o ≤
          countAccepted (createState s0 sender now title category tags st
            et qts qtys qos) ops s0.surveyCounter := by
        rw [← hlen]
        exact List.count_le_length _ _
      exact Nat.mod_eq_of_lt (by omega)
    refine ⟨hpoint, ?_⟩
    rw [Finset.sum_congr rfl (fun o ho => hpoint o (Finset.mem_range.mp ho))]
    rw [count_sum_length _ _ hans]
    exact hlen

theorem C1_single_choice_counts_witness :
    exS2.fhe.plain ((exS2.surveys 0).aggregatedCounts 0 1) =
      (exS1.fhe.plain ((exS1.surveys 0).aggregatedCounts 0 1) +
        if answerVal [1] 0 = 1 then 1 else 0) % M32 ∧
    ((∀ o, o < ((exS1.surveys 0).questions 0).optionCount →
       (execTrace exS1 [Op.submit 9 150 0 [1]]).fhe.plain
         (((execTrace exS1 [Op.submit 9 150 0 [1]]).surveys
           0).aggregatedCounts 0 o) =
       (answersAt exS1 [Op.submit 9 150 0 [1]] 0 0).count o) ∧
     (Finset.range ((exS1.surveys 0).questions 0).optionCount).sum
       (fun o => (execTrace exS1 [Op.submit 9 150 0 [1]]).fhe.plain
         (((execTrace exS1 [Op.submit 9 150 0 [1]]).surveys
           0).aggregatedCounts 0 o)) =
     countAccepted exS1 [Op.submit 9 150 0 [1]] 0) :=
  ⟨C1_single_choice_counts.1 exS1 9 150 0 [1] exS2 wf_exS1 exS2_submit 0
     (by decide) (by decide) (by decide) 1 (by decide),
   C1_single_choice_counts.2 initState 7 50 "T" "C" ["x"] 100 200 ["Q1"]
     [QuestionType.SingleChoice] [["A", "B"]] 0 exS1 [Op.submit 9 150 0 [1]]
     0 wf_initState exS1_create (by decide) (by decide) (by decide)
     (by decide) (by decide)⟩

/-- Claim C4 counterexample: in a survey whose question 0 is
MultipleChoice and question 1 is SingleChoice, the accepted submission
with bitmask 1 for question 0 and answer 0 for question 1 changes the
plaintext of bucket 0 of the other question from 0 to 1, so the buckets
of other questions are not all unchanged. -/
theorem C4_other_question_changes :
    ((exM1.surveys 0).questions 0).qType = QuestionType.MultipleChoice ∧
    submitResponse exM1 9 150 0 [1, 0] = some exM2 ∧
    exM1.fhe.plain ((exM1.surveys 0).aggregatedCounts 1 0) = 0 ∧
    exM2.fhe.plain ((exM2.surveys 0).aggregatedCounts 1 0) = 1 :=
  ⟨by decide, exM2_submit, by decide, by decide⟩

/-- Claim C4 (amended): for a MultipleChoice question q, an accepted
submitResponse adds 1 to the plaintext of bucket o exactly when bit o of
the plaintext bitmask answer for q is set, for every o in range; and
every bucket of every question in range — q itself and the other
questions alike — changes by the bucketDelta of its own question's type
and its own plaintext answer, so buckets of other questions are updated
according to their own answers, not left unchanged. -/
theorem C4_multiple_choice_bitmask :
    (∀ (s : ContractState) (sender now surveyId : Nat) (answers : List Nat)
       (s' : ContractState), WF s →
       submitResponse s sender now surveyId answers = some s' →
       ∀ q, q < (s.surveys surveyId).questionCount →
       ((s.surveys surveyId).questions q).qType =
         QuestionType.MultipleChoice →
       ((s.surveys surveyId).questions q).optionCount ≤ M32 →
       ∀ o, o < ((s.surveys surveyId).questions q).optionCount →
       s'.fhe.plain ((s'.surveys surveyId).aggregatedCounts q o) =
         (s.fhe.plain ((s.surveys surveyId).aggregatedCounts q o) +
           if (answerVal answers q).testBit o then 1 else 0) % M32) ∧
    (∀ (s : ContractState) (sender now surveyId : Nat) (answers : List Nat)
       (s' : ContractState), WF s →
       submitResponse s sender now surveyId answers = some s' →
       ∀ q2, q2 < (s.surveys surveyId).questionCount → ∀ o,
       s'.fhe.plain ((s'.surveys surveyId).aggregatedCounts q2 o) =
         (s.fhe.plain ((s.surveys surveyId).aggregatedCounts q2 o) +
           bucketDelta ((s.surveys surveyId).questions q2)
             (answerVal answers q2) o) % M32) := by
  constructor
  · intro s sender now surveyId answers s' hWF hsub q hq hty hN o ho
    obtain ⟨hok, rfl⟩ := submitResponse_some_iff.mp hsub
    rw [submitState_agg_plain s sender now surveyId answers
      (fun q2 o2 => hWF.agg_lt _ _ _) hWF.plain_lt q hq o]
    rw [bucketDelta_mc _ hty _ _
      (show answerVal answers q < M32 from Nat.mod_lt _ M32_pos) ho hN]
  · intro s sender now surveyId answers s' hWF hsub q2 hq2 o
    obtain ⟨hok, rfl⟩ := submitResponse_some_iff.mp hsub
    exact submitState_agg_plain s sender now surveyId answers
      (fun q3 o3 => hWF.agg_lt _ _ _) hWF.plain_lt q2 hq2 o

theorem C4_multiple_choice_bitmask_witness :
    exM2.fhe.plain ((exM2.surveys 0).aggregatedCounts 0 0) =
      (exM1.fhe.plain ((exM1.surveys 0).aggregatedCounts 0 0) +
        if (answerVal [1, 0] 0).testBit 0 then 1 else 0) % M32 ∧
    exM2.fhe.plain ((exM2.surveys 0).aggregatedCounts 1 0) =
      (exM1.fhe.plain ((exM1.surveys 0).aggregatedCounts 1 0) +
        bucketDelta ((exM1.surveys 0).questions 1)
          (answerVal [1, 0] 1) 0) % M32 :=
  ⟨C4_multiple_choice_bitmask.1 exM1 9 150 0 [1, 0] exM2 wf_exM1
     exM2_submit 0 (by decide) (by decide) (by decide) 0 (by decide),
   C4_multiple_choice_bitmask.2 exM1 9 150 0 [1, 0] exM2 wf_exM1
     exM2_submit 1 (by decide) 0⟩

/-- Claim C5: for a Rating question, an accepted submitResponse adds 1
to the plaintext of bucket v-1 exactly when the plaintext answer v
equals that bucket's rating o+1, for the buckets 0..4; buckets past
index 4 keep their plaintext; an answer outside [1,5] changes no
bucket's plaintext; and Rating aggregation always exposes exactly 5
buckets regardless of the stored option list. -/
theorem C5_rating_buckets (s : ContractState)
    (sender now surveyId : Nat) (answers : List Nat) (s' : ContractState)
    (hWF : WF s)
    (hsub : submitResponse s sender now surveyId answers = some s')
    (q : Nat) (hq : q < (s.surveys surveyId).questionCount)
    (hty : ((s.surveys surveyId).questions q).qType = QuestionType.Rating) :
    (∀ o, o < 5 →
      s'.fhe.plain ((s'.surveys surveyId).aggregatedCounts q o) =
        (s.fhe.plain ((s.surveys surveyId).aggregatedCounts q o) +
          if answerVal answers q = o + 1 then 1 else 0) % M32) ∧
    (∀ o, 5 ≤ o →
      s'.fhe.plain ((s'.surveys surveyId).aggregatedCounts q o) =
        s.fhe.plain ((s.surveys surveyId).aggregatedCounts q o)) ∧
    (∀ o, answerVal answers q = 0 ∨ 5 < answerVal answers q →
      s'.fhe.plain ((s'.surveys surveyId).aggregatedCounts q o) =
        s.fhe.plain ((s.surveys surveyId).aggregatedCounts q o)) ∧
    bucketLen ((s.surveys surveyId).questions q) = 5 := by
  obtain ⟨hok, rfl⟩ := submitResponse_some_iff.mp hsub
  refine ⟨?_, ?_, ?_, by simp [bucketLen, hty]⟩
  · intro o ho
    rw [submitState_agg_plain s sender now surveyId answers
      (fun q2 o2 => hWF.agg_lt _ _ _) hWF.plain_lt q hq o]
    rw [bucketDelta_rating _ hty _ _ ho]
  · intro o ho
    rw [submitState_agg_plain s sender now surveyId answers
      (fun q2 o2 => hWF.agg_lt _ _ _) hWF.plain_lt q hq o]
    rw [bucketDelta_rating_ne _ hty _ _ (Or.inr (by omega)), Nat.add_zero]
    exact Nat.mod_eq_of_lt (hWF.plain_lt _)
  · intro o hv
    rw [submitState_agg_plain s sender now surveyId answers
      (fun q2 o2 => hWF.agg_lt _ _ _) hWF.plain_lt q hq o]
    have hd : bucketDelta ((s.surveys surveyId).questions q)
        (answerVal answers q) o = 0 := by
      by_cases ho : o < 5
      · exact bucketDelta_rating_ne _ hty _ _
          (Or.inl (by rcases hv with hv | hv <;> omega))
      · exact bucketDelta_rating_ne _ hty _ _ (Or.inr ho)
    rw [hd, Nat.add_zero]
    exact Nat.mod_eq_of_lt (hWF.plain_lt _)

theorem C5_rating_buckets_witness :
    (∀ o, o < 5 →
      exR2.fhe.plain ((exR2.surveys 0).aggregatedCounts 0 o) =
        (exR1.fhe.plain ((exR1.surveys 0).aggregatedCounts 0 o) +
          if answerVal [4] 0 = o + 1 then 1 else 0) % M32) ∧
    (∀ o, 5 ≤ o →
      exR2.fhe.plain ((exR2.surveys 0).aggregatedCounts 0 o) =
        exR1.fhe.plain ((exR1.surveys 0).aggregatedCounts 0 o)) ∧
    (∀ o, answerVal [4] 0 = 0 ∨ 5 < answerVal [4] 0 →
      exR2.fhe.plain ((exR2.surveys 0).aggregatedCounts 0 o) =
        exR1.fhe.plain ((exR1.surveys 0).aggregatedCounts 0 o)) ∧
    bucketLen ((exR1.surveys 0).questions 0) = 5 :=
  C5_rating_buckets exR1 9 150 0 [4] exR2 wf_exR1 exR2_submit 0
    (by decide) (by decide)

/-- Claim C7: a successful authorizeAllResultsDecryption appends to the
ACL exactly grants for the caller, and the granted handles are exactly
the survey's totalResponses handle (the one getTotalResponses returns)
together with the handles getQuestionOptionCounts returns for each
question at the moment of the call — 5 handles for a Rating question and
optionCount handles otherwise. -/
theorem C7_authorize_all_grants (s : ContractState) (sender surveyId : Nat)
    (s' : ContractState)
    (hauth : authorizeAllResultsDecryption s sender surveyId = some s') :
    getTotalResponses s surveyId =
      some (s.surveys surveyId).totalResponses ∧
    (∀ q, q < (s.surveys surveyId).questionCount →
      ∃ cs, getQuestionOptionCounts s surveyId q = some cs ∧
        cs.length = (if ((s.surveys surveyId).questions q).qType =
            QuestionType.Rating then 5 else
          ((s.surveys surveyId).questions q).optionCount)) ∧
    (∃ d, s'.fhe.acl = d ++ s.fhe.acl ∧
      (∀ p ∈ d, p.2 = Grantee.user sender) ∧
      (∀ h, (h, Grantee.user sender) ∈ d ↔
        (h = (s.surveys surveyId).totalResponses ∨
         ∃ q cs, q < (s.surveys surveyId).questionCount ∧
           getQuestionOptionCounts s surveyId q = some cs ∧ h ∈ cs))) := by
  obtain ⟨hex, hperm, rfl⟩ := authorizeAllResultsDecryption_some_iff.mp hauth
  refine ⟨getTotalResponses_some hex, ?_, ?_⟩
  · intro q hq
    refine ⟨_, getQuestionOptionCounts_some hex hq, ?_⟩
    rw [List.length_map, List.length_range]
    rfl
  · obtain ⟨d, hd, hb, hm⟩ := allowList_acl s.fhe
      (resultHandles (s.surveys surveyId)) (Grantee.user sender)
    refine ⟨d, hd, fun p hp => (hb p hp).2, fun h => ?_⟩
    constructor
    · intro hmem
      have hin := (hb _ hmem).1
      unfold resultHandles at hin
      rcases List.mem_cons.mp hin with h1 | h1
      · exact Or.inl h1
      · obtain ⟨q, hqmem, hmem2⟩ := List.mem_flatMap.mp h1
        have hqlt := List.mem_range.mp hqmem
        exact Or.inr ⟨q, _, hqlt, getQuestionOptionCounts_some hex hqlt,
          hmem2⟩
    · intro hcase
      apply hm
      unfold resultHandles
      rcases hcase with h1 | ⟨q, cs, hqlt, hcs, hmem2⟩
      · rw [h1]
        exact List.mem_cons_self _ _
      · rw [getQuestionOptionCounts_some hex hqlt] at hcs
        have hcseq := Option.some.inj hcs
        rw [← hcseq] at hmem2
        exact List.mem_cons_of_mem _
          (List.mem_flatMap.mpr ⟨q, List.mem_range.mpr hqlt, hmem2⟩)

theorem C7_authorize_all_grants_witness :
    getTotalResponses exS1 0 = some (exS1.surveys 0).totalResponses ∧
    (∀ q, q < (exS1.surveys 0).questionCount →
      ∃ cs, getQuestionOptionCounts exS1 0 q = some cs ∧
        cs.length = (if ((exS1.surveys 0).questions q).qType =
            QuestionType.Rating then 5 else
          ((exS1.surveys 0).questions q).optionCount)) ∧
    (∃ d, exAuth.fhe.acl = d ++ exS1.fhe.acl ∧
      (∀ p ∈ d, p.2 = Grantee.user 7) ∧
      (∀ h, (h, Grantee.user 7) ∈ d ↔
        (h = (exS1.surveys 0).totalResponses ∨
         ∃ q cs, q < (exS1.surveys 0).questionCount ∧
           getQuestionOptionCounts exS1 0 q = some cs ∧ h ∈ cs))) :=
  C7_authorize_all_grants exS1 7 0 exAuth exAuth_eq

/-- Claim C10: along every trace of entry-point calls from the freshly
deployed contract, every stored answer handle of an existing response
carries ACL grants for the contract only — no user, in particular
neither the respondent nor the survey creator, is ever granted access to
it — and so the handle getResponse returns has contract-only ACL
grants and is not decryptable by the respondent who submitted it. -/
theorem C10_answer_handles_contract_only (ops : List Op) :
    AnswerInv (execTrace initState ops) ∧
    (∀ surveyId userAddress questionIndex h,
      getResponse (execTrace initState ops) surveyId userAddress
        questionIndex = some h →
      (h, Grantee.contract) ∈ (execTrace initState ops).fhe.acl ∧
      (∀ g, (h, g) ∈ (execTrace initState ops).fhe.acl →
        g = Grantee.contract)) := by
  have hInv := execTrace_answerInv initState ops wf_initState
    answerInv_initState
  refine ⟨hInv, ?_⟩
  intro id a qi h hg
  unfold getResponse at hg
  split at hg
  · next hc =>
    rw [Option.some.injEq] at hg
    obtain ⟨h1, h2, h3, h4, h5⟩ := hInv id a qi hc.1 hc.2
    rw [← hg]
    exact ⟨h2, h3⟩
  · cases hg

theorem C10_answer_handles_contract_only_witness :
    AnswerInv (execTrace initState exTrace1) ∧
    ((((execTrace initState exTrace1).responses 0 9).encryptedAnswers 0,
        Grantee.contract) ∈ (execTrace initState exTrace1).fhe.acl ∧
     (∀ g, (((execTrace initState exTrace1).responses 0 9).encryptedAnswers
         0, g) ∈ (execTrace initState exTrace1).fhe.acl →
       g = Grantee.contract)) :=
  ⟨(C10_answer_handles_contract_only exTrace1).1,
   (C10_answer_handles_contract_only exTrace1).2 0 9 0
     (((execTrace initState exTrace1).responses 0 9).encryptedAnswers 0)
     (by decide)⟩

end EncryptedSurvey
